import Mathlib

/-!
GAIA MATRIX: the AOPL front end.

A shallow embedding of the two AOPL parsers of the repository and of the
script code generator:

* `GaiaMatrix.Aopl`: the native parser `Parser::Parse` / `Parser::Compile`
  of `src/aopl/parser.cpp`;
* `GaiaMatrix.Web`: the script runtime that `WebCompiler::GenerateAOPLRuntime`
  (`src/web/web_compiler.cpp`) emits: `aopl.parse`, `aopl.generateJavaScript`,
  `aopl.compileAOPL` and the three `translate*` helpers.

Strings are lists of characters.  For the script a character stands for one
UTF-16 code unit; none of the patterns used by the script tells a surrogate
pair from a single character, so code points are used.  For the native parser
a character stands for one code point of the UTF-8 text; the only bytes the
parser looks for (`N`, `E`, `#`, `<`, line feed) are ASCII, so reading the text
by code points cuts it at the same places.
-/

namespace GaiaMatrix

/-- A string of the program. -/
abbrev Str := List Char

/-! ## Script runtime: characters, trimming, splitting -/

namespace Web

/-- ECMAScript `LineTerminator`: LF, CR, LS, PS (what `.` does not match). -/
def isLineTerminator (c : Char) : Bool :=
  c.toNat = 0x0A || c.toNat = 0x0D || c.toNat = 0x2028 || c.toNat = 0x2029

/-- ECMAScript `\s` (and what `trim` removes): `WhiteSpace` and
`LineTerminator`. -/
def isSpace (c : Char) : Bool :=
  c.toNat = 0x09 || c.toNat = 0x0B || c.toNat = 0x0C || c.toNat = 0x20 ||
  c.toNat = 0xA0 || c.toNat = 0x1680 || (0x2000 ≤ c.toNat && c.toNat ≤ 0x200A) ||
  c.toNat = 0x202F || c.toNat = 0x205F || c.toNat = 0x3000 || c.toNat = 0xFEFF ||
  isLineTerminator c

/-- ECMAScript `\w`: `[A-Za-z0-9_]`. -/
def isWord (c : Char) : Bool :=
  (0x41 ≤ c.toNat && c.toNat ≤ 0x5A) || (0x61 ≤ c.toNat && c.toNat ≤ 0x7A) ||
  (0x30 ≤ c.toNat && c.toNat ≤ 0x39) || c.toNat = 0x5F

/-- The pattern atom `.`: any character but a line terminator. -/
def isDot (c : Char) : Bool := !isLineTerminator c

/-- The pattern atom `[^)]`. -/
def notRParen (c : Char) : Bool := !(c = ')')

/-- The pattern atom `[^{}]`. -/
def notBrace (c : Char) : Bool := !(c = '\x7b') && !(c = '\x7d')

/-- `String.prototype.trimEnd`. -/
def trimEnd (s : Str) : Str := (s.reverse.dropWhile isSpace).reverse

/-- `String.prototype.trim`. -/
def trim (s : Str) : Str := trimEnd (s.dropWhile isSpace)

/-- `s.split(sep)` for a one-character separator: the pieces between the
separators, empty pieces kept; the empty string gives one empty piece. -/
def splitOn (sep : Char) : Str → List Str
  | [] => [[]]
  | c :: cs =>
    if c = sep then [] :: splitOn sep cs
    else
      match splitOn sep cs with
      | [] => [[c]]
      | l :: ls => (c :: l) :: ls

/-- `line.startsWith('//')`. -/
def startsWithSlashes : Str → Bool
  | '/' :: '/' :: _ => true
  | _ => false

/-- `xs.join(sep)`. -/
def joinWith (sep : Str) : List Str → Str
  | [] => []
  | [x] => x
  | x :: y :: rest => x ++ sep ++ joinWith sep (y :: rest)

/-! ## Script runtime: backtracking pattern matching

Each pattern of `aopl.parse` is written with the combinators below.  A
combinator takes the continuation `k` that matches the rest of the pattern and
returns the text it matched itself together with the result of `k`.  Greedy
quantifiers try the longest repetition first and give characters back one at a
time, lazy ones try the shortest first, as the ECMAScript matcher does. -/

/-- A literal character. -/
def lit {α : Type} (c : Char) (k : Str → Option α) : Str → Option α
  | [] => none
  | d :: ds => if d = c then k ds else none

/-- Greedy `p*`. -/
def starG {α : Type} (p : Char → Bool) (k : Str → Option α) : Str → Option (Str × α)
  | [] => (k []).map fun a => ([], a)
  | c :: cs =>
    if p c then
      match starG p k cs with
      | some (m, a) => some (c :: m, a)
      | none => (k (c :: cs)).map fun a => ([], a)
    else (k (c :: cs)).map fun a => ([], a)

/-- Greedy `p+`. -/
def plusG {α : Type} (p : Char → Bool) (k : Str → Option α) : Str → Option (Str × α)
  | [] => none
  | c :: cs => if p c then (starG p k cs).map fun r => (c :: r.1, r.2) else none

/-- Lazy `p*?`. -/
def starL {α : Type} (p : Char → Bool) (k : Str → Option α) : Str → Option (Str × α)
  | [] => (k []).map fun a => ([], a)
  | c :: cs =>
    match k (c :: cs) with
    | some a => some ([], a)
    | none => if p c then (starL p k cs).map fun r => (c :: r.1, r.2) else none

/-- Lazy `p+?`. -/
def plusL {α : Type} (p : Char → Bool) (k : Str → Option α) : Str → Option (Str × α)
  | [] => none
  | c :: cs => if p c then (starL p k cs).map fun r => (c :: r.1, r.2) else none

/-- Greedy `c?`. -/
def optG {α : Type} (c : Char) (k : Str → Option α) : Str → Option α
  | [] => k []
  | d :: ds =>
    if d = c then
      match k ds with
      | some a => some a
      | none => k (d :: ds)
    else k (d :: ds)

/-- End of the pattern with no `$`: the rest of the line is not looked at. -/
def accept : Str → Option Unit := fun _ => some ()

/-- The anchor `$` (no `m` flag): only the end of the string. -/
def eos : Str → Option Unit
  | [] => some ()
  | _ :: _ => none

/-- The pattern `/^E\s+(\w+)\s*\{/`; the result is group 1. -/
def entityMatch (line : Str) : Option Str :=
  (lit 'E' (plusG isSpace (plusG isWord (starG isSpace (lit '\x7b' accept)))) line).map
    fun r => r.2.1

/-- The pattern `/^\s*C\s+(\w+)\s*\{/`; the result is group 1. -/
def componentMatch (line : Str) : Option Str :=
  (starG isSpace (lit 'C' (plusG isSpace (plusG isWord (starG isSpace (lit '\x7b' accept)))))
    line).map fun r => r.2.2.1

/-- The pattern `/^\s*T\s*\{/`. -/
def transformMatch (line : Str) : Bool :=
  (starG isSpace (lit 'T' (starG isSpace (lit '\x7b' accept))) line).isSome

/-- The pattern `/^\s*⊻\s+(\w+)\(([^)]*?)\)\s*\{/`; the result is groups 1
and 2. -/
def eventMatch (line : Str) : Option (Str × Str) :=
  (starG isSpace (lit '⊻' (plusG isSpace (plusG isWord (lit '('
    (starL notRParen (lit ')' (starG isSpace (lit '\x7b' accept)))))))) line).map
    fun r => (r.2.2.1, r.2.2.2.1)

/-- The pattern `/^\s*NN\s+(\w+)\s*\{/`; the result is group 1. -/
def nnMatch (line : Str) : Option Str :=
  (starG isSpace (lit 'N' (lit 'N' (plusG isSpace (plusG isWord
    (starG isSpace (lit '\x7b' accept)))))) line).map fun r => r.2.2.1

/-- The pattern `/^\s*(\w+)\s*:\s*(.+),?$/`; the result is groups 1 and 2. -/
def propertyMatch (line : Str) : Option (Str × Str) :=
  (starG isSpace (plusG isWord (starG isSpace (lit ':' (starG isSpace
    (plusG isDot (optG ',' eos)))))) line).map
    fun r => (r.2.1, r.2.2.2.2.1)

/-- The pattern `/^\s*⊿\s+(.+)\s*\{/`; the result is group 1. -/
def conditionalMatch (line : Str) : Option Str :=
  (starG isSpace (lit '⊿' (plusG isSpace (plusG isDot (starG isSpace (lit '\x7b' accept)))))
    line).map fun r => r.2.2.1

/-- The pattern `/^\s*(.+?)\s*→\s*(.+)$/`; the result is groups 1 and 2. -/
def flowMatch (line : Str) : Option (Str × Str) :=
  (starG isSpace (plusL isDot (starG isSpace (lit '→' (starG isSpace (plusG isDot eos)))))
    line).map fun r => (r.2.1, r.2.2.2.2.1)

/-- The pattern `/^\s*[^{}]+$/`. -/
def statementMatch (line : Str) : Bool :=
  (starG isSpace (plusG notBrace eos) line).isSome

/-- The pattern `/^\s*\}\s*$/`. -/
def closeMatch (line : Str) : Bool :=
  (starG isSpace (lit '\x7d' (starG isSpace eos)) line).isSome

/-! ## Script runtime: the AST built by `aopl.parse` -/

/-- A property node: the object `{ name, value }`. -/
structure Property where
  name : Str
  value : Str
  deriving DecidableEq, Repr

/-- A node of a `body` array: `{ type: 'Conditional', condition, body }`,
`{ type: 'DataFlow', source, target }` or `{ type: 'Statement', code }`. -/
inductive Stmt where
  | conditional (condition : Str) (body : List Stmt)
  | dataFlow (source target : Str)
  | statement (code : Str)
  deriving Repr

/-- The `type` field of a node of a `components` array. -/
inductive ComponentType where
  | component
  | neuralNetwork
  deriving DecidableEq, Repr

/-- A node of a `components` array: `{ type, name, properties }`. -/
structure Component where
  type : ComponentType
  name : Str
  properties : List Property
  deriving DecidableEq, Repr

/-- A node of a `functions` array:
`{ type: 'EventHandler', name, parameters, body }`. -/
structure EventHandler where
  name : Str
  parameters : List Str
  body : List Stmt
  deriving Repr

/-- An entity node: `{ type: 'Entity', name, components, functions }`. -/
structure Entity where
  name : Str
  components : List Component
  functions : List EventHandler
  deriving Repr

/-- The root `{ type: 'Program', body }`.  `aopl.parse` pushes nothing but
entity nodes to `body`. -/
structure Program where
  body : List Entity
  deriving Repr

/-- A reference to a node of the AST under construction, with the node's
`type`: the script holds object references in `currentBlock` and in the
frames `{ type, node }` of `blockStack`; arrays only grow, so a node is named
by its indices.  `component e j` and `neuralNetwork e j` are element `j` of the
`components` of entity `e`, `eventHandler e j` is element `j` of its
`functions`, `conditional e j k` is element `k` of the body of that handler. -/
inductive Ref where
  | entity (e : Nat)
  | component (e j : Nat)
  | neuralNetwork (e j : Nat)
  | eventHandler (e j : Nat)
  | conditional (e j k : Nat)
  deriving DecidableEq, Repr

/-- The local variables of `aopl.parse`.  `blockStack` has its top first. -/
structure State where
  ast : Program
  currentEntity : Option Nat
  currentBlock : Option Ref
  blockStack : List Ref
  deriving Repr

/-- Apply `f` to element `i` of a list; `none` when there is no such element
or `f` fails. -/
def updateAt {α β : Type} (f : α → Option (α × β)) : List α → Nat → Option (List α × β)
  | [], _ => none
  | a :: as, 0 => (f a).map fun r => (r.1 :: as, r.2)
  | a :: as, i + 1 => (updateAt f as i).map fun r => (a :: r.1, r.2)

/-- The call `entity.components.push(c)` on entity `e`; the result carries the
index of the new component. -/
def pushComponent (ast : Program) (e : Nat) (c : Component) : Option (Program × Nat) :=
  (updateAt (fun ent : Entity =>
      some ({ ent with components := ent.components ++ [c] }, ent.components.length))
    ast.body e).map fun r => (⟨r.1⟩, r.2)

/-- The call `entity.functions.push(f)` on entity `e`; the result carries the
index of the new handler. -/
def pushFunction (ast : Program) (e : Nat) (f : EventHandler) : Option (Program × Nat) :=
  (updateAt (fun ent : Entity =>
      some ({ ent with functions := ent.functions ++ [f] }, ent.functions.length))
    ast.body e).map fun r => (⟨r.1⟩, r.2)

/-- The call `block.properties.push(p)` on component `j` of entity `e`. -/
def pushProperty (ast : Program) (e j : Nat) (p : Property) : Option Program :=
  (updateAt (fun ent : Entity =>
      (updateAt (fun c : Component =>
          some ({ c with properties := c.properties ++ [p] }, ()))
        ent.components j).map fun r => ({ ent with components := r.1 }, ()))
    ast.body e).map fun r => ⟨r.1⟩

/-- The call `node.body.push(s)` on the node behind a reference; the result
carries the index of the new statement.  Only handlers and conditionals have a
`body`. -/
def pushBody (ast : Program) (r : Ref) (s : Stmt) : Option (Program × Nat) :=
  match r with
  | .eventHandler e j =>
    (updateAt (fun ent : Entity =>
        (updateAt (fun f : EventHandler =>
            some ({ f with body := f.body ++ [s] }, f.body.length))
          ent.functions j).map fun r => ({ ent with functions := r.1 }, r.2))
      ast.body e).map fun r => (⟨r.1⟩, r.2)
  | .conditional e j k =>
    (updateAt (fun ent : Entity =>
        (updateAt (fun f : EventHandler =>
            (updateAt (fun t : Stmt =>
                match t with
                | .conditional c b => some (Stmt.conditional c (b ++ [s]), b.length)
                | _ => none)
              f.body k).map fun r => ({ f with body := r.1 }, r.2))
          ent.functions j).map fun r => ({ ent with functions := r.1 }, r.2))
      ast.body e).map fun r => (⟨r.1⟩, r.2)
  | _ => none

/-- The test `type === 'EventHandler' || type === 'Conditional'`. -/
def Ref.hasBody : Ref → Bool
  | .eventHandler _ _ => true
  | .conditional _ _ _ => true
  | _ => false

/-- The expression `eventMatch[2].split(',').map(p => p.trim()).filter(p => p)`. -/
def parseParameters (s : Str) : List Str :=
  ((splitOn ',' s).map trim).filter fun p => !p.isEmpty

/-- The state before the first line. -/
def initState : State :=
  { ast := ⟨[]⟩, currentEntity := none, currentBlock := none, blockStack := [] }

/-- The statement branches of the loop body (data flow, simple statement,
close block), tried in this order after the declarations. -/
def stepStatement (st : State) (line : Str) : Option State :=
  match flowMatch line with
  | some (src, tgt) =>
    match st.blockStack with
    | top :: _ =>
      if top.hasBody then
        (pushBody st.ast top (.dataFlow (trim src) (trim tgt))).map fun r =>
          { st with ast := r.1 }
      else some st
    | [] => some st
  | none =>
    if statementMatch line && !st.blockStack.isEmpty then
      match st.blockStack with
      | top :: _ =>
        if top.hasBody then
          (pushBody st.ast top (.statement (trim line))).map fun r =>
            { st with ast := r.1 }
        else some st
      | [] => some st
    else if closeMatch line then
      match st.blockStack with
      | [] => some st
      | _ :: [] =>
        some { st with blockStack := [], currentBlock := none, currentEntity := none }
      | _ :: top :: rest =>
        some { st with
          blockStack := top :: rest
          currentBlock := some top
          currentEntity :=
            match top with
            | .entity e => some e
            | _ => st.currentEntity }
    else some st

/-- The property and conditional branches of the loop body, then the
statement branches. -/
def stepBlock (st : State) (line : Str) : Option State :=
  match propertyMatch line, st.currentBlock with
  | some (name, value), some (.component e j) =>
    (pushProperty st.ast e j ⟨name, trim value⟩).map fun a => { st with ast := a }
  | some (name, value), some (.neuralNetwork e j) =>
    (pushProperty st.ast e j ⟨name, trim value⟩).map fun a => { st with ast := a }
  | _, _ =>
    match conditionalMatch line, st.currentBlock with
    | some cond, some (.eventHandler e j) =>
      (pushBody st.ast (.eventHandler e j) (.conditional cond [])).map fun r =>
        { st with ast := r.1, blockStack := .conditional e j r.2 :: st.blockStack }
    | _, _ => stepStatement st line

/-- The declaration branches that need a current entity (component,
transform, event handler, neural network), then the block branches. -/
def stepDeclaration (st : State) (line : Str) : Option State :=
  match componentMatch line, st.currentEntity with
  | some name, some e =>
    (pushComponent st.ast e ⟨.component, name, []⟩).map fun r =>
      { st with ast := r.1, currentBlock := some (.component e r.2),
                blockStack := .component e r.2 :: st.blockStack }
  | _, _ =>
    match transformMatch line, st.currentEntity with
    | true, some e =>
      (pushComponent st.ast e ⟨.component, "Transform".toList, []⟩).map fun r =>
        { st with ast := r.1, currentBlock := some (.component e r.2),
                  blockStack := .component e r.2 :: st.blockStack }
    | _, _ =>
      match eventMatch line, st.currentEntity with
      | some (name, params), some e =>
        (pushFunction st.ast e ⟨name, parseParameters params, []⟩).map fun r =>
          { st with ast := r.1, currentBlock := some (.eventHandler e r.2),
                    blockStack := .eventHandler e r.2 :: st.blockStack }
      | _, _ =>
        match nnMatch line, st.currentEntity with
        | some name, some e =>
          (pushComponent st.ast e ⟨.neuralNetwork, name, []⟩).map fun r =>
            { st with ast := r.1, currentBlock := some (.neuralNetwork e r.2),
                      blockStack := .neuralNetwork e r.2 :: st.blockStack }
        | _, _ => stepBlock st line

/-- One turn of the loop of `aopl.parse` on the line `lines[i]`.  `none` stands
for a `TypeError` (a field read on a node that does not have it). -/
def step (st : State) (raw : Str) : Option State :=
  let line := trim raw
  if line.isEmpty || startsWithSlashes line then some st
  else
    match entityMatch line with
    | some name =>
      some { st with
        ast := ⟨st.ast.body ++ [⟨name, [], []⟩]⟩
        currentEntity := some st.ast.body.length
        blockStack := .entity st.ast.body.length :: st.blockStack }
    | none => stepDeclaration st line

/-- The loop `for (let i = 0; i < lines.length; i++)`. -/
def runLines : State → List Str → Option State
  | st, [] => some st
  | st, l :: ls =>
    match step st l with
    | some st' => runLines st' ls
    | none => none

/-- The function `window.gaiaMatrix.aopl.parse`. -/
def parse (source : Str) : Option Program :=
  (runLines initState (splitOn '\n' source)).map fun st => st.ast

/-! ## Script runtime: `aopl.generateJavaScript` -/

/-- The function `translateCondition`. -/
def translateCondition (condition : Str) : Str := condition

/-- The function `translateDataFlow`: the template `${target} = ${source}`. -/
def translateDataFlow (target source : Str) : Str := target ++ " = ".toList ++ source

/-- The function `translateStatement`. -/
def translateStatement (statement : Str) : Str := statement

/-- One turn of the loop `for (const innerStmt of stmt.body)`: a node that is
neither a `DataFlow` nor a `Statement` adds nothing. -/
def genInner (js : Str) (innerStmt : Stmt) : Str :=
  match innerStmt with
  | .dataFlow source target =>
    js ++ ("        ".toList ++ translateDataFlow target source ++ ";\n".toList)
  | .statement code =>
    js ++ ("        ".toList ++ translateStatement code ++ ";\n".toList)
  | .conditional _ _ => js

/-- One turn of the loop `for (const stmt of fn.body)`. -/
def genStmt (js : Str) (stmt : Stmt) : Str :=
  match stmt with
  | .conditional condition body =>
    body.foldl genInner
        (js ++ ("      if (".toList ++ translateCondition condition ++ ") \x7b\n".toList))
      ++ "      \x7d\n".toList
  | .dataFlow source target =>
    js ++ ("      ".toList ++ translateDataFlow target source ++ ";\n".toList)
  | .statement code =>
    js ++ ("      ".toList ++ translateStatement code ++ ";\n".toList)

/-- One turn of the loop `for (const fn of entity.functions)`. -/
def genFunction (js : Str) (fn : EventHandler) : Str :=
  fn.body.foldl genStmt
      (js ++ ("    ".toList ++ fn.name ++ ": function(".toList ++
        joinWith ", ".toList fn.parameters ++ ") \x7b\n".toList))
    ++ "    \x7d,\n".toList

/-- One turn of the loop `for (const prop of component.properties)`. -/
def genProperty (js : Str) (prop : Property) : Str :=
  js ++ ("      ".toList ++ prop.name ++ ": ".toList ++ prop.value ++ ",\n".toList)

/-- One turn of the loop `for (const component of entity.components)`. -/
def genComponent (js : Str) (component : Component) : Str :=
  component.properties.foldl genProperty
      (js ++ ("    ".toList ++ component.name ++ ": \x7b\n".toList))
    ++ "    \x7d,\n".toList

/-- One turn of the loop `for (const entity of ast.body)`; every node of
`body` has the type `Entity`. -/
def genEntity (js : Str) (entity : Entity) : Str :=
  entity.functions.foldl genFunction
      (entity.components.foldl genComponent
        (js ++ ("  // Entity: ".toList ++ entity.name ++ "\n".toList)
            ++ ("  entities.".toList ++ entity.name ++ " = \x7b\n".toList)))
    ++ "  \x7d;\n\n".toList

/-- The text with which `generateJavaScript` starts `js`. -/
def prologue : Str :=
  "// Generated by GAIA MATRIX AOPL Compiler\n".toList ++ "(function() \x7b\n".toList ++
    "  const entities = \x7b\x7d;\n\n".toList

/-- The text that `generateJavaScript` adds after the entity loop. -/
def epilogue : Str :=
  "  // Register entities with GAIA MATRIX engine\n".toList ++
    "  for (const [name, entity] of Object.entries(entities)) \x7b\n".toList ++
    "    window.gaiaMatrix.registerEntity(name, entity);\n".toList ++
    "  \x7d\n".toList ++ "\x7d)();\n".toList

/-- The function `window.gaiaMatrix.aopl.generateJavaScript`. -/
def generateJavaScript (ast : Program) : Str :=
  ast.body.foldl genEntity prologue ++ epilogue

/-- The function `window.gaiaMatrix.aopl.compileAOPL`: parse, then generate; an
exception of either is thrown again. -/
def compileAOPL (source : Str) : Option Str :=
  (parse source).map generateJavaScript

end Web

/-! ## Native parser: `Parser::Parse`, `Parser::Compile` -/

namespace Aopl

/-- The class `Entity`: a name, the components and the transform.  `Parse`
never adds a component and never sets the transform, so only the name and the
(empty) component list are kept. -/
structure Entity where
  m_Name : Str
  m_Components : List Str
  deriving DecidableEq, Repr

/-- The class `Parser`: the entity list, the node registry (a map from names
to nodes, kept as an association list with one entry per key) and the parsed
flag. -/
structure Parser where
  m_Entities : List Entity
  m_NodeRegistry : List (Str × Entity)
  m_IsParsed : Bool
  deriving DecidableEq, Repr

/-- The constructor `Parser::Parser()`. -/
def Parser.new : Parser :=
  { m_Entities := [], m_NodeRegistry := [], m_IsParsed := false }

/-- The lines that `std::getline` reads from the stream, `cur` being the
reversed text of the line read so far: a line ends at a line feed or at the end
of the text, and nothing is read after a final line feed. -/
def getlinesAux (cur : Str) : Str → List Str
  | [] => if cur.isEmpty then [] else [cur.reverse]
  | c :: cs => if c = '\n' then cur.reverse :: getlinesAux [] cs else getlinesAux (c :: cur) cs

/-- The lines of `std::istringstream stream(code)`. -/
def getlines (code : Str) : List Str := getlinesAux [] code

/-- The width of `size_t`. -/
def sizeMod : Nat := 2 ^ 64

/-- The value `std::string::npos`. -/
def npos : Nat := sizeMod - 1

/-- The first position of `c` in a string, if there is one. -/
def findFrom (c : Char) : Str → Option Nat
  | [] => none
  | d :: ds => if d = c then some 0 else (findFrom c ds).map fun i => i + 1

/-- `line.find(c)`: the first position of `c`, or `npos`. -/
def find (c : Char) (line : Str) : Nat :=
  match findFrom c line with
  | some i => i
  | none => npos

/-- `line.substr(pos, count)` for `pos ≤ line.size()`; `none` stands for the
`std::out_of_range` thrown when `pos > line.size()`. -/
def substr (line : Str) (pos count : Nat) : Option Str :=
  if pos > line.length then none else some ((line.drop pos).take count)

/-- The registry write `m_NodeRegistry[name] = node`. -/
def registryInsert (reg : List (Str × Entity)) (name : Str) (node : Entity) :
    List (Str × Entity) :=
  if reg.any (fun kv => kv.1 = name) then
    reg.map fun kv => if kv.1 = name then (name, node) else kv
  else (name, node) :: reg

/-- The entity name that the entity branch of `Parse` extracts from a line;
`none` stands for an exception of `substr`.  The arithmetic is that of
`size_t`. -/
def entityName (line : Str) : Option Str :=
  let anglePos := find '<' line
  if anglePos ≠ npos then
    let ePos := find 'E' line
    match substr line ((ePos + 1) % sizeMod) ((anglePos + sizeMod - ePos + sizeMod - 1) % sizeMod) with
    | some name => if name.isEmpty then some "Entity".toList else some name
    | none => none
  else some "Entity".toList

/-- The local state of the loop of `Parse`: the parser and `currentEntity`. -/
structure LoopState where
  parser : Parser
  currentEntity : Option Entity
  deriving DecidableEq, Repr

/-- One turn of the loop `while (std::getline(stream, line))`. -/
def parseLine (st : LoopState) (line : Str) : Option LoopState :=
  match line with
  | [] => some st
  | c :: _ =>
    if c = '#' then some st
    else if c = 'N' && find 'E' line ≠ npos then
      match entityName line with
      | some name =>
        let currentEntity : Entity := ⟨name, []⟩
        some
          { parser :=
              { st.parser with
                m_Entities := st.parser.m_Entities ++ [currentEntity]
                m_NodeRegistry := registryInsert st.parser.m_NodeRegistry name currentEntity }
            currentEntity := some currentEntity }
      | none => none
    else some st

/-- The loop of `Parse` over the lines. -/
def parseLines : LoopState → List Str → Option LoopState
  | st, [] => some st
  | st, l :: ls =>
    match parseLine st l with
    | some st' => parseLines st' ls
    | none => none

/-- The method `Parser::Parse`: the returned flag and the parser after the
call; `none` stands for an exception. -/
def Parser.Parse (p : Parser) (code : Str) : Option (Bool × Parser) :=
  let cleared : Parser := { p with m_Entities := [], m_NodeRegistry := [], m_IsParsed := false }
  (parseLines ⟨cleared, none⟩ (getlines code)).map fun st =>
    (true, { st.parser with m_IsParsed := true })

/-- The method `Parser::GetEntities`. -/
def Parser.GetEntities (p : Parser) : List Entity := p.m_Entities

/-- The method `Parser::Compile`. -/
def Parser.Compile (p : Parser) : Bool × Parser :=
  if !p.m_IsParsed then (false, p) else (true, p)

end Aopl

/-! ## Engine runtime: `Engine`, `Platform`, `Renderer`, `NeuralEngine`

The static instance pointers of the four classes are the fields of `World`; a
static method takes the world and returns the world after the call.  The text
written to `std::cout` and `std::cerr` is not kept. -/

namespace Core

/-- The preprocessor symbols that platform.cpp tests. -/
structure Target where
  apple : Bool
  arm64 : Bool
  win32 : Bool
  linux : Bool
  gaiaOS : Bool
  deriving DecidableEq, Repr

/-- The enumeration `PlatformType`. -/
inductive PlatformType where
  | Unknown
  | GaiaOS
  | MacOS
  | Windows
  | Linux
  deriving DecidableEq, Repr

/-- The enumeration `RenderAPI`. -/
inductive RenderAPI where
  | None
  | Metal
  | Vulkan
  | OpenGL
  | WebGL
  deriving DecidableEq, Repr

/-- The structure `RendererConfig`. -/
structure RendererConfig where
  width : Int
  height : Int
  vsync : Bool
  fullscreen : Bool
  enableNeuralEnhancement : Bool
  api : RenderAPI
  windowTitle : Str
  deriving DecidableEq, Repr

/-- The default member initializers of `RendererConfig`. -/
def RendererConfig.default : RendererConfig :=
  { width := 1280, height := 720, vsync := true, fullscreen := false,
    enableNeuralEnhancement := true, api := .Metal, windowTitle := "GAIA MATRIX".toList }

/-- The data members of `Platform`. -/
structure Platform where
  m_IsInitialized : Bool
  m_PlatformType : PlatformType
  deriving DecidableEq, Repr

/-- The data members of `Renderer`. -/
structure Renderer where
  m_IsInitialized : Bool
  m_NeuralEnhancementEnabled : Bool
  m_API : RenderAPI
  m_Config : RendererConfig
  deriving DecidableEq, Repr

/-- The structure `NeuralEngine::Model`; the shapes are never written and the
handle is always null. -/
structure Model where
  id : Int
  path : Str
  deriving DecidableEq, Repr

/-- The data members of `NeuralEngine`. -/
structure NeuralEngine where
  m_IsInitialized : Bool
  m_IsNeuralEngineAvailable : Bool
  m_LoadedModels : List Model
  deriving DecidableEq, Repr

/-- The data members of `Engine`. -/
structure Engine where
  m_IsInitialized : Bool
  m_NeuralEngineEnabled : Bool
  m_AppName : Str
  deriving DecidableEq, Repr

/-- The four `s_Instance` pointers; `none` is the null pointer. -/
structure World where
  engine : Option Engine
  platform : Option Platform
  renderer : Option Renderer
  neuralEngine : Option NeuralEngine
  deriving DecidableEq, Repr

/-- The program start: every `s_Instance` is null. -/
def World.start : World :=
  { engine := none, platform := none, renderer := none, neuralEngine := none }

/-- The platform type that `Platform::Initialize` detects (`isGaiaOS` is the
constant false). -/
def Target.platformType (t : Target) : PlatformType :=
  if t.apple then .MacOS
  else if t.win32 then .Windows
  else if t.linux then .Linux
  else .Unknown

/-- The method `Platform::Initialize`. -/
def Platform.Initialize (t : Target) (w : World) : Bool × World :=
  match w.platform with
  | some _ => (false, w)
  | none =>
    (true, { w with platform := some { m_IsInitialized := true, m_PlatformType := t.platformType } })

/-- The method `Platform::Shutdown`. -/
def Platform.Shutdown (w : World) : World :=
  match w.platform with
  | none => w
  | some _ => { w with platform := none }

/-- The method `Platform::IsNeuralEngineAvailable`. -/
def Platform.IsNeuralEngineAvailable (t : Target) (w : World) : Bool :=
  match w.platform with
  | none => false
  | some _ =>
    if t.apple then
      if t.arm64 then true else false
    else if t.gaiaOS then true
    else false

/-- The method `NeuralEngine::Initialize`. -/
def NeuralEngine.Initialize (t : Target) (w : World) : Bool × World :=
  match w.neuralEngine with
  | some _ => (false, w)
  | none =>
    let inst : NeuralEngine :=
      { m_IsInitialized := true
        m_IsNeuralEngineAvailable := Platform.IsNeuralEngineAvailable t w
        m_LoadedModels := [] }
    (true, { w with neuralEngine := some inst })

/-- The method `NeuralEngine::IsAvailable`. -/
def NeuralEngine.IsAvailable (w : World) : Bool :=
  match w.neuralEngine with
  | none => false
  | some inst => inst.m_IsNeuralEngineAvailable

/-- The conversion `static_cast<int>` of a size. -/
def toInt (n : Nat) : Int := ((n + 2 ^ 31) % 2 ^ 32 : Nat) - 2 ^ 31

/-- The method `NeuralEngine::LoadModel`; `fileExists` is
`FileSystem::FileExists`. -/
def NeuralEngine.LoadModel (fileExists : Str → Bool) (ne : NeuralEngine) (modelPath : Str) :
    Int × NeuralEngine :=
  if !ne.m_IsInitialized then (-1, ne)
  else if !fileExists modelPath then (-1, ne)
  else
    let model : Model := { id := toInt ne.m_LoadedModels.length, path := modelPath }
    (model.id, { ne with m_LoadedModels := ne.m_LoadedModels ++ [model] })

/-- The loop of `NeuralEngine::UnloadModel`: the first model with the id is
erased. -/
def eraseModel (modelId : Int) : List Model → List Model
  | [] => []
  | m :: ms => if m.id = modelId then ms else m :: eraseModel modelId ms

/-- The method `NeuralEngine::UnloadModel`. -/
def NeuralEngine.UnloadModel (ne : NeuralEngine) (modelId : Int) : NeuralEngine :=
  if !ne.m_IsInitialized then ne
  else { ne with m_LoadedModels := eraseModel modelId ne.m_LoadedModels }

/-- The lookup loop of `NeuralEngine::RunInference`: the first model with the
id. -/
def findModel (modelId : Int) : List Model → Option Model
  | [] => none
  | m :: ms => if m.id = modelId then some m else findModel modelId ms

/-- The method `NeuralEngine::RunInference`, up to the lookup: the model the
inference runs on, `none` when the empty vector is returned. -/
def NeuralEngine.RunInference (ne : NeuralEngine) (modelId : Int) : Option Model :=
  if !ne.m_IsInitialized then none
  else findModel modelId ne.m_LoadedModels

/-- The method `Renderer::CreateContext`. -/
def Renderer.CreateContext (api : RenderAPI) : Bool :=
  match api with
  | .Metal => true
  | .Vulkan => true
  | .OpenGL => true
  | .WebGL => true
  | _ => false

/-- The method `Renderer::Initialize`. -/
def Renderer.Initialize (config : RendererConfig) (w : World) : Bool × World :=
  match w.renderer with
  | some _ => (false, w)
  | none =>
    let inst : Renderer :=
      { m_IsInitialized := false, m_NeuralEnhancementEnabled := config.enableNeuralEnhancement,
        m_API := config.api, m_Config := config }
    if !Renderer.CreateContext config.api then (false, { w with renderer := none })
    else (true, { w with renderer := some { inst with m_IsInitialized := true } })

/-- The method `Renderer::Shutdown`. -/
def Renderer.Shutdown (w : World) : World :=
  match w.renderer with
  | none => w
  | some _ => { w with renderer := none }

/-- The statement `delete s_Instance` of engine.cpp: the destructor
`Engine::~Engine` runs on the instance. -/
def Engine.delete (w : World) : World :=
  match w.engine with
  | none => w
  | some inst => if inst.m_IsInitialized then Platform.Shutdown (Renderer.Shutdown w) else w

/-- The method `Engine::Initialize`. -/
def Engine.Initialize (t : Target) (appName : Str) (enableNeuralEngine : Bool) (w : World) :
    Bool × World :=
  match w.engine with
  | some _ => (false, w)
  | none =>
    let inst : Engine :=
      { m_IsInitialized := false, m_NeuralEngineEnabled := enableNeuralEngine, m_AppName := appName }
    let w1 : World := { w with engine := some inst }
    let r := Platform.Initialize t w1
    if !r.1 then (false, { Engine.delete r.2 with engine := none })
    else
      let neuralEngineAvailable := Platform.IsNeuralEngineAvailable t r.2
      let w2 : World :=
        if enableNeuralEngine then
          if neuralEngineAvailable then (NeuralEngine.Initialize t r.2).2 else r.2
        else r.2
      let rendererConfig : RendererConfig :=
        { RendererConfig.default with
          windowTitle := appName
          enableNeuralEnhancement := enableNeuralEngine && neuralEngineAvailable }
      let r3 := Renderer.Initialize rendererConfig w2
      if !r3.1 then
        let w4 := Platform.Shutdown r3.2
        (false, { Engine.delete w4 with engine := none })
      else (true, { r3.2 with engine := some { inst with m_IsInitialized := true } })

/-- The method `Engine::Shutdown`. -/
def Engine.Shutdown (w : World) : World :=
  match w.engine with
  | none => w
  | some inst =>
    let w1 := Platform.Shutdown (Renderer.Shutdown w)
    let w2 : World := { w1 with engine := some { inst with m_IsInitialized := false } }
    { Engine.delete w2 with engine := none }

end Core

/-! ## Test double: `MockNeuralEngine` -/

namespace Test

/-- A value of type `float`, kept as its bit pattern: the mock only stores and
returns such values. -/
abbrev Float32 := Nat

/-- The structure `ModelExpectation`. -/
structure ModelExpectation where
  path : Str
  returnId : Int
  called : Bool
  deriving DecidableEq, Repr

/-- The structure `UnloadExpectation`. -/
structure UnloadExpectation where
  modelId : Int
  called : Bool
  deriving DecidableEq, Repr

/-- The structure `InferenceExpectation`. -/
structure InferenceExpectation where
  modelId : Int
  returnData : List Float32
  called : Bool
  deriving DecidableEq, Repr

/-- The data members of `MockNeuralEngine`. -/
structure MockNeuralEngine where
  m_IsAvailable : Bool
  m_LoadExpectations : List ModelExpectation
  m_UnloadExpectations : List UnloadExpectation
  m_InferenceExpectations : List InferenceExpectation
  deriving DecidableEq, Repr

/-- The constructor: available, and `Reset()` leaves the three lists empty. -/
def MockNeuralEngine.new : MockNeuralEngine :=
  { m_IsAvailable := true, m_LoadExpectations := [], m_UnloadExpectations := [],
    m_InferenceExpectations := [] }

/-- The method `ExpectLoadModel`. -/
def MockNeuralEngine.ExpectLoadModel (m : MockNeuralEngine) (modelPath : Str) (returnId : Int) :
    MockNeuralEngine :=
  { m with m_LoadExpectations :=
      m.m_LoadExpectations ++ [{ path := modelPath, returnId := returnId, called := false }] }

/-- The method `ExpectUnloadModel`. -/
def MockNeuralEngine.ExpectUnloadModel (m : MockNeuralEngine) (modelId : Int) :
    MockNeuralEngine :=
  { m with m_UnloadExpectations :=
      m.m_UnloadExpectations ++ [{ modelId := modelId, called := false }] }

/-- The method `ExpectRunInference`. -/
def MockNeuralEngine.ExpectRunInference (m : MockNeuralEngine) (modelId : Int)
    (returnData : List Float32) : MockNeuralEngine :=
  { m with m_InferenceExpectations :=
      m.m_InferenceExpectations ++
        [{ modelId := modelId, returnData := returnData, called := false }] }

/-- The loop of `LoadModel` over `m_LoadExpectations`: the returned id and the
list after the call, `none` when the loop ends without a return. -/
def loadLoop (modelPath : Str) : List ModelExpectation → Option (Int × List ModelExpectation)
  | [] => none
  | expectation :: rest =>
    if expectation.path = modelPath && !expectation.called then
      some (expectation.returnId, { expectation with called := true } :: rest)
    else (loadLoop modelPath rest).map fun r => (r.1, expectation :: r.2)

/-- The method `MockNeuralEngine::LoadModel`. -/
def MockNeuralEngine.LoadModel (m : MockNeuralEngine) (modelPath : Str) :
    Int × MockNeuralEngine :=
  match loadLoop modelPath m.m_LoadExpectations with
  | some r => (r.1, { m with m_LoadExpectations := r.2 })
  | none => (-1, m)

/-- The loop of `UnloadModel` over `m_UnloadExpectations`. -/
def unloadLoop (modelId : Int) : List UnloadExpectation → Option (List UnloadExpectation)
  | [] => none
  | expectation :: rest =>
    if expectation.modelId = modelId && !expectation.called then
      some ({ expectation with called := true } :: rest)
    else (unloadLoop modelId rest).map fun r => expectation :: r

/-- The method `MockNeuralEngine::UnloadModel`. -/
def MockNeuralEngine.UnloadModel (m : MockNeuralEngine) (modelId : Int) : MockNeuralEngine :=
  match unloadLoop modelId m.m_UnloadExpectations with
  | some r => { m with m_UnloadExpectations := r }
  | none => m

/-- The loop of `RunInference` over `m_InferenceExpectations`. -/
def inferenceLoop (modelId : Int) :
    List InferenceExpectation → Option (List Float32 × List InferenceExpectation)
  | [] => none
  | expectation :: rest =>
    if expectation.modelId = modelId && !expectation.called then
      some (expectation.returnData, { expectation with called := true } :: rest)
    else (inferenceLoop modelId rest).map fun r => (r.1, expectation :: r.2)

/-- The method `MockNeuralEngine::RunInference`; the input data and the input
shape are not read. -/
def MockNeuralEngine.RunInference (m : MockNeuralEngine) (modelId : Int)
    (_inputData : List Float32) (_inputShape : List Int) : List Float32 × MockNeuralEngine :=
  match inferenceLoop modelId m.m_InferenceExpectations with
  | some r => (r.1, { m with m_InferenceExpectations := r.2 })
  | none => ([], m)

/-- The method `MockNeuralEngine::VerifyAllExpectations`. -/
def MockNeuralEngine.VerifyAllExpectations (m : MockNeuralEngine) : Bool :=
  let allMet := true
  let allMet := m.m_LoadExpectations.foldl (fun acc e => if !e.called then false else acc) allMet
  let allMet := m.m_UnloadExpectations.foldl (fun acc e => if !e.called then false else acc) allMet
  let allMet :=
    m.m_InferenceExpectations.foldl (fun acc e => if !e.called then false else acc) allMet
  allMet

end Test

end GaiaMatrix

/-! ## Observers and predicates used by the statements and proofs -/

namespace GaiaMatrix
namespace Web

/-- The names of the entity nodes of a program, in the order of `body`. -/
def Program.names (ast : Program) : List Str := ast.body.map fun ent => ent.name

/-- A reference designates a node of the AST that has the fields its type
promises. -/
def validRef (ast : Program) : Ref → Prop
  | .entity e => e < ast.body.length
  | .component e j => ∃ ent, ast.body[e]? = some ent ∧ j < ent.components.length
  | .neuralNetwork e j => ∃ ent, ast.body[e]? = some ent ∧ j < ent.components.length
  | .eventHandler e j => ∃ ent, ast.body[e]? = some ent ∧ j < ent.functions.length
  | .conditional e j k =>
    ∃ ent f c b, ast.body[e]? = some ent ∧ ent.functions[j]? = some f ∧
      f.body[k]? = some (Stmt.conditional c b)

/-- A handler grows: a conditional of its body stays a conditional with the
same condition at the same place. -/
def FnExt (f f' : EventHandler) : Prop :=
  ∀ (k : Nat) (c : Str) (b : List Stmt), f.body[k]? = some (Stmt.conditional c b) →
    ∃ b', f'.body[k]? = some (Stmt.conditional c b')

/-- An entity grows: the name stays, no component or handler goes away. -/
def EntExt (ent ent' : Entity) : Prop :=
  ent'.name = ent.name ∧ ent.components.length ≤ ent'.components.length ∧
    ∀ (j : Nat) (f : EventHandler), ent.functions[j]? = some f →
      ∃ f', ent'.functions[j]? = some f' ∧ FnExt f f'

/-- A program grows. -/
def Ext (ast ast' : Program) : Prop :=
  ∀ (e : Nat) (ent : Entity), ast.body[e]? = some ent →
    ∃ ent', ast'.body[e]? = some ent' ∧ EntExt ent ent'

/-- The reference to component `j` of entity `e`, by the type of the node. -/
def componentRef (t : ComponentType) (e j : Nat) : Ref :=
  match t with
  | .component => .component e j
  | .neuralNetwork => .neuralNetwork e j

/-- What one turn of the loop of `aopl.parse` does to the state. -/
inductive Action where
  | skip
  | openEntity (name : Str)
  | openComponent (e : Nat) (c : Component)
  | openHandler (e : Nat) (f : EventHandler)
  | addProperty (e j : Nat) (p : Property)
  | openConditional (e j : Nat) (condition : Str)
  | addStmt (top : Ref) (s : Stmt)
  | close

/-- The effect of an action on the state, as the branches of `step` write
it. -/
def act (st : State) : Action → Option State
  | .skip => some st
  | .openEntity name =>
    some { st with
      ast := ⟨st.ast.body ++ [⟨name, [], []⟩]⟩
      currentEntity := some st.ast.body.length
      blockStack := .entity st.ast.body.length :: st.blockStack }
  | .openComponent e c =>
    (pushComponent st.ast e c).map fun r =>
      { st with ast := r.1, currentBlock := some (componentRef c.type e r.2),
                blockStack := componentRef c.type e r.2 :: st.blockStack }
  | .openHandler e f =>
    (pushFunction st.ast e f).map fun r =>
      { st with ast := r.1, currentBlock := some (.eventHandler e r.2),
                blockStack := .eventHandler e r.2 :: st.blockStack }
  | .addProperty e j p => (pushProperty st.ast e j p).map fun a => { st with ast := a }
  | .openConditional e j condition =>
    (pushBody st.ast (.eventHandler e j) (.conditional condition [])).map fun r =>
      { st with ast := r.1, blockStack := .conditional e j r.2 :: st.blockStack }
  | .addStmt top s => (pushBody st.ast top s).map fun r => { st with ast := r.1 }
  | .close =>
    match st.blockStack with
    | [] => some st
    | _ :: [] => some { st with blockStack := [], currentBlock := none, currentEntity := none }
    | _ :: top :: rest =>
      some { st with
        blockStack := top :: rest
        currentBlock := some top
        currentEntity :=
          match top with
          | .entity e => some e
          | _ => st.currentEntity }

/-- The action of the statement branches on a trimmed line. -/
def classifyStatement (st : State) (line : Str) : Action :=
  match flowMatch line with
  | some (src, tgt) =>
    match st.blockStack with
    | top :: _ => if top.hasBody then .addStmt top (.dataFlow (trim src) (trim tgt)) else .skip
    | [] => .skip
  | none =>
    if statementMatch line && !st.blockStack.isEmpty then
      match st.blockStack with
      | top :: _ => if top.hasBody then .addStmt top (.statement (trim line)) else .skip
      | [] => .skip
    else if closeMatch line then .close
    else .skip

/-- The action of the property and conditional branches, then of the
statement branches. -/
def classifyBlock (st : State) (line : Str) : Action :=
  match propertyMatch line, st.currentBlock with
  | some (name, value), some (.component e j) => .addProperty e j ⟨name, trim value⟩
  | some (name, value), some (.neuralNetwork e j) => .addProperty e j ⟨name, trim value⟩
  | _, _ =>
    match conditionalMatch line, st.currentBlock with
    | some cond, some (.eventHandler e j) => .openConditional e j cond
    | _, _ => classifyStatement st line

/-- The action of the declaration branches that need a current entity, then
of the block branches. -/
def classifyDeclaration (st : State) (line : Str) : Action :=
  match componentMatch line, st.currentEntity with
  | some name, some e => .openComponent e ⟨.component, name, []⟩
  | _, _ =>
    match transformMatch line, st.currentEntity with
    | true, some e => .openComponent e ⟨.component, "Transform".toList, []⟩
    | _, _ =>
      match eventMatch line, st.currentEntity with
      | some (name, params), some e => .openHandler e ⟨name, parseParameters params, []⟩
      | _, _ =>
        match nnMatch line, st.currentEntity with
        | some name, some e => .openComponent e ⟨.neuralNetwork, name, []⟩
        | _, _ => classifyBlock st line

/-- The action of one turn of the loop on the line `raw`. -/
def classify (st : State) (raw : Str) : Action :=
  if (trim raw).isEmpty || startsWithSlashes (trim raw) then .skip
  else
    match entityMatch (trim raw) with
    | some name => .openEntity name
    | none => classifyDeclaration st (trim raw)

/-- The current entity after a close that leaves `top` on top of the stack. -/
def entityAfterClose (top : Ref) (current : Option Nat) : Option Nat :=
  match top with
  | .entity e => some e
  | _ => current

/-- What makes an action well-formed in a state: the node it writes to is
the one the state designates. -/
def Action.ok (st : State) : Action → Prop
  | .skip => True
  | .openEntity _ => True
  | .openComponent e _ => st.currentEntity = some e
  | .openHandler e _ => st.currentEntity = some e
  | .addProperty e j _ =>
    st.currentBlock = some (.component e j) ∨ st.currentBlock = some (.neuralNetwork e j)
  | .openConditional e j _ => st.currentBlock = some (.eventHandler e j)
  | .addStmt top _ => (∃ rest, st.blockStack = top :: rest) ∧ top.hasBody = true
  | .close => True

/-- The entity name an action adds to the program, if any. -/
def Action.opened : Action → List Str
  | .openEntity name => [name]
  | _ => []

/-- The invariant of the loop of `aopl.parse`. -/
structure Inv (st : State) : Prop where
  entity : ∀ e, st.currentEntity = some e → e < st.ast.body.length
  block : ∀ r, st.currentBlock = some r → validRef st.ast r
  stack : ∀ r, r ∈ st.blockStack → validRef st.ast r
  top : ∀ t rest, st.blockStack = t :: rest → t.hasBody = true →
    ∃ r, st.currentBlock = some r ∧ r.hasBody = true
  entity_none : st.currentEntity = none ↔ st.blockStack = []
  block_some : st.currentBlock ≠ none → st.blockStack ≠ []

/-- The name that a source line declares when the loop takes it as an entity
declaration: the line, trimmed, is neither empty nor a comment and matches the
entity pattern. -/
def entityOpen (raw : Str) : Option Str :=
  if (trim raw).isEmpty || startsWithSlashes (trim raw) then none
  else entityMatch (trim raw)

/-- The states the loop of `aopl.parse` can be in: those reached from the
initial state by reading some lines. -/
def Reachable (st : State) : Prop := ∃ ls, runLines initState ls = some st

/-! ### The target record, after the spec

The record of an entity as the spec describes it: a named record with one
group per component (its properties in order) and one callable per handler
(its lowered statements in order). -/

/-- A property of a component group: `name: value,`. -/
def propertyLine (p : Property) : Str :=
  "      ".toList ++ p.name ++ ": ".toList ++ p.value ++ ",\n".toList

/-- The group of a component: its name and its properties in order. -/
def componentGroup (c : Component) : Str :=
  "    ".toList ++ c.name ++ ": \x7b\n".toList ++ (c.properties.map propertyLine).flatten ++
    "    \x7d,\n".toList

/-- A statement inside a guarded block: an assignment or an opaque
instruction; anything else has no text. -/
def innerLine : Stmt → Str
  | .dataFlow source target => "        ".toList ++ (target ++ " = ".toList ++ source) ++ ";\n".toList
  | .statement code => "        ".toList ++ code ++ ";\n".toList
  | .conditional _ _ => []

/-- A statement of a handler body: a guarded block, an assignment or an
opaque instruction. -/
def stmtText : Stmt → Str
  | .conditional condition body =>
    "      if (".toList ++ condition ++ ") \x7b\n".toList ++ (body.map innerLine).flatten ++
      "      \x7d\n".toList
  | .dataFlow source target => "      ".toList ++ (target ++ " = ".toList ++ source) ++ ";\n".toList
  | .statement code => "      ".toList ++ code ++ ";\n".toList

/-- The callable of a handler: its name, its parameters and its statements in
order. -/
def handlerCallable (f : EventHandler) : Str :=
  "    ".toList ++ f.name ++ ": function(".toList ++ joinWith ", ".toList f.parameters ++
    ") \x7b\n".toList ++ (f.body.map stmtText).flatten ++ "    \x7d,\n".toList

/-- The record of an entity: `entities.<name> = ...` with the component groups,
then the handler callables. -/
def entityRecord (ent : Entity) : Str :=
  "  // Entity: ".toList ++ ent.name ++ "\n".toList ++
    ("  entities.".toList ++ ent.name ++ " = \x7b\n".toList) ++
    (ent.components.map componentGroup).flatten ++
    (ent.functions.map handlerCallable).flatten ++ "  \x7d;\n\n".toList

/-- The block stack with which the loop of `aopl.parse` ends on a source. -/
def finalStack (source : Str) : Option (List Ref) :=
  (runLines initState (splitOn '\n' source)).map fun st => st.blockStack

/-- The text of `n` further lines, each a lone closing brace. -/
def closes : Nat → Str
  | 0 => []
  | n + 1 => '\n' :: '\x7d' :: closes n

/-- The first character of a line that is not white space. -/
def firstNonSpace (line : Str) : Option Char := (line.dropWhile isSpace).head?

/-- A continuation of a pattern that matches no text without an opening
brace. -/
def NeedsBrace {α : Type} (k : Str → Option α) : Prop :=
  ∀ s : Str, '\x7b' ∉ s → k s = none

/-- A text with no white space at either end. -/
def Trimmed (s : Str) : Prop :=
  (∀ c, s.head? = some c → isSpace c = false) ∧ (∀ c, s.getLast? = some c → isSpace c = false)

/-- The handler `j` of entity `e`, if the program has it. -/
def lookupFunction (ast : Program) (e j : Nat) : Option EventHandler :=
  (ast.body[e]?).bind fun ent => ent.functions[j]?

/-- The `body` array of the node behind a reference, for the nodes that have
one. -/
def bodyOf (ast : Program) : Ref → Option (List Stmt)
  | .eventHandler e j => (lookupFunction ast e j).map fun f => f.body
  | .conditional e j k =>
    (lookupFunction ast e j).bind fun f =>
      match f.body[k]? with
      | some (.conditional _ b) => some b
      | _ => none
  | _ => none

/-- The line is taken, in some state, by a pattern that opens a block
(entity, component, transform, event handler, neural network or
conditional). -/
def opensBlock (line : Str) : Bool :=
  (entityMatch line).isSome || (componentMatch line).isSome || transformMatch line ||
    (eventMatch line).isSome || (nnMatch line).isSome || (conditionalMatch line).isSome

/-- The line `⊿ c {` that opens a conditional with the condition text `c`. -/
def conditionalLine (c : Str) : Str := '⊿' :: ' ' :: (c ++ [' ', '\x7b'])

/-- A condition text: not empty, no white space in front, no line
terminator. -/
def ConditionText (c : Str) : Prop :=
  c ≠ [] ∧ (∀ x, c.head? = some x → isSpace x = false) ∧ ∀ x ∈ c, isDot x = true

/-- The test `line === '' || line.startsWith('//')` on the trimmed line: the
line is blank or a comment. -/
def isSkipLine (raw : Str) : Bool :=
  (trim raw).isEmpty || startsWithSlashes (trim raw)

/-- A statement that is a DataFlow or a generic Statement node. -/
def Stmt.isLeaf : Stmt → Bool
  | .conditional _ _ => false
  | _ => true

/-- A statement of a handler body as `parse` builds them: a DataFlow, a
generic Statement, or a Conditional whose body holds only DataFlow and
Statement nodes. -/
def FlatStmt : Stmt → Prop
  | .conditional _ b => ∀ t ∈ b, t.isLeaf = true
  | _ => True

/-- Every statement of every handler body of the program is flat. -/
def FlatProgram (ast : Program) : Prop :=
  ∀ ent ∈ ast.body, ∀ f ∈ ent.functions, ∀ s ∈ f.body, FlatStmt s

/-- The statements an action brings are of the kinds the loop writes: a
handler is opened with a flat body, and a statement added to the top frame is
a DataFlow or a generic Statement. -/
def Action.flat : Action → Prop
  | .openHandler _ f => ∀ s ∈ f.body, FlatStmt s
  | .addStmt _ s => s.isLeaf = true
  | _ => True

/-- A continuation of a pattern that matches no text without the character
`x`. -/
def NeedsChar {α : Type} (x : Char) (k : Str → Option α) : Prop :=
  ∀ s : Str, x ∉ s → k s = none

end Web

namespace Aopl

/-- A call of a public method on a `Parser` object. -/
inductive Call where
  | Parse (code : Str)
  | GetEntities
  | Compile
  deriving DecidableEq, Repr

/-- The parser object after one call; `none` stands for an exception. -/
def Parser.call (p : Parser) : Call → Option Parser
  | .Parse code => (p.Parse code).map fun r => r.2
  | .GetEntities => some p
  | .Compile => some p.Compile.2

/-- The parser object after a sequence of calls, made in order. -/
def Parser.calls : Parser → List Call → Option Parser
  | p, [] => some p
  | p, c :: cs =>
    match p.call c with
    | some p' => p'.calls cs
    | none => none

/-- A call of `Parse`. -/
def Call.isParse : Call → Bool
  | .Parse _ => true
  | _ => false

end Aopl

end GaiaMatrix

/-! ## Lemmas -/

namespace GaiaMatrix
namespace Web

/-! ### The AST under construction -/

theorem updateAt_eq {α β : Type} (f : α → Option (α × β)) (l : List α) (i : Nat) :
    updateAt f l i = (l[i]?).bind fun a => (f a).map fun r => (l.set i r.1, r.2) := by
  induction l generalizing i with
  | nil => simp [updateAt]
  | cons a as ih =>
    cases i with
    | zero => simp [updateAt]
    | succ i =>
      simp only [updateAt, ih, List.getElem?_cons_succ, List.set_cons_succ]
      cases as[i]? with
      | none => simp
      | some x => cases f x <;> simp [Function.comp_def]

theorem FnExt.fn_refl (f : EventHandler) : FnExt f f := fun _ _ b h => ⟨b, h⟩

theorem EntExt.ent_refl (ent : Entity) : EntExt ent ent :=
  ⟨rfl, le_refl _, fun _ f h => ⟨f, h, FnExt.fn_refl f⟩⟩

theorem Ext.ast_refl (ast : Program) : Ext ast ast := fun _ ent h => ⟨ent, h, EntExt.ent_refl ent⟩

theorem Ext.valid {ast ast' : Program} (h : Ext ast ast') {r : Ref} (hr : validRef ast r) :
    validRef ast' r := by
  cases r with
  | entity e =>
    simp only [validRef] at hr ⊢
    obtain ⟨ent', h', -⟩ := h e _ (List.getElem?_eq_getElem hr)
    exact (List.getElem?_eq_some.1 h').1
  | component e j =>
    obtain ⟨ent, he, hj⟩ := hr
    obtain ⟨ent', h', -, hc, -⟩ := h e ent he
    exact ⟨ent', h', lt_of_lt_of_le hj hc⟩
  | neuralNetwork e j =>
    obtain ⟨ent, he, hj⟩ := hr
    obtain ⟨ent', h', -, hc, -⟩ := h e ent he
    exact ⟨ent', h', lt_of_lt_of_le hj hc⟩
  | eventHandler e j =>
    obtain ⟨ent, he, hj⟩ := hr
    obtain ⟨ent', h', -, -, hf⟩ := h e ent he
    obtain ⟨f', hf', -⟩ := hf j _ (List.getElem?_eq_getElem hj)
    exact ⟨ent', h', (List.getElem?_eq_some.1 hf').1⟩
  | conditional e j k =>
    obtain ⟨ent, f, c, b, he, hf, hk⟩ := hr
    obtain ⟨ent', h', -, -, hfs⟩ := h e ent he
    obtain ⟨f', hf', hx⟩ := hfs j f hf
    obtain ⟨b', hb'⟩ := hx k c b hk
    exact ⟨ent', f', c, b', h', hf', hb'⟩

theorem Ext.names {ast ast' : Program} (h : Ext ast ast')
    (hl : ast'.body.length = ast.body.length) : ast'.names = ast.names := by
  apply List.ext_getElem?
  intro e
  simp only [Program.names, List.getElem?_map]
  cases he : ast.body[e]? with
  | none =>
    have : ast'.body[e]? = none := by
      rw [List.getElem?_eq_none_iff] at he ⊢
      omega
    simp [this]
  | some ent =>
    obtain ⟨ent', h', hn, -⟩ := h e ent he
    simp [h', hn]

/-- Replacing one entity by a grown one grows the program. -/
theorem Ext.set {ast : Program} {e : Nat} {ent ent' : Entity}
    (he : ast.body[e]? = some ent) (hx : EntExt ent ent') :
    Ext ast ⟨ast.body.set e ent'⟩ := by
  intro e' x hx'
  by_cases hee : e = e'
  · subst hee
    have hlt : e < ast.body.length := (List.getElem?_eq_some.1 he).1
    rw [he] at hx'
    cases hx'
    exact ⟨ent', by simp [List.getElem?_set, hlt], hx⟩
  · exact ⟨x, by simp [List.getElem?_set, hee, hx'], EntExt.ent_refl x⟩


theorem pushComponent_eq (ast : Program) (e : Nat) (c : Component) :
    pushComponent ast e c = (ast.body[e]?).map fun ent =>
      (⟨ast.body.set e { ent with components := ent.components ++ [c] }⟩,
        ent.components.length) := by
  simp only [pushComponent, updateAt_eq]
  cases ast.body[e]? <;> simp

theorem pushFunction_eq (ast : Program) (e : Nat) (f : EventHandler) :
    pushFunction ast e f = (ast.body[e]?).map fun ent =>
      (⟨ast.body.set e { ent with functions := ent.functions ++ [f] }⟩,
        ent.functions.length) := by
  simp only [pushFunction, updateAt_eq]
  cases ast.body[e]? <;> simp

theorem pushProperty_eq (ast : Program) (e j : Nat) (p : Property) :
    pushProperty ast e j p = (ast.body[e]?).bind fun ent =>
      (ent.components[j]?).map fun c =>
        ⟨ast.body.set e { ent with
          components := ent.components.set j { c with properties := c.properties ++ [p] } }⟩ := by
  simp only [pushProperty, updateAt_eq]
  rcases he : ast.body[e]? with _ | ent
  · simp
  · rcases hc : ent.components[j]? with _ | c <;> simp [hc]

theorem pushBody_handler_eq (ast : Program) (e j : Nat) (s : Stmt) :
    pushBody ast (.eventHandler e j) s = (ast.body[e]?).bind fun ent =>
      (ent.functions[j]?).map fun f =>
        (⟨ast.body.set e { ent with
            functions := ent.functions.set j { f with body := f.body ++ [s] } }⟩,
          f.body.length) := by
  simp only [pushBody, updateAt_eq]
  rcases he : ast.body[e]? with _ | ent
  · simp
  · rcases hf : ent.functions[j]? with _ | f <;> simp [hf]

theorem pushBody_conditional_eq (ast : Program) (e j k : Nat) (s : Stmt) :
    pushBody ast (.conditional e j k) s = (ast.body[e]?).bind fun ent =>
      (ent.functions[j]?).bind fun f =>
        (f.body[k]?).bind fun t =>
          match t with
          | .conditional c b =>
            some (⟨ast.body.set e { ent with
                functions := ent.functions.set j
                  { f with body := f.body.set k (.conditional c (b ++ [s])) } }⟩,
              b.length)
          | _ => none := by
  simp only [pushBody, updateAt_eq]
  rcases he : ast.body[e]? with _ | ent
  · simp
  · rcases hf : ent.functions[j]? with _ | f
    · simp [hf]
    · rcases ht : f.body[k]? with _ | t
      · simp [hf, ht]
      · cases t <;> simp [hf, ht]

theorem ext_pushEntity (ast : Program) (ent : Entity) : Ext ast ⟨ast.body ++ [ent]⟩ := by
  intro e x hx
  have hlt : e < ast.body.length := (List.getElem?_eq_some.1 hx).1
  exact ⟨x, by simp [List.getElem?_append_left hlt, hx], EntExt.ent_refl x⟩

theorem ext_pushComponent {ast ast' : Program} {e j : Nat} {c : Component}
    (h : pushComponent ast e c = some (ast', j)) :
    Ext ast ast' ∧ ast'.body.length = ast.body.length ∧
      ∃ ent, ast.body[e]? = some ent ∧ j = ent.components.length ∧
        ast'.body[e]? = some { ent with components := ent.components ++ [c] } := by
  rw [pushComponent_eq] at h
  cases he : ast.body[e]? with
  | none => simp [he] at h
  | some ent =>
    simp only [he, Option.map_some', Option.some.injEq, Prod.mk.injEq] at h
    obtain ⟨rfl, rfl⟩ := h
    have hlt : e < ast.body.length := (List.getElem?_eq_some.1 he).1
    refine ⟨Ext.set he ⟨rfl, by simp, fun j f hf => ⟨f, hf, FnExt.fn_refl f⟩⟩, by simp, ent, rfl, rfl,
      by simp [hlt]⟩

theorem ext_pushFunction {ast ast' : Program} {e j : Nat} {f : EventHandler}
    (h : pushFunction ast e f = some (ast', j)) :
    Ext ast ast' ∧ ast'.body.length = ast.body.length ∧
      ∃ ent, ast.body[e]? = some ent ∧ j = ent.functions.length ∧
        ast'.body[e]? = some { ent with functions := ent.functions ++ [f] } := by
  rw [pushFunction_eq] at h
  cases he : ast.body[e]? with
  | none => simp [he] at h
  | some ent =>
    simp only [he, Option.map_some', Option.some.injEq, Prod.mk.injEq] at h
    obtain ⟨rfl, rfl⟩ := h
    have hlt : e < ast.body.length := (List.getElem?_eq_some.1 he).1
    refine ⟨Ext.set he ⟨rfl, le_refl _, fun j g hg => ⟨g, ?_, FnExt.fn_refl g⟩⟩, by simp, ent, rfl, rfl,
      by simp [hlt]⟩
    have hj : j < ent.functions.length := (List.getElem?_eq_some.1 hg).1
    simp [List.getElem?_append_left hj, hg]

theorem ext_pushProperty {ast ast' : Program} {e j : Nat} {p : Property}
    (h : pushProperty ast e j p = some ast') :
    Ext ast ast' ∧ ast'.body.length = ast.body.length := by
  rw [pushProperty_eq] at h
  cases he : ast.body[e]? with
  | none => simp [he] at h
  | some ent =>
    cases hc : ent.components[j]? with
    | none => simp [he, hc] at h
    | some c =>
      simp only [he, hc, Option.map_some', Option.some_bind, Option.some.injEq] at h
      subst h
      exact ⟨Ext.set he ⟨rfl, by simp, fun j f hf => ⟨f, hf, FnExt.fn_refl f⟩⟩, by simp⟩

theorem entExt_setFunction {ent : Entity} {j : Nat} {f f' : EventHandler}
    (hf : ent.functions[j]? = some f) (hx : FnExt f f') :
    EntExt ent { ent with functions := ent.functions.set j f' } := by
  refine ⟨rfl, le_refl _, fun j' g hg => ?_⟩
  by_cases hjj : j = j'
  · subst hjj
    have hlt : j < ent.functions.length := (List.getElem?_eq_some.1 hf).1
    rw [hf] at hg
    cases hg
    exact ⟨f', by simp [List.getElem?_set, hlt], hx⟩
  · exact ⟨g, by simp [List.getElem?_set, hjj, hg], FnExt.fn_refl g⟩

theorem ext_pushBody {ast ast' : Program} {r : Ref} {s : Stmt} {k : Nat}
    (h : pushBody ast r s = some (ast', k)) :
    Ext ast ast' ∧ ast'.body.length = ast.body.length := by
  cases r with
  | entity e => simp [pushBody] at h
  | component e j => simp [pushBody] at h
  | neuralNetwork e j => simp [pushBody] at h
  | eventHandler e j =>
    rw [pushBody_handler_eq] at h
    cases he : ast.body[e]? with
    | none => simp [he] at h
    | some ent =>
      cases hf : ent.functions[j]? with
      | none => simp [he, hf] at h
      | some f =>
        simp only [he, hf, Option.map_some', Option.some_bind, Option.some.injEq,
          Prod.mk.injEq] at h
        obtain ⟨rfl, rfl⟩ := h
        refine ⟨Ext.set he (entExt_setFunction hf ?_), by simp⟩
        intro k c b hk
        have hlt : k < f.body.length := (List.getElem?_eq_some.1 hk).1
        exact ⟨b, by simp [List.getElem?_append_left hlt, hk]⟩
  | conditional e j k' =>
    rw [pushBody_conditional_eq] at h
    cases he : ast.body[e]? with
    | none => simp [he] at h
    | some ent =>
      cases hf : ent.functions[j]? with
      | none => simp [he, hf] at h
      | some f =>
        cases ht : f.body[k']? with
        | none => simp [he, hf, ht] at h
        | some t =>
          cases t with
          | dataFlow a b => simp [he, hf, ht] at h
          | statement a => simp [he, hf, ht] at h
          | conditional c0 b0 =>
            simp only [he, hf, ht, Option.some_bind, Option.some.injEq, Prod.mk.injEq] at h
            obtain ⟨rfl, rfl⟩ := h
            refine ⟨Ext.set he (entExt_setFunction hf ?_), by simp⟩
            intro k c b hk
            have hlt : k' < f.body.length := (List.getElem?_eq_some.1 ht).1
            by_cases hkk : k' = k
            · subst hkk
              rw [ht] at hk
              cases hk
              exact ⟨b0 ++ [s], by simp [List.getElem?_set, hlt]⟩
            · exact ⟨b, by simp [List.getElem?_set, hkk, hk]⟩


theorem stepStatement_eq (st : State) (line : Str) :
    stepStatement st line = act st (classifyStatement st line) := by
  unfold stepStatement classifyStatement
  split
  · split
    · split <;> simp [act]
    · simp [act]
  · split
    · split
      · split <;> simp [act]
      · simp [act]
    · split
      · simp only [act]
      · simp [act]

theorem stepBlock_eq (st : State) (line : Str) :
    stepBlock st line = act st (classifyBlock st line) := by
  unfold stepBlock classifyBlock
  split
  · simp [act]
  · simp [act]
  · split
    · simp [act]
    · exact stepStatement_eq st line

theorem stepDeclaration_eq (st : State) (line : Str) :
    stepDeclaration st line = act st (classifyDeclaration st line) := by
  unfold stepDeclaration classifyDeclaration
  split
  · simp [act, componentRef]
  · split
    · simp [act, componentRef]
    · split
      · simp [act]
      · split
        · simp [act, componentRef]
        · exact stepBlock_eq st line

theorem step_eq (st : State) (raw : Str) : step st raw = act st (classify st raw) := by
  unfold step classify
  simp only []
  split
  · simp [act]
  · split
    · simp [act]
    · exact stepDeclaration_eq st _

theorem classifyStatement_ok (st : State) (line : Str) :
    (classifyStatement st line).ok st := by
  unfold classifyStatement
  split
  · split
    · split
      · rename_i h hb
        exact ⟨⟨_, h⟩, hb⟩
      · trivial
    · trivial
  · split
    · split
      · split
        · rename_i h hb
          exact ⟨⟨_, h⟩, hb⟩
        · trivial
      · trivial
    · split <;> trivial

theorem classifyBlock_ok (st : State) (line : Str) : (classifyBlock st line).ok st := by
  unfold classifyBlock
  split
  · rename_i h
    exact Or.inl h
  · rename_i h
    exact Or.inr h
  · split
    · rename_i h
      exact h
    · exact classifyStatement_ok st line

theorem classifyDeclaration_ok (st : State) (line : Str) :
    (classifyDeclaration st line).ok st := by
  unfold classifyDeclaration
  split
  · rename_i h
    exact h
  · split
    · rename_i h
      exact h
    · split
      · rename_i h
        exact h
      · split
        · rename_i h
          exact h
        · exact classifyBlock_ok st line

theorem classify_ok (st : State) (raw : Str) : (classify st raw).ok st := by
  unfold classify
  split
  · trivial
  · split
    · trivial
    · exact classifyDeclaration_ok st _


theorem inv_init : Inv initState :=
  ⟨by simp [initState], by simp [initState], by simp [initState], by simp [initState],
    by simp [initState], by simp [initState]⟩

/-- Growing the AST alone keeps the invariant. -/
theorem Inv.grow {st : State} (hi : Inv st) {ast' : Program} (hx : Ext st.ast ast')
    (hl : ast'.body.length = st.ast.body.length) : Inv { st with ast := ast' } :=
  ⟨fun e he => by simpa [hl] using hi.entity e he,
    fun r hr => hx.valid (hi.block r hr),
    fun r hr => hx.valid (hi.stack r hr),
    hi.top, hi.entity_none, hi.block_some⟩

theorem componentRef_hasBody (t : ComponentType) (e j : Nat) :
    (componentRef t e j).hasBody = false := by
  cases t <;> rfl

theorem act_openEntity (st : State) (hi : Inv st) (name : Str) :
    ∃ st', act st (.openEntity name) = some st' ∧ Inv st' ∧
      st'.ast.names = st.ast.names ++ [name] := by
  refine ⟨_, rfl, ⟨?_, ?_, ?_, ?_, ?_, ?_⟩, by simp [Program.names]⟩
  · intro e he
    simp only [Option.some.injEq] at he
    subst he
    simp
  · intro r hr
    exact (ext_pushEntity st.ast _).valid (hi.block r hr)
  · intro r hr
    simp only [List.mem_cons] at hr
    rcases hr with rfl | hr
    · simp [validRef]
    · exact (ext_pushEntity st.ast _).valid (hi.stack r hr)
  · intro t rest ht hb
    simp only [List.cons.injEq] at ht
    rw [← ht.1] at hb
    simp [Ref.hasBody] at hb
  · simp
  · simp

theorem act_openComponent (st : State) (hi : Inv st) (e : Nat) (c : Component)
    (hok : st.currentEntity = some e) :
    ∃ st', act st (.openComponent e c) = some st' ∧ Inv st' ∧ st'.ast.names = st.ast.names := by
  have he : e < st.ast.body.length := hi.entity e hok
  obtain ⟨ast', j, hp⟩ : ∃ ast' j, pushComponent st.ast e c = some (ast', j) := by
    rw [pushComponent_eq, List.getElem?_eq_getElem he]
    exact ⟨_, _, rfl⟩
  obtain ⟨hx, hl, ent, h1, h2, h3⟩ := ext_pushComponent hp
  have hv : validRef ast' (componentRef c.type e j) := by
    have : validRef ast' (.component e j) := ⟨_, h3, by simp [h2]⟩
    cases c.type
    · exact this
    · exact this
  refine ⟨{ st with ast := ast', currentBlock := some (componentRef c.type e j),
                    blockStack := componentRef c.type e j :: st.blockStack },
    by simp only [act, hp, Option.map_some'], ⟨?_, ?_, ?_, ?_, ?_, ?_⟩, hx.names hl⟩
  · intro e' he'
    simpa [hl] using hi.entity e' he'
  · intro r hr
    simp only [Option.some.injEq] at hr
    subst hr
    exact hv
  · intro r hr
    simp only [List.mem_cons] at hr
    rcases hr with rfl | hr
    · exact hv
    · exact hx.valid (hi.stack r hr)
  · intro t rest ht hb
    simp only [List.cons.injEq] at ht
    rw [← ht.1, componentRef_hasBody] at hb
    cases hb
  · simp [hok]
  · simp

theorem act_openHandler (st : State) (hi : Inv st) (e : Nat) (f : EventHandler)
    (hok : st.currentEntity = some e) :
    ∃ st', act st (.openHandler e f) = some st' ∧ Inv st' ∧ st'.ast.names = st.ast.names := by
  have he : e < st.ast.body.length := hi.entity e hok
  obtain ⟨ast', j, hp⟩ : ∃ ast' j, pushFunction st.ast e f = some (ast', j) := by
    rw [pushFunction_eq, List.getElem?_eq_getElem he]
    exact ⟨_, _, rfl⟩
  obtain ⟨hx, hl, ent, h1, h2, h3⟩ := ext_pushFunction hp
  have hv : validRef ast' (.eventHandler e j) := ⟨_, h3, by simp [h2]⟩
  refine ⟨{ st with ast := ast', currentBlock := some (.eventHandler e j),
                    blockStack := .eventHandler e j :: st.blockStack },
    by simp only [act, hp, Option.map_some'], ⟨?_, ?_, ?_, ?_, ?_, ?_⟩, hx.names hl⟩
  · intro e' he'
    simpa [hl] using hi.entity e' he'
  · intro r hr
    simp only [Option.some.injEq] at hr
    subst hr
    exact hv
  · intro r hr
    simp only [List.mem_cons] at hr
    rcases hr with rfl | hr
    · exact hv
    · exact hx.valid (hi.stack r hr)
  · intro t rest ht hb
    exact ⟨_, rfl, rfl⟩
  · simp [hok]
  · simp

theorem act_addProperty (st : State) (hi : Inv st) (e j : Nat) (p : Property)
    (hok : st.currentBlock = some (.component e j) ∨
      st.currentBlock = some (.neuralNetwork e j)) :
    ∃ st', act st (.addProperty e j p) = some st' ∧ Inv st' ∧ st'.ast.names = st.ast.names := by
  have hv : ∃ ent, st.ast.body[e]? = some ent ∧ j < ent.components.length := by
    rcases hok with h | h
    · exact hi.block _ h
    · exact hi.block _ h
  obtain ⟨ent, he, hj⟩ := hv
  have hp : ∃ ast', pushProperty st.ast e j p = some ast' := by
    simp only [pushProperty_eq, he, Option.some_bind, List.getElem?_eq_getElem hj,
      Option.map_some']
    exact ⟨_, rfl⟩
  obtain ⟨ast', hp⟩ := hp
  obtain ⟨hx, hl⟩ := ext_pushProperty hp
  exact ⟨_, by simp only [act, hp, Option.map_some'], hi.grow hx hl, hx.names hl⟩

theorem pushBody_valid {ast : Program} {r : Ref} (hv : validRef ast r) (hb : r.hasBody = true)
    (s : Stmt) : ∃ ast' k, pushBody ast r s = some (ast', k) := by
  cases r with
  | entity e => cases hb
  | component e j => cases hb
  | neuralNetwork e j => cases hb
  | eventHandler e j =>
    obtain ⟨ent, he, hj⟩ := hv
    simp only [pushBody_handler_eq, he, Option.some_bind, List.getElem?_eq_getElem hj,
      Option.map_some']
    exact ⟨_, _, rfl⟩
  | conditional e j k =>
    obtain ⟨ent, f, c, b, he, hf, hk⟩ := hv
    rw [pushBody_conditional_eq, he]
    simp only [Option.some_bind, hf, hk]
    exact ⟨_, _, rfl⟩

theorem act_addStmt (st : State) (hi : Inv st) (top : Ref) (s : Stmt)
    (hok : (∃ rest, st.blockStack = top :: rest) ∧ top.hasBody = true) :
    ∃ st', act st (.addStmt top s) = some st' ∧ Inv st' ∧ st'.ast.names = st.ast.names := by
  obtain ⟨⟨rest, hs⟩, hb⟩ := hok
  have hv : validRef st.ast top := hi.stack top (by simp [hs])
  obtain ⟨ast', k, hp⟩ := pushBody_valid hv hb s
  obtain ⟨hx, hl⟩ := ext_pushBody hp
  exact ⟨_, by simp only [act, hp, Option.map_some'], hi.grow hx hl, hx.names hl⟩

theorem pushBody_conditional_valid {ast ast' : Program} {e j k : Nat} {cond : Str}
    (hp : pushBody ast (.eventHandler e j) (.conditional cond []) = some (ast', k)) :
    validRef ast' (.conditional e j k) := by
  rw [pushBody_handler_eq] at hp
  rcases he : ast.body[e]? with _ | ent
  · simp [he] at hp
  · rcases hf : ent.functions[j]? with _ | f
    · simp [he, hf] at hp
    · simp only [he, hf, Option.map_some', Option.some_bind, Option.some.injEq,
        Prod.mk.injEq] at hp
      obtain ⟨rfl, rfl⟩ := hp
      have hlt : e < ast.body.length := (List.getElem?_eq_some.1 he).1
      have hj : j < ent.functions.length := (List.getElem?_eq_some.1 hf).1
      refine ⟨Entity.mk ent.name ent.components (ent.functions.set j
          (EventHandler.mk f.name f.parameters (f.body ++ [Stmt.conditional cond []]))),
        EventHandler.mk f.name f.parameters (f.body ++ [Stmt.conditional cond []]),
        cond, [], ?_, ?_, ?_⟩
      · simp [hlt]
      · simp [hj]
      · simp

theorem act_openConditional (st : State) (hi : Inv st) (e j : Nat) (cond : Str)
    (hok : st.currentBlock = some (.eventHandler e j)) :
    ∃ st', act st (.openConditional e j cond) = some st' ∧ Inv st' ∧
      st'.ast.names = st.ast.names := by
  obtain ⟨ast', k, hp⟩ := pushBody_valid (hi.block _ hok) rfl (.conditional cond [])
  obtain ⟨hx, hl⟩ := ext_pushBody hp
  have hne : st.blockStack ≠ [] := hi.block_some (by simp [hok])
  refine ⟨{ st with ast := ast', blockStack := .conditional e j k :: st.blockStack },
    by simp only [act, hp, Option.map_some'], ⟨?_, ?_, ?_, ?_, ?_, ?_⟩, hx.names hl⟩
  · intro e' he'
    simpa [hl] using hi.entity e' he'
  · intro r hr
    exact hx.valid (hi.block r hr)
  · intro r hr
    simp only [List.mem_cons] at hr
    rcases hr with rfl | hr
    · exact pushBody_conditional_valid hp
    · exact hx.valid (hi.stack r hr)
  · intro t rest ht hb
    exact ⟨_, hok, rfl⟩
  · have : st.currentEntity ≠ none := fun h => hne (hi.entity_none.1 h)
    simp [this]
  · simp

theorem act_close (st : State) (hi : Inv st) :
    ∃ st', act st .close = some st' ∧ Inv st' ∧ st'.ast.names = st.ast.names := by
  rcases hs : st.blockStack with _ | ⟨t, _ | ⟨top, rest⟩⟩
  · exact ⟨st, by simp [act, hs], hi, rfl⟩
  · refine ⟨{ st with blockStack := [], currentBlock := none, currentEntity := none },
      by simp only [act, hs], ⟨?_, ?_, ?_, ?_, ?_, ?_⟩, rfl⟩ <;> simp
  · have hmem : top ∈ st.blockStack := by simp [hs]
    have hne : st.currentEntity ≠ none := fun h => by
      have := hi.entity_none.1 h
      simp [hs] at this
    refine ⟨{ st with
        blockStack := top :: rest
        currentBlock := some top
        currentEntity := entityAfterClose top st.currentEntity },
      by simp only [act, hs, entityAfterClose], ⟨?_, ?_, ?_, ?_, ?_, ?_⟩, rfl⟩
    · intro e he
      cases top with
      | entity e' =>
        simp only [entityAfterClose, Option.some.injEq] at he
        subst he
        exact hi.stack _ hmem
      | component _ _ => exact hi.entity e he
      | neuralNetwork _ _ => exact hi.entity e he
      | eventHandler _ _ => exact hi.entity e he
      | conditional _ _ _ => exact hi.entity e he
    · intro r hr
      simp only [Option.some.injEq] at hr
      subst hr
      exact hi.stack _ hmem
    · intro r hr
      exact hi.stack r (by rw [hs]; exact List.mem_cons_of_mem _ hr)
    · intro t' rest' ht hb
      simp only [List.cons.injEq] at ht
      exact ⟨top, rfl, by rw [ht.1]; exact hb⟩
    · cases top <;> simp [entityAfterClose, hne]
    · simp

/-- Every well-formed action succeeds, keeps the invariant, and adds to the
entity names exactly the name it opens. -/
theorem act_inv (st : State) (hi : Inv st) (a : Action) (hok : a.ok st) :
    ∃ st', act st a = some st' ∧ Inv st' ∧ st'.ast.names = st.ast.names ++ a.opened := by
  cases a with
  | skip => exact ⟨st, rfl, hi, by simp [Action.opened]⟩
  | openEntity name => exact act_openEntity st hi name
  | openComponent e c => simpa [Action.opened] using act_openComponent st hi e c hok
  | openHandler e f => simpa [Action.opened] using act_openHandler st hi e f hok
  | addProperty e j p => simpa [Action.opened] using act_addProperty st hi e j p hok
  | openConditional e j cond => simpa [Action.opened] using act_openConditional st hi e j cond hok
  | addStmt top s => simpa [Action.opened] using act_addStmt st hi top s hok
  | close => simpa [Action.opened] using act_close st hi

/-- One turn of the loop never raises, keeps the invariant, and adds to the
entity names exactly the name its line opens. -/
theorem step_inv (st : State) (hi : Inv st) (raw : Str) :
    ∃ st', step st raw = some st' ∧ Inv st' ∧
      st'.ast.names = st.ast.names ++ (classify st raw).opened := by
  rw [step_eq]
  exact act_inv st hi _ (classify_ok st raw)


theorem classifyStatement_opened (st : State) (line : Str) :
    (classifyStatement st line).opened = [] := by
  unfold classifyStatement
  repeat' split
  all_goals rfl

theorem classifyBlock_opened (st : State) (line : Str) :
    (classifyBlock st line).opened = [] := by
  unfold classifyBlock
  split
  · rfl
  · rfl
  · split
    · rfl
    · exact classifyStatement_opened st line

theorem classifyDeclaration_opened (st : State) (line : Str) :
    (classifyDeclaration st line).opened = [] := by
  unfold classifyDeclaration
  split
  · rfl
  · split
    · rfl
    · split
      · rfl
      · split
        · rfl
        · exact classifyBlock_opened st line

theorem classify_opened (st : State) (raw : Str) :
    (classify st raw).opened = (entityOpen raw).toList := by
  unfold classify entityOpen
  split
  · rfl
  · split
    · rename_i h
      simp [h, Action.opened]
    · rename_i h
      simp [h, classifyDeclaration_opened]

/-- The loop never raises: from a state that satisfies the invariant it
reaches a final state, which satisfies the invariant, and the entity names it
adds are the names of the entity declarations among the lines, in order. -/
theorem runLines_inv (ls : List Str) (st : State) (hi : Inv st) :
    ∃ st', runLines st ls = some st' ∧ Inv st' ∧
      st'.ast.names = st.ast.names ++ ls.filterMap entityOpen := by
  induction ls generalizing st with
  | nil => exact ⟨st, rfl, hi, by simp⟩
  | cons l ls ih =>
    obtain ⟨st1, h1, hi1, hn1⟩ := step_inv st hi l
    obtain ⟨st2, h2, hi2, hn2⟩ := ih st1 hi1
    refine ⟨st2, by simp [runLines, h1, h2], hi2, ?_⟩
    rw [hn2, hn1, classify_opened]
    rcases ho : entityOpen l with _ | n <;> simp [List.filterMap_cons, ho]

theorem reachable_inv {st : State} (h : Reachable st) : Inv st := by
  obtain ⟨ls, hls⟩ := h
  obtain ⟨st', h', hi, -⟩ := runLines_inv ls initState inv_init
  rw [hls] at h'
  cases h'
  exact hi

theorem runLines_append (st : State) (l1 l2 : List Str) :
    runLines st (l1 ++ l2) = (runLines st l1).bind fun st' => runLines st' l2 := by
  induction l1 generalizing st with
  | nil => rfl
  | cons l ls ih =>
    simp only [List.cons_append, runLines]
    cases step st l with
    | none => rfl
    | some st' => exact ih st'

/-- The function `aopl.parse` returns a program for every source. -/
theorem parse_total (source : Str) :
    ∃ st, runLines initState (splitOn '\n' source) = some st ∧ Inv st ∧
      parse source = some st.ast ∧
      st.ast.names = (splitOn '\n' source).filterMap entityOpen := by
  obtain ⟨st, h, hi, hn⟩ := runLines_inv (splitOn '\n' source) initState inv_init
  exact ⟨st, h, hi, by simp [parse, h], by simpa [initState, Program.names] using hn⟩

/-! ### The generator loops append text -/

theorem foldl_append_flatten {α : Type} (g : Str → α → Str) (h : α → Str)
    (hg : ∀ js x, g js x = js ++ h x) (l : List α) (js : Str) :
    l.foldl g js = js ++ (l.map h).flatten := by
  induction l generalizing js with
  | nil => simp
  | cons x xs ih => simp [List.foldl_cons, ih, hg, List.append_assoc]

theorem genInner_eq (js : Str) (s : Stmt) : genInner js s = js ++ innerLine s := by
  cases s <;> simp [genInner, innerLine, translateDataFlow, translateStatement]

theorem genStmt_eq (js : Str) (s : Stmt) : genStmt js s = js ++ stmtText s := by
  cases s with
  | conditional c b =>
    simp [genStmt, stmtText, translateCondition, foldl_append_flatten genInner innerLine genInner_eq,
      List.append_assoc]
  | dataFlow a b => simp [genStmt, stmtText, translateDataFlow]
  | statement a => simp [genStmt, stmtText, translateStatement]

theorem genProperty_eq (js : Str) (p : Property) : genProperty js p = js ++ propertyLine p := by
  simp [genProperty, propertyLine]

theorem genComponent_eq (js : Str) (c : Component) :
    genComponent js c = js ++ componentGroup c := by
  simp [genComponent, componentGroup,
    foldl_append_flatten genProperty propertyLine genProperty_eq, List.append_assoc]

theorem genFunction_eq (js : Str) (f : EventHandler) :
    genFunction js f = js ++ handlerCallable f := by
  simp [genFunction, handlerCallable, foldl_append_flatten genStmt stmtText genStmt_eq,
    List.append_assoc]

theorem genEntity_eq (js : Str) (ent : Entity) : genEntity js ent = js ++ entityRecord ent := by
  simp [genEntity, entityRecord, foldl_append_flatten genComponent componentGroup genComponent_eq,
    foldl_append_flatten genFunction handlerCallable genFunction_eq, List.append_assoc]

theorem generateJavaScript_eq (ast : Program) :
    generateJavaScript ast = prologue ++ (ast.body.map entityRecord).flatten ++ epilogue := by
  simp [generateJavaScript, foldl_append_flatten genEntity entityRecord genEntity_eq]

/-! ### Lines -/

theorem splitOn_ne_nil (sep : Char) (s : Str) : splitOn sep s ≠ [] := by
  induction s with
  | nil => simp [splitOn]
  | cons c cs ih =>
    simp only [splitOn]
    split
    · simp
    · split <;> simp

theorem splitOn_cons_ne (sep c : Char) (cs : Str) (h : c ≠ sep) :
    splitOn sep (c :: cs) =
      (c :: (splitOn sep cs).headD []) :: (splitOn sep cs).tail := by
  simp only [splitOn, h, if_false]
  rcases hs : splitOn sep cs with _ | ⟨l, ls⟩
  · exact absurd hs (splitOn_ne_nil sep cs)
  · simp

/-- Splitting cuts at a separator: the pieces of `a`, then the pieces of
`b`. -/
theorem splitOn_append (sep : Char) (a b : Str) :
    splitOn sep (a ++ sep :: b) = splitOn sep a ++ splitOn sep b := by
  induction a with
  | nil => simp [splitOn]
  | cons c cs ih =>
    by_cases h : c = sep
    · subst h
      simp [splitOn, ih]
    · rw [List.cons_append, splitOn_cons_ne _ _ _ h, splitOn_cons_ne _ _ _ h, ih]
      rcases hs : splitOn sep cs with _ | ⟨l, ls⟩
      · exact absurd hs (splitOn_ne_nil sep cs)
      · simp

theorem splitOn_of_not_mem (sep : Char) (s : Str) (h : sep ∉ s) : splitOn sep s = [s] := by
  induction s with
  | nil => rfl
  | cons c cs ih =>
    simp only [List.mem_cons, not_or] at h
    rw [splitOn_cons_ne _ _ _ (fun hc => h.1 hc.symm), ih h.2]
    simp

theorem splitOn_closes (n : Nat) :
    splitOn '\n' ('\x7d' :: closes n) = List.replicate (n + 1) ['\x7d'] := by
  induction n with
  | zero => rfl
  | succ n ih =>
    have : '\x7d' :: closes (n + 1) = ['\x7d'] ++ '\n' :: ('\x7d' :: closes n) := rfl
    rw [this, splitOn_append, ih]
    rfl

theorem splitOn_append_closes (source : Str) (n : Nat) :
    splitOn '\n' (source ++ closes n) = splitOn '\n' source ++ List.replicate n ['\x7d'] := by
  cases n with
  | zero => simp [closes]
  | succ n =>
    have : source ++ closes (n + 1) = source ++ '\n' :: ('\x7d' :: closes n) := rfl
    rw [this, splitOn_append, splitOn_closes]

/-! ### The close line -/

/-- A line that is a lone closing brace is taken by the close branch. -/
theorem classify_close (st : State) (raw : Str) (h : trim raw = ['\x7d']) :
    classify st raw = .close := by
  have h1 : entityMatch ['\x7d'] = none := by decide
  have h2 : componentMatch ['\x7d'] = none := by decide
  have h3 : transformMatch ['\x7d'] = false := by decide
  have h4 : eventMatch ['\x7d'] = none := by decide
  have h5 : nnMatch ['\x7d'] = none := by decide
  have h6 : propertyMatch ['\x7d'] = none := by decide
  have h7 : conditionalMatch ['\x7d'] = none := by decide
  have h8 : flowMatch ['\x7d'] = none := by decide
  have h9 : statementMatch ['\x7d'] = false := by decide
  have h10 : closeMatch ['\x7d'] = true := by decide
  simp [classify, classifyDeclaration, classifyBlock, classifyStatement, h, h1, h2, h3, h4, h5, h6,
    h7, h8, h9, h10, startsWithSlashes]

/-- A close line leaves the AST as it is and pops one frame, if there is
one. -/
theorem step_close (st : State) (raw : Str) (h : trim raw = ['\x7d']) :
    ∃ st', step st raw = some st' ∧ st'.ast = st.ast ∧ st'.blockStack = st.blockStack.tail := by
  rw [step_eq, classify_close st raw h]
  rcases hs : st.blockStack with _ | ⟨t, _ | ⟨top, rest⟩⟩
  · exact ⟨st, by simp [act, hs], rfl, by simp [hs]⟩
  · exact ⟨{ st with blockStack := [], currentBlock := none, currentEntity := none },
      by simp only [act, hs], rfl, rfl⟩
  · exact ⟨{ st with
        blockStack := top :: rest
        currentBlock := some top
        currentEntity := entityAfterClose top st.currentEntity },
      by simp only [act, hs, entityAfterClose], rfl, rfl⟩

/-- A close line met with an empty block stack changes nothing at all. -/
theorem step_close_empty (st : State) (raw : Str) (h : trim raw = ['\x7d'])
    (hs : st.blockStack = []) : step st raw = some st := by
  rw [step_eq, classify_close st raw h]
  simp [act, hs]

theorem runLines_closes (n : Nat) (st : State) :
    ∃ st', runLines st (List.replicate n ['\x7d']) = some st' ∧ st'.ast = st.ast ∧
      st'.blockStack = st.blockStack.drop n := by
  induction n generalizing st with
  | zero => exact ⟨st, rfl, rfl, rfl⟩
  | succ n ih =>
    obtain ⟨st1, h1, ha1, hs1⟩ := step_close st ['\x7d'] (by decide)
    obtain ⟨st2, h2, ha2, hs2⟩ := ih st1
    refine ⟨st2, by simp [List.replicate_succ, runLines, h1, h2], by rw [ha2, ha1], ?_⟩
    rw [hs2, hs1, List.drop_tail]

/-- An entity declaration line appends its entity and pushes its frame,
whatever the state. -/
theorem step_entityOpen (st : State) (raw name : Str) (h : entityOpen raw = some name) :
    step st raw = some { st with
      ast := ⟨st.ast.body ++ [⟨name, [], []⟩]⟩
      currentEntity := some st.ast.body.length
      blockStack := .entity st.ast.body.length :: st.blockStack } := by
  unfold entityOpen at h
  split at h
  · cases h
  · rename_i hskip
    simp only [step, hskip, h]
    rfl

/-! ### Patterns: what a match needs -/

theorem starG_lit_first {α : Type} (c : Char) (k : Str → Option α) (hc : isSpace c = false)
    (line : Str) (h : starG isSpace (lit c k) line ≠ none) : firstNonSpace line = some c := by
  induction line with
  | nil => simp [starG, lit] at h
  | cons d ds ih =>
    by_cases hd : isSpace d = true
    · have hdc : d ≠ c := fun e => by rw [e, hc] at hd; cases hd
      have hs : starG isSpace (lit c k) ds ≠ none := by
        intro hn
        simp [starG, hd, hn, lit, hdc] at h
      simpa [firstNonSpace, List.dropWhile_cons, hd] using ih hs
    · simp only [Bool.not_eq_true] at hd
      have hdc : d = c := by
        by_contra hne
        simp [starG, hd, lit, hne] at h
      subst hdc
      simp [firstNonSpace, List.dropWhile_cons, hd]

theorem lit_first {α : Type} (c : Char) (k : Str → Option α) (hc : isSpace c = false)
    (line : Str) (h : lit c k line ≠ none) : firstNonSpace line = some c := by
  cases line with
  | nil => simp [lit] at h
  | cons d ds =>
    have hdc : d = c := by
      by_contra hne
      simp [lit, hne] at h
    simp [firstNonSpace, List.dropWhile_cons, hdc, hc]

theorem entityMatch_first (line : Str) (h : entityMatch line ≠ none) :
    firstNonSpace line = some 'E' := by
  unfold entityMatch at h
  rw [Ne, Option.map_eq_none'] at h
  exact lit_first _ _ (by decide) _ h

theorem componentMatch_first (line : Str) (h : componentMatch line ≠ none) :
    firstNonSpace line = some 'C' := by
  unfold componentMatch at h
  rw [Ne, Option.map_eq_none'] at h
  exact starG_lit_first _ _ (by decide) _ h

theorem transformMatch_first (line : Str) (h : transformMatch line = true) :
    firstNonSpace line = some 'T' := by
  unfold transformMatch at h
  rw [Option.isSome_iff_ne_none] at h
  exact starG_lit_first _ _ (by decide) _ h

theorem eventMatch_first (line : Str) (h : eventMatch line ≠ none) :
    firstNonSpace line = some '⊻' := by
  unfold eventMatch at h
  rw [Ne, Option.map_eq_none'] at h
  exact starG_lit_first _ _ (by decide) _ h

theorem nnMatch_first (line : Str) (h : nnMatch line ≠ none) :
    firstNonSpace line = some 'N' := by
  unfold nnMatch at h
  rw [Ne, Option.map_eq_none'] at h
  exact starG_lit_first _ _ (by decide) _ h

theorem conditionalMatch_first (line : Str) (h : conditionalMatch line ≠ none) :
    firstNonSpace line = some '⊿' := by
  unfold conditionalMatch at h
  rw [Ne, Option.map_eq_none'] at h
  exact starG_lit_first _ _ (by decide) _ h

theorem needsBrace_accept : NeedsBrace (lit '\x7b' accept) := by
  intro s hs
  cases s with
  | nil => rfl
  | cons d ds =>
    simp only [List.mem_cons, not_or] at hs
    have hd : d ≠ '\x7b' := fun h => hs.1 h.symm
    simp [lit, hd]

theorem needsBrace_lit {α : Type} (c : Char) {k : Str → Option α} (hk : NeedsBrace k) :
    NeedsBrace (lit c k) := by
  intro s hs
  cases s with
  | nil => rfl
  | cons d ds =>
    simp only [List.mem_cons, not_or] at hs
    simp only [lit]
    split
    · exact hk ds hs.2
    · rfl

theorem needsBrace_starG {α : Type} (p : Char → Bool) {k : Str → Option α} (hk : NeedsBrace k) :
    NeedsBrace (starG p k) := by
  intro s hs
  induction s with
  | nil => simp [starG, hk [] hs]
  | cons d ds ih =>
    have hds : '\x7b' ∉ ds := fun h => hs (List.mem_cons_of_mem _ h)
    simp only [starG, ih hds, hk _ hs, Option.map_none']
    split <;> rfl

theorem needsBrace_plusG {α : Type} (p : Char → Bool) {k : Str → Option α} (hk : NeedsBrace k) :
    NeedsBrace (plusG p k) := by
  intro s hs
  cases s with
  | nil => rfl
  | cons d ds =>
    have hds : '\x7b' ∉ ds := fun h => hs (List.mem_cons_of_mem _ h)
    simp only [plusG, needsBrace_starG p hk ds hds, Option.map_none']
    split <;> rfl

theorem needsBrace_starL {α : Type} (p : Char → Bool) {k : Str → Option α} (hk : NeedsBrace k) :
    NeedsBrace (starL p k) := by
  intro s hs
  induction s with
  | nil => simp [starL, hk [] hs]
  | cons d ds ih =>
    have hds : '\x7b' ∉ ds := fun h => hs (List.mem_cons_of_mem _ h)
    simp only [starL, ih hds, hk _ hs, Option.map_none']
    split <;> rfl

/-- A line without an opening brace matches none of the patterns that open a
block. -/
theorem no_open_without_brace (line : Str) (h : '\x7b' ∉ line) :
    entityMatch line = none ∧ componentMatch line = none ∧ transformMatch line = false ∧
      eventMatch line = none ∧ nnMatch line = none ∧ conditionalMatch line = none := by
  have a := needsBrace_accept
  refine ⟨?_, ?_, ?_, ?_, ?_, ?_⟩
  · simp [entityMatch, needsBrace_lit 'E' (needsBrace_plusG isSpace (needsBrace_plusG isWord
      (needsBrace_starG isSpace a))) line h]
  · simp [componentMatch, needsBrace_starG isSpace (needsBrace_lit 'C' (needsBrace_plusG isSpace
      (needsBrace_plusG isWord (needsBrace_starG isSpace a)))) line h]
  · simp [transformMatch, needsBrace_starG isSpace (needsBrace_lit 'T'
      (needsBrace_starG isSpace a)) line h]
  · simp [eventMatch, needsBrace_starG isSpace (needsBrace_lit '⊻' (needsBrace_plusG isSpace
      (needsBrace_plusG isWord (needsBrace_lit '(' (needsBrace_starL notRParen
        (needsBrace_lit ')' (needsBrace_starG isSpace a))))))) line h]
  · simp [nnMatch, needsBrace_starG isSpace (needsBrace_lit 'N' (needsBrace_lit 'N'
      (needsBrace_plusG isSpace (needsBrace_plusG isWord (needsBrace_starG isSpace a))))) line h]
  · simp [conditionalMatch, needsBrace_starG isSpace (needsBrace_lit '⊿' (needsBrace_plusG isSpace
      (needsBrace_plusG isDot (needsBrace_starG isSpace a)))) line h]

/-! ### Declaration lines -/

theorem not_skip_of_first (line : Str) (c : Char) (h : firstNonSpace line = some c)
    (hc : c ≠ '/') : (line.isEmpty || startsWithSlashes line) = false := by
  cases line with
  | nil => simp [firstNonSpace] at h
  | cons d ds =>
    have : startsWithSlashes (d :: ds) = false := by
      by_contra hs
      simp only [Bool.not_eq_false] at hs
      have hd : d = '/' := by
        unfold startsWithSlashes at hs
        split at hs
        · rename_i heq
          simp only [List.cons.injEq] at heq
          exact heq.1
        · cases hs
      subst hd
      have : firstNonSpace ('/' :: ds) = some '/' := by
        simp [firstNonSpace, List.dropWhile_cons, show isSpace '/' = false by decide]
      rw [this] at h
      exact hc (Option.some.inj h).symm
    simp [this]

theorem classify_component (st : State) (raw name : Str) (e : Nat)
    (h : componentMatch (trim raw) = some name) (he : st.currentEntity = some e) :
    classify st raw = .openComponent e ⟨.component, name, []⟩ := by
  have hf := componentMatch_first _ (by rw [h]; exact Option.some_ne_none _)
  have hskip := not_skip_of_first _ _ hf (by decide)
  have hent : entityMatch (trim raw) = none := by
    by_contra hne
    have := entityMatch_first _ hne
    rw [hf] at this
    exact absurd this (by decide)
  simp [classify, hskip, hent, classifyDeclaration, h, he]

theorem classify_event (st : State) (raw name params : Str) (e : Nat)
    (h : eventMatch (trim raw) = some (name, params)) (he : st.currentEntity = some e) :
    classify st raw = .openHandler e ⟨name, parseParameters params, []⟩ := by
  have hf := eventMatch_first _ (by rw [h]; exact Option.some_ne_none _)
  have hskip := not_skip_of_first _ _ hf (by decide)
  have hent : entityMatch (trim raw) = none := by
    by_contra hne
    have := entityMatch_first _ hne
    rw [hf] at this
    exact absurd this (by decide)
  have hcomp : componentMatch (trim raw) = none := by
    by_contra hne
    have := componentMatch_first _ hne
    rw [hf] at this
    exact absurd this (by decide)
  have htr : transformMatch (trim raw) = false := by
    by_contra hne
    simp only [Bool.not_eq_false] at hne
    have := transformMatch_first _ hne
    rw [hf] at this
    exact absurd this (by decide)
  simp [classify, hskip, hent, classifyDeclaration, hcomp, htr, h, he]

theorem classify_nn (st : State) (raw name : Str) (e : Nat)
    (h : nnMatch (trim raw) = some name) (he : st.currentEntity = some e) :
    classify st raw = .openComponent e ⟨.neuralNetwork, name, []⟩ := by
  have hf := nnMatch_first _ (by rw [h]; exact Option.some_ne_none _)
  have hskip := not_skip_of_first _ _ hf (by decide)
  have hent : entityMatch (trim raw) = none := by
    by_contra hne
    have := entityMatch_first _ hne
    rw [hf] at this
    exact absurd this (by decide)
  have hcomp : componentMatch (trim raw) = none := by
    by_contra hne
    have := componentMatch_first _ hne
    rw [hf] at this
    exact absurd this (by decide)
  have htr : transformMatch (trim raw) = false := by
    by_contra hne
    simp only [Bool.not_eq_false] at hne
    have := transformMatch_first _ hne
    rw [hf] at this
    exact absurd this (by decide)
  have hev : eventMatch (trim raw) = none := by
    by_contra hne
    have := eventMatch_first _ hne
    rw [hf] at this
    exact absurd this (by decide)
  simp [classify, hskip, hent, classifyDeclaration, hcomp, htr, hev, h, he]

/-- With an open block there is a current entity, and it is a node of the
program. -/
theorem current_entity_of_open {st : State} (hi : Inv st) (hs : st.blockStack ≠ []) :
    ∃ e ent, st.currentEntity = some e ∧ st.ast.body[e]? = some ent := by
  rcases he : st.currentEntity with _ | e
  · exact absurd (hi.entity_none.1 he) hs
  · exact ⟨e, _, rfl, List.getElem?_eq_getElem (hi.entity e he)⟩

/-- Opening a component in a state with current entity `e`. -/
theorem step_openComponent (st : State) (raw : Str) (e : Nat) (ent : Entity)
    (c : Component) (hc : classify st raw = .openComponent e c)
    (hent : st.ast.body[e]? = some ent) :
    ∃ st', step st raw = some st' ∧
      st'.ast.body[e]? = some { ent with components := ent.components ++ [c] } ∧
      st'.ast.body.length = st.ast.body.length ∧
      st'.blockStack = componentRef c.type e ent.components.length :: st.blockStack := by
  obtain ⟨ast', j, hp⟩ : ∃ ast' j, pushComponent st.ast e c = some (ast', j) := by
    rw [pushComponent_eq, hent]
    exact ⟨_, _, rfl⟩
  obtain ⟨-, hl, ent', h1, h2, h3⟩ := ext_pushComponent hp
  rw [hent] at h1
  cases h1
  subst h2
  exact ⟨{ st with ast := ast', currentBlock := some (componentRef c.type e ent.components.length),
                   blockStack := componentRef c.type e ent.components.length :: st.blockStack },
    by rw [step_eq, hc]; simp only [act, hp, Option.map_some'], h3, hl, rfl⟩

/-- Opening a handler in a state with current entity `e`. -/
theorem step_openHandler (st : State) (raw : Str) (e : Nat) (ent : Entity)
    (f : EventHandler) (hc : classify st raw = .openHandler e f)
    (hent : st.ast.body[e]? = some ent) :
    ∃ st', step st raw = some st' ∧
      st'.ast.body[e]? = some { ent with functions := ent.functions ++ [f] } ∧
      st'.ast.body.length = st.ast.body.length ∧
      st'.blockStack = .eventHandler e ent.functions.length :: st.blockStack ∧
      st'.currentBlock = some (.eventHandler e ent.functions.length) ∧
      st'.currentEntity = st.currentEntity := by
  obtain ⟨ast', j, hp⟩ : ∃ ast' j, pushFunction st.ast e f = some (ast', j) := by
    rw [pushFunction_eq, hent]
    exact ⟨_, _, rfl⟩
  obtain ⟨-, hl, ent', h1, h2, h3⟩ := ext_pushFunction hp
  rw [hent] at h1
  cases h1
  subst h2
  exact ⟨{ st with ast := ast', currentBlock := some (.eventHandler e ent.functions.length),
                   blockStack := .eventHandler e ent.functions.length :: st.blockStack },
    by rw [step_eq, hc]; simp only [act, hp, Option.map_some'], h3, hl, rfl, rfl, rfl⟩

/-! ### Trimming -/

theorem head_dropWhile_isSpace (s : Str) (c : Char)
    (h : (s.dropWhile isSpace).head? = some c) : isSpace c = false := by
  have := List.head?_dropWhile_not isSpace s
  rw [h] at this
  exact this

theorem trimEnd_append (s : Str) :
    ∃ R, s = trimEnd s ++ R ∧ ∀ c ∈ R, isSpace c = true := by
  refine ⟨(s.reverse.takeWhile isSpace).reverse, ?_, ?_⟩
  · have := List.takeWhile_append_dropWhile isSpace s.reverse
    have h2 := congrArg List.reverse this
    simp only [List.reverse_append, List.reverse_reverse] at h2
    exact h2.symm
  · intro c hc
    exact List.mem_takeWhile_imp (List.mem_reverse.1 hc)

theorem trimEnd_last (s : Str) (c : Char) (h : (trimEnd s).getLast? = some c) :
    isSpace c = false := by
  apply head_dropWhile_isSpace s.reverse
  rw [← h, trimEnd, List.getLast?_reverse]

/-- Trimming removes white space at both ends and nothing else. -/
theorem trim_decompose (s : Str) :
    ∃ L R, s = L ++ trim s ++ R ∧ (∀ c ∈ L, isSpace c = true) ∧ (∀ c ∈ R, isSpace c = true) := by
  obtain ⟨R, hR, hRs⟩ := trimEnd_append (s.dropWhile isSpace)
  refine ⟨s.takeWhile isSpace, R, ?_, fun c hc => List.mem_takeWhile_imp hc, hRs⟩
  rw [List.append_assoc, trim, ← hR, List.takeWhile_append_dropWhile]

theorem trimmed_trim (s : Str) : Trimmed (trim s) := by
  refine ⟨fun c hc => ?_, fun c hc => trimEnd_last _ c hc⟩
  obtain ⟨R, hR, -⟩ := trimEnd_append (s.dropWhile isSpace)
  apply head_dropWhile_isSpace s
  have hne : trimEnd (s.dropWhile isSpace) ≠ [] := by
    intro hn
    simp [trim, hn] at hc
  rw [hR, List.head?_append_of_ne_nil _ hne]
  exact hc

theorem trim_eq_of (L X R : Str) (hL : ∀ c ∈ L, isSpace c = true)
    (hR : ∀ c ∈ R, isSpace c = true) (hX : Trimmed X) (hne : X ≠ []) :
    trim (L ++ X ++ R) = X := by
  obtain ⟨x, X', rfl⟩ := List.exists_cons_of_ne_nil hne
  have hx : isSpace x = false := hX.1 x rfl
  have h1 : (L ++ (x :: X') ++ R).dropWhile isSpace = x :: X' ++ R := by
    rw [List.append_assoc, List.dropWhile_append_of_pos hL]
    simp [List.dropWhile_cons, hx]
  have hlast : ((x :: X').reverse).dropWhile isSpace = (x :: X').reverse := by
    obtain ⟨z, Z, hz⟩ := List.exists_cons_of_ne_nil
      (show (x :: X').reverse ≠ [] by simp)
    have hzl : (x :: X').getLast? = some z := by
      rw [← List.head?_reverse, hz]
      rfl
    rw [hz, List.dropWhile_cons_of_neg (by simp [hX.2 z hzl])]
  rw [trim, h1, trimEnd, List.reverse_append,
    List.dropWhile_append_of_pos (fun c hc => hR c (List.mem_reverse.1 hc)), hlast,
    List.reverse_reverse]

theorem trim_trim (s : Str) : trim (trim s) = trim s := by
  by_cases h : trim s = []
  · rw [h]
    rfl
  · simpa using trim_eq_of [] (trim s) [] (by simp) (by simp) (trimmed_trim s) h

theorem mem_of_mem_trim (s : Str) (c : Char) (h : c ∈ trim s) : c ∈ s := by
  obtain ⟨L, R, hs, -, -⟩ := trim_decompose s
  rw [hs]
  simp [h]

theorem trim_ne_nil_cons (s : Str) (h : trim s ≠ []) :
    ∃ c cs, trim s = c :: cs ∧ isSpace c = false := by
  obtain ⟨c, cs, hc⟩ := List.exists_cons_of_ne_nil h
  exact ⟨c, cs, hc, (trimmed_trim s).1 c (by rw [hc]; rfl)⟩

/-! ### Patterns: what they match -/

/-- A greedy star takes a run of matching characters whole when the rest of
the pattern then succeeds. -/
theorem starG_append_all {α : Type} (p : Char → Bool) (k : Str → Option α) (L rest m : Str)
    (a : α) (hL : ∀ c ∈ L, p c = true) (h : starG p k rest = some (m, a)) :
    starG p k (L ++ rest) = some (L ++ m, a) := by
  induction L with
  | nil => simpa using h
  | cons c cs ih =>
    have hc : p c = true := hL c (List.mem_cons_self _ _)
    have := ih fun x hx => hL x (List.mem_cons_of_mem _ hx)
    simp [starG, hc, this]

/-- A greedy star stops before a character that does not match. -/
theorem starG_stop {α : Type} (p : Char → Bool) (k : Str → Option α) (d : Char) (ds : Str)
    (hd : p d = false) : starG p k (d :: ds) = (k (d :: ds)).map fun a => ([], a) := by
  simp [starG, hd]

theorem starG_all_eos (p : Char → Bool) (s : Str) (hs : ∀ c ∈ s, p c = true) :
    starG p eos s = some (s, ()) := by
  have := starG_append_all p eos s [] [] () hs rfl
  simpa using this

theorem plusG_all_eos (p : Char → Bool) (s : Str) (hne : s ≠ [])
    (hs : ∀ c ∈ s, p c = true) : plusG p eos s = some (s, ()) := by
  obtain ⟨c, cs, rfl⟩ := List.exists_cons_of_ne_nil hne
  simp [plusG, hs c (List.mem_cons_self _ _),
    starG_all_eos p cs fun x hx => hs x (List.mem_cons_of_mem _ hx)]

theorem starL_here {α : Type} (p : Char → Bool) (k : Str → Option α) (rest : Str) (a : α)
    (h : k rest = some a) : starL p k rest = some ([], a) := by
  cases rest <;> simp [starL, h]

/-- A lazy star runs over the characters after which the rest of the pattern
fails. -/
theorem starL_skip {α : Type} (p : Char → Bool) (k : Str → Option α) (s rest : Str)
    (hs : ∀ c ∈ s, p c = true)
    (hk : ∀ t : Str, t ≠ [] → t <:+ s → k (t ++ rest) = none) :
    starL p k (s ++ rest) = (starL p k rest).map fun r => (s ++ r.1, r.2) := by
  induction s with
  | nil => simp
  | cons c cs ih =>
    have h1 : k (c :: cs ++ rest) = none := hk (c :: cs) (by simp) (List.suffix_refl _)
    have h2 := ih (fun x hx => hs x (List.mem_cons_of_mem _ hx))
      (fun t ht hsuf => hk t ht (List.suffix_cons_iff.2 (Or.inr hsuf)))
    simp only [List.cons_append] at h1 ⊢
    simp only [starL, h1, hs c (List.mem_cons_self _ _), if_true, h2, Option.map_map]
    rfl

/-- The first character that is not white space of a text that has one lies
in the text, whatever follows. -/
theorem firstNonSpace_append (t rest : Str) (z : Char) (hz : z ∈ t) (hzs : isSpace z = false) :
    ∃ y, y ∈ t ∧ firstNonSpace (t ++ rest) = some y := by
  induction t with
  | nil => cases hz
  | cons c cs ih =>
    by_cases hc : isSpace c = true
    · have hzc : z ∈ cs := by
        rcases List.mem_cons.1 hz with h | h
        · rw [h, hc] at hzs
          cases hzs
        · exact h
      obtain ⟨y, hy, hf⟩ := ih hzc
      exact ⟨y, List.mem_cons_of_mem _ hy, by
        simpa [firstNonSpace, List.dropWhile_cons, hc] using hf⟩
    · exact ⟨c, List.mem_cons_self _ _, by simp [firstNonSpace, List.dropWhile_cons, hc]⟩

theorem starG_lit_none {α : Type} (c : Char) (k : Str → Option α) (hc : isSpace c = false)
    (line : Str) (h : firstNonSpace line ≠ some c) : starG isSpace (lit c k) line = none := by
  by_contra hne
  exact h (starG_lit_first c k hc line hne)

/-- The flow pattern on `M W → W' M'`: group 1 is `M` and group 2 is `M'`,
when `M` and `M'` are trimmed and not empty, hold no line terminator, and `M`
holds no arrow; `W` and `W'` are white space. -/
theorem flowMatch_arrow (M W W' M' : Str) (hM : Trimmed M) (hMne : M ≠ [])
    (hMdot : ∀ c ∈ M, isDot c = true) (hMarrow : '→' ∉ M)
    (hW : ∀ c ∈ W, isSpace c = true) (hW' : ∀ c ∈ W', isSpace c = true)
    (hM' : Trimmed M') (hM'ne : M' ≠ []) (hM'dot : ∀ c ∈ M', isDot c = true) :
    flowMatch (M ++ W ++ '→' :: (W' ++ M')) = some (M, M') := by
  obtain ⟨m, ms, rfl⟩ := List.exists_cons_of_ne_nil hMne
  obtain ⟨m', ms', rfl⟩ := List.exists_cons_of_ne_nil hM'ne
  have hm : isSpace m = false := hM.1 m rfl
  have hm' : isSpace m' = false := hM'.1 m' rfl
  -- the text after the arrow
  have k2 : starG isSpace (plusG isDot eos) (W' ++ m' :: ms') = some (W' ++ [], (m' :: ms', ())) :=
    starG_append_all _ _ _ _ _ _ hW' (by
      rw [starG_stop _ _ _ _ hm', plusG_all_eos isDot _ (by simp) hM'dot]
      rfl)
  -- the white space and the arrow
  have k1 : starG isSpace (lit '→' (starG isSpace (plusG isDot eos)))
      (W ++ '→' :: (W' ++ m' :: ms')) = some (W ++ [], (W' ++ [], (m' :: ms', ()))) :=
    starG_append_all _ _ _ _ _ _ hW (by
      rw [starG_stop _ _ _ _ (by decide)]
      simp [lit, k2])
  -- no arrow comes earlier
  have hfail : ∀ t : Str, t ≠ [] → t <:+ ms →
      starG isSpace (lit '→' (starG isSpace (plusG isDot eos)))
        (t ++ (W ++ '→' :: (W' ++ m' :: ms'))) = none := by
    intro t ht hsuf
    apply starG_lit_none _ _ (by decide)
    obtain ⟨u, hu⟩ := hsuf
    obtain ⟨z, hz⟩ := Option.isSome_iff_exists.1 (List.getLast?_isSome.2 ht)
    have hzM : (m :: ms).getLast? = some z := by
      rw [← hu, ← List.cons_append, List.getLast?_append, hz]
      rfl
    obtain ⟨y, hy, hf⟩ := firstNonSpace_append t (W ++ '→' :: (W' ++ m' :: ms')) z
      (List.mem_of_mem_getLast? hz) (hM.2 z hzM)
    rw [hf]
    intro he
    cases he
    exact hMarrow (List.mem_cons_of_mem _ (hu ▸ List.mem_append_right _ hy))
  have hlazy := starL_skip isDot _ ms (W ++ '→' :: (W' ++ m' :: ms'))
    (fun c hc => hMdot c (List.mem_cons_of_mem _ hc)) hfail
  rw [starL_here _ _ _ _ k1] at hlazy
  simp only [flowMatch, List.cons_append, List.append_assoc, starG_stop _ _ _ _ hm, plusL,
    hMdot m (List.mem_cons_self _ _), if_true]
  rw [hlazy]
  simp

/-! ### Statement lines -/

theorem startsWithSlashes_append (M rest : Str) (hM : M ≠ [])
    (hrest : ∀ c, rest.head? = some c → c ≠ '/') :
    startsWithSlashes (M ++ rest) = startsWithSlashes M := by
  obtain ⟨m, ms, rfl⟩ := List.exists_cons_of_ne_nil hM
  cases ms with
  | cons m2 ms2 =>
    by_cases h1 : m = '/'
    · by_cases h2 : m2 = '/'
      · subst h1 h2
        rfl
      · subst h1
        simp only [List.cons_append, startsWithSlashes]
        split
        · rename_i heq
          simp only [List.cons.injEq] at heq
          exact absurd heq.2.1 h2
        · split
          · rename_i heq
            simp only [List.cons.injEq] at heq
            exact absurd heq.2.1 h2
          · rfl
    · simp only [List.cons_append, startsWithSlashes]
      split
      · rename_i heq
        simp only [List.cons.injEq] at heq
        exact absurd heq.1 h1
      · split
        · rename_i heq
          simp only [List.cons.injEq] at heq
          exact absurd heq.1 h1
        · rfl
  | nil =>
    have : startsWithSlashes (m :: rest) = false := by
      cases rest with
      | nil => simp [startsWithSlashes]
      | cons r rs =>
        have hr : r ≠ '/' := hrest r rfl
        simp only [startsWithSlashes]
        split
        · rename_i heq
          simp only [List.cons.injEq] at heq
          exact absurd heq.2.1 hr
        · rfl
    simp only [List.singleton_append, this]
    simp [startsWithSlashes]

theorem getLast?_append_ne {α : Type} (X Y : List α) (hY : Y ≠ []) :
    (X ++ Y).getLast? = Y.getLast? := by
  obtain ⟨z, hz⟩ := Option.isSome_iff_exists.1 (List.getLast?_isSome.2 hY)
  rw [List.getLast?_append, hz]
  rfl

/-- The trimmed text of a line `S → T`. -/
theorem trim_arrow (S T : Str) (hS : trim S ≠ []) (hT : trim T ≠ []) :
    ∃ W W', trim (S ++ '→' :: T) = trim S ++ W ++ '→' :: (W' ++ trim T) ∧
      (∀ c ∈ W, isSpace c = true) ∧ (∀ c ∈ W', isSpace c = true) := by
  obtain ⟨L, R, hSd, hL, hR⟩ := trim_decompose S
  obtain ⟨L', R', hTd, hL', hR'⟩ := trim_decompose T
  refine ⟨R, L', ?_, hR, hL'⟩
  have e1 : S ++ '→' :: T = L ++ (trim S ++ R ++ '→' :: (L' ++ trim T)) ++ R' := by
    have : S ++ '→' :: T = (L ++ trim S ++ R) ++ '→' :: (L' ++ trim T ++ R') := by
      rw [← hSd, ← hTd]
    rw [this]
    simp [List.append_assoc]
  rw [e1]
  apply trim_eq_of _ _ _ hL hR'
  · obtain ⟨m, ms, hm, hms⟩ := trim_ne_nil_cons S hS
    refine ⟨fun c hc => ?_, fun c hc => ?_⟩
    · rw [hm] at hc
      simp only [List.cons_append, List.head?_cons, Option.some.injEq] at hc
      subst hc
      exact hms
    · apply (trimmed_trim T).2 c
      have e2 : trim S ++ R ++ '→' :: (L' ++ trim T) = (trim S ++ R ++ '→' :: L') ++ trim T := by
        simp [List.append_assoc]
      rw [e2, getLast?_append_ne _ _ hT] at hc
      exact hc
  · simp [hS]

/-- When the current block is a handler or a conditional no property is
pushed. -/
theorem classifyBlock_of_body (st : State) (r : Ref) (hr : st.currentBlock = some r)
    (hb : r.hasBody = true) (line : Str) (hcond : conditionalMatch line = none) :
    classifyBlock st line = classifyStatement st line := by
  unfold classifyBlock
  rw [hr, hcond]
  cases r with
  | entity e => cases hb
  | component e j => cases hb
  | neuralNetwork e j => cases hb
  | eventHandler e j => cases propertyMatch line <;> rfl
  | conditional e j k => cases propertyMatch line <;> rfl

theorem opensBlock_false (line : Str) (h : opensBlock line = false) :
    entityMatch line = none ∧ componentMatch line = none ∧ transformMatch line = false ∧
      eventMatch line = none ∧ nnMatch line = none ∧ conditionalMatch line = none := by
  have isNone : ∀ {α : Type} (o : Option α), o.isSome = false → o = none := by
    intro α o ho
    cases o with
    | none => rfl
    | some a => cases ho
  simp only [opensBlock, Bool.or_eq_false_iff] at h
  obtain ⟨⟨⟨⟨⟨h1, h2⟩, h3⟩, h4⟩, h5⟩, h6⟩ := h
  exact ⟨isNone _ h1, isNone _ h2, h3, isNone _ h4, isNone _ h5, isNone _ h6⟩

theorem opensBlock_of_no_brace (line : Str) (h : '\x7b' ∉ line) : opensBlock line = false := by
  obtain ⟨h1, h2, h3, h4, h5, h6⟩ := no_open_without_brace line h
  simp [opensBlock, h1, h2, h3, h4, h5, h6]

/-- A data-flow line read while the top frame and the current block have a
body is taken by the data-flow branch, with both sides trimmed. -/
theorem classify_flow (st : State) (r : Ref) (hr : st.currentBlock = some r)
    (hb : r.hasBody = true) (top : Ref) (rest : List Ref)
    (hstack : st.blockStack = top :: rest) (htop : top.hasBody = true) (S T : Str)
    (hS : trim S ≠ []) (hT : trim T ≠ []) (hSdot : ∀ c ∈ trim S, isDot c = true)
    (hTdot : ∀ c ∈ trim T, isDot c = true) (hSarrow : '→' ∉ S)
    (hopen : opensBlock (trim (S ++ '→' :: T)) = false)
    (hcomment : startsWithSlashes (trim S) = false) :
    classify st (S ++ '→' :: T) = .addStmt top (.dataFlow (trim S) (trim T)) := by
  obtain ⟨W, W', hraw, hW, hW'⟩ := trim_arrow S T hS hT
  have hflow := flowMatch_arrow (trim S) W W' (trim T) (trimmed_trim S) hS hSdot
    (fun h => hSarrow (mem_of_mem_trim S _ h)) hW hW' (trimmed_trim T) hT hTdot
  obtain ⟨h1, h2, h3, h4, h5, h6⟩ := opensBlock_false _ hopen
  have hskip : ((trim (S ++ '→' :: T)).isEmpty ||
      startsWithSlashes (trim (S ++ '→' :: T))) = false := by
    rw [hraw, List.append_assoc, startsWithSlashes_append _ _ hS, hcomment]
    · obtain ⟨m, ms, hm, -⟩ := trim_ne_nil_cons S hS
      simp [hm]
    · intro c hc
      cases W with
      | nil =>
        simp only [List.nil_append, List.head?_cons, Option.some.injEq] at hc
        subst hc
        decide
      | cons w ws =>
        simp only [List.cons_append, List.head?_cons, Option.some.injEq] at hc
        subst hc
        intro hw
        have := hW w (List.mem_cons_self _ _)
        rw [hw] at this
        exact absurd this (by decide)
  have hdecl : classifyDeclaration st (trim (S ++ '→' :: T)) =
      classifyBlock st (trim (S ++ '→' :: T)) := by
    unfold classifyDeclaration
    rw [h2, h3, h4, h5]
  simp only [classify, hskip, h1, hdecl, classifyBlock_of_body st r hr hb _ h6]
  rw [hraw]
  unfold classifyStatement
  rw [hflow, hstack]
  simp [htop, trim_trim]

theorem set_length_append {α : Type} (l : List α) (a b : α) :
    (l ++ [a]).set l.length b = l ++ [b] := by
  induction l with
  | nil => rfl
  | cons x xs ih => simp [ih]

/-- Pushing a statement to a node with a body appends it to that body. -/
theorem pushBody_bodyOf {ast ast' : Program} {r : Ref} {s : Stmt} {k : Nat}
    (h : pushBody ast r s = some (ast', k)) :
    ∃ b, bodyOf ast r = some b ∧ bodyOf ast' r = some (b ++ [s]) ∧ k = b.length := by
  cases r with
  | entity e => simp [pushBody] at h
  | component e j => simp [pushBody] at h
  | neuralNetwork e j => simp [pushBody] at h
  | eventHandler e j =>
    rw [pushBody_handler_eq] at h
    rcases he : ast.body[e]? with _ | ent
    · simp [he] at h
    · rcases hf : ent.functions[j]? with _ | f
      · simp [he, hf] at h
      · simp only [he, hf, Option.map_some', Option.some_bind, Option.some.injEq,
          Prod.mk.injEq] at h
        obtain ⟨rfl, rfl⟩ := h
        have hlt : e < ast.body.length := (List.getElem?_eq_some.1 he).1
        have hj : j < ent.functions.length := (List.getElem?_eq_some.1 hf).1
        exact ⟨f.body, by simp [bodyOf, lookupFunction, he, hf],
          by simp [bodyOf, lookupFunction, hlt, hj], rfl⟩
  | conditional e j k' =>
    rw [pushBody_conditional_eq] at h
    rcases he : ast.body[e]? with _ | ent
    · simp [he] at h
    · rcases hf : ent.functions[j]? with _ | f
      · simp [he, hf] at h
      · rcases ht : f.body[k']? with _ | t
        · simp [he, hf, ht] at h
        · cases t with
          | dataFlow a b => simp [he, hf, ht] at h
          | statement a => simp [he, hf, ht] at h
          | conditional c0 b0 =>
            simp only [he, hf, ht, Option.some_bind, Option.some.injEq, Prod.mk.injEq] at h
            obtain ⟨rfl, rfl⟩ := h
            have hlt : e < ast.body.length := (List.getElem?_eq_some.1 he).1
            have hj : j < ent.functions.length := (List.getElem?_eq_some.1 hf).1
            have hk : k' < f.body.length := (List.getElem?_eq_some.1 ht).1
            exact ⟨b0, by simp [bodyOf, lookupFunction, he, hf, ht],
              by simp [bodyOf, lookupFunction, hlt, hj, hk], rfl⟩

/-- Adding a statement to the top frame: the step succeeds, the body of the
top node gets the statement at its end, and nothing else of the state
changes. -/
theorem step_addStmt (st : State) (hi : Inv st) (raw : Str) (top : Ref) (rest : List Ref)
    (s : Stmt) (hstack : st.blockStack = top :: rest) (htop : top.hasBody = true)
    (hc : classify st raw = .addStmt top s) :
    ∃ st' b, step st raw = some st' ∧ bodyOf st.ast top = some b ∧
      bodyOf st'.ast top = some (b ++ [s]) ∧ st'.blockStack = st.blockStack ∧
      st'.currentBlock = st.currentBlock ∧ st'.currentEntity = st.currentEntity := by
  have hv : validRef st.ast top := hi.stack top (by simp [hstack])
  obtain ⟨ast', k, hp⟩ := pushBody_valid hv htop s
  obtain ⟨b, hb1, hb2, -⟩ := pushBody_bodyOf hp
  exact ⟨{ st with ast := ast' }, b, by rw [step_eq, hc]; simp only [act, hp, Option.map_some'],
    hb1, hb2, rfl, rfl, rfl⟩

/-! ### Conditional lines -/

theorem conditionalMatch_line (c : Str) (hc : ConditionText c) :
    conditionalMatch (conditionalLine c) = some (c ++ [' ']) := by
  obtain ⟨hne, hhead, hdot⟩ := hc
  obtain ⟨x, xs, rfl⟩ := List.exists_cons_of_ne_nil hne
  have hx : isSpace x = false := hhead x rfl
  have hk : starG isDot (starG isSpace (lit '\x7b' accept)) ['\x7b'] = some ([], ([], ())) := by
    decide
  have hall : ∀ y ∈ xs ++ [' '], isDot y = true := by
    intro y hy
    rcases List.mem_append.1 hy with h | h
    · exact hdot y (List.mem_cons_of_mem _ h)
    · simp only [List.mem_singleton] at h
      subst h
      decide
  have hg := starG_append_all isDot (starG isSpace (lit '\x7b' accept)) (xs ++ [' ']) ['\x7b'] []
    ([], ()) hall hk
  have e1 : xs ++ [' ', '\x7b'] = (xs ++ [' ']) ++ ['\x7b'] := by simp
  simp only [conditionalMatch, conditionalLine, List.cons_append,
    starG_stop isSpace _ '⊿' _ (by decide), lit, if_true, plusG,
    show isSpace ' ' = true by decide, starG_stop isSpace _ x _ hx,
    hdot x (List.mem_cons_self _ _), e1, hg]
  simp

theorem trim_conditionalLine (c : Str) : trim (conditionalLine c) = conditionalLine c := by
  have h := trim_eq_of [] (conditionalLine c) [] (by simp) (by simp) ?_ (by simp [conditionalLine])
  · simpa using h
  · refine ⟨fun x hx => ?_, fun x hx => ?_⟩
    · simp only [conditionalLine, List.head?_cons, Option.some.injEq] at hx
      subst hx
      decide
    · have e : conditionalLine c = ('⊿' :: ' ' :: c ++ [' ']) ++ ['\x7b'] := by
        simp [conditionalLine]
      rw [e, getLast?_append_ne _ _ (by simp)] at hx
      simp only [List.getLast?_singleton, Option.some.injEq] at hx
      subst hx
      decide

theorem firstNonSpace_conditionalLine (c : Str) :
    firstNonSpace (conditionalLine c) = some '⊿' := by
  simp [firstNonSpace, conditionalLine, List.dropWhile_cons, show isSpace '⊿' = false by decide]

/-- A conditional line read while the current block is a handler opens a
conditional in the body of that handler. -/
theorem classify_conditionalLine (st : State) (c : Str) (hc : ConditionText c) (e j : Nat)
    (hblock : st.currentBlock = some (.eventHandler e j)) :
    classify st (conditionalLine c) = .openConditional e j (c ++ [' ']) := by
  have hf := firstNonSpace_conditionalLine c
  have hskip := not_skip_of_first _ _ hf (by decide)
  have h1 : entityMatch (conditionalLine c) = none := by
    by_contra hne
    have := entityMatch_first _ hne
    rw [hf] at this
    exact absurd this (by decide)
  have h2 : componentMatch (conditionalLine c) = none := by
    by_contra hne
    have := componentMatch_first _ hne
    rw [hf] at this
    exact absurd this (by decide)
  have h3 : transformMatch (conditionalLine c) = false := by
    by_contra hne
    simp only [Bool.not_eq_false] at hne
    have := transformMatch_first _ hne
    rw [hf] at this
    exact absurd this (by decide)
  have h4 : eventMatch (conditionalLine c) = none := by
    by_contra hne
    have := eventMatch_first _ hne
    rw [hf] at this
    exact absurd this (by decide)
  have h5 : nnMatch (conditionalLine c) = none := by
    by_contra hne
    have := nnMatch_first _ hne
    rw [hf] at this
    exact absurd this (by decide)
  have hdecl : classifyDeclaration st (conditionalLine c) =
      classifyBlock st (conditionalLine c) := by
    unfold classifyDeclaration
    rw [h2, h3, h4, h5]
  have hblk : classifyBlock st (conditionalLine c) = .openConditional e j (c ++ [' ']) := by
    unfold classifyBlock
    rw [hblock, conditionalMatch_line c hc]
    cases propertyMatch (conditionalLine c) <;> rfl
  simp only [classify, trim_conditionalLine, hskip, h1, hdecl, hblk]
  rfl

/-- Pushing a statement to the body of the last handler of an entity. -/
theorem pushBody_last_handler (ast : Program) (e : Nat) (ent : Entity)
    (fs : List EventHandler) (f : EventHandler) (s : Stmt)
    (he : ast.body[e]? = some ent) (hf : ent.functions = fs ++ [f]) :
    ∃ ast', pushBody ast (.eventHandler e fs.length) s = some (ast', f.body.length) ∧
      ast'.body[e]? = some { ent with functions := fs ++ [{ f with body := f.body ++ [s] }] } ∧
      ast'.body.length = ast.body.length := by
  have hlt : e < ast.body.length := (List.getElem?_eq_some.1 he).1
  refine ⟨⟨ast.body.set e { ent with functions := fs ++ [{ f with body := f.body ++ [s] }] }⟩,
    ?_, by simp [hlt], by simp⟩
  rw [pushBody_handler_eq, he]
  simp [hf, set_length_append]

/-- Pushing a statement to the body of a conditional of the last handler of
an entity. -/
theorem pushBody_last_conditional (ast : Program) (e : Nat) (ent : Entity)
    (fs : List EventHandler) (f : EventHandler) (k : Nat) (c : Str) (b : List Stmt) (s : Stmt)
    (he : ast.body[e]? = some ent) (hf : ent.functions = fs ++ [f])
    (hk : f.body[k]? = some (.conditional c b)) :
    ∃ ast', pushBody ast (.conditional e fs.length k) s = some (ast', b.length) ∧
      ast'.body[e]? = some { ent with
        functions := fs ++ [{ f with body := f.body.set k (.conditional c (b ++ [s])) }] } ∧
      ast'.body.length = ast.body.length := by
  have hlt : e < ast.body.length := (List.getElem?_eq_some.1 he).1
  refine ⟨⟨ast.body.set e { ent with
      functions := fs ++ [{ f with body := f.body.set k (.conditional c (b ++ [s])) }] }⟩,
    ?_, by simp [hlt], by simp⟩
  rw [pushBody_conditional_eq, he]
  simp [hf, hk, set_length_append]

/-! ### Entity lines -/

theorem isSpace_of_isWord (c : Char) (h : isWord c = true) : isSpace c = false := by
  simp only [isWord, Bool.or_eq_true, Bool.and_eq_true, decide_eq_true_eq] at h
  simp only [isSpace, isLineTerminator, Bool.or_eq_false_iff, Bool.and_eq_false_iff,
    decide_eq_false_iff_not]
  omega

/-- The entity pattern on `E`, white space, a name of word characters,
optional white space, an opening brace, anything: group 1 is the name. -/
theorem entityMatch_line (W1 n W2 rest : Str) (hW1 : W1 ≠ [])
    (hW1s : ∀ c ∈ W1, isSpace c = true) (hn : n ≠ []) (hnw : ∀ c ∈ n, isWord c = true)
    (hW2s : ∀ c ∈ W2, isSpace c = true) :
    entityMatch ('E' :: (W1 ++ n ++ W2 ++ '\x7b' :: rest)) = some n := by
  obtain ⟨w, ws, rfl⟩ := List.exists_cons_of_ne_nil hW1
  obtain ⟨x, xs, rfl⟩ := List.exists_cons_of_ne_nil hn
  have hx : isWord x = true := hnw x (List.mem_cons_self _ _)
  have k3 : starG isSpace (lit '\x7b' accept) (W2 ++ '\x7b' :: rest) = some (W2 ++ [], ()) :=
    starG_append_all _ _ _ _ _ _ hW2s (by
      rw [starG_stop _ _ _ _ (by decide)]
      simp [lit, accept])
  have k2stop : starG isWord (starG isSpace (lit '\x7b' accept)) (W2 ++ '\x7b' :: rest) =
      some ([], (W2 ++ [], ())) := by
    cases W2 with
    | nil =>
      rw [List.nil_append, starG_stop _ _ _ _ (by decide)]
      rw [List.nil_append] at k3
      rw [k3]
      rfl
    | cons v vs =>
      have hv : isWord v = false := by
        by_contra hne
        simp only [Bool.not_eq_false] at hne
        have := isSpace_of_isWord v hne
        rw [hW2s v (List.mem_cons_self _ _)] at this
        cases this
      rw [List.cons_append, starG_stop _ _ _ _ hv]
      rw [List.cons_append] at k3
      rw [k3]
      rfl
  have k2 := starG_append_all isWord _ xs _ _ _
    (fun c hc => hnw c (List.mem_cons_of_mem _ hc)) k2stop
  have k1stop : starG isSpace (plusG isWord (starG isSpace (lit '\x7b' accept)))
      (x :: (xs ++ (W2 ++ '\x7b' :: rest))) = some ([], (x :: (xs ++ []), (W2 ++ [], ()))) := by
    rw [starG_stop _ _ _ _ (isSpace_of_isWord x hx)]
    simp only [plusG, hx, if_true, k2]
    rfl
  have k1 := starG_append_all isSpace _ ws _ _ _
    (fun c hc => hW1s c (List.mem_cons_of_mem _ hc)) k1stop
  have e : 'E' :: (w :: ws ++ x :: xs ++ W2 ++ '\x7b' :: rest) =
      'E' :: w :: (ws ++ x :: (xs ++ (W2 ++ '\x7b' :: rest))) := by
    simp [List.append_assoc]
  rw [e]
  simp only [entityMatch, lit, if_true, plusG, hW1s w (List.mem_cons_self _ _), k1]
  simp

/-- A source line that, once trimmed, reads `E <name> {` (with any white
space around the name and anything after the brace) declares the entity
`<name>`. -/
theorem entityOpen_line (raw W1 n W2 rest : Str)
    (hraw : trim raw = 'E' :: (W1 ++ n ++ W2 ++ '\x7b' :: rest)) (hW1 : W1 ≠ [])
    (hW1s : ∀ c ∈ W1, isSpace c = true) (hn : n ≠ []) (hnw : ∀ c ∈ n, isWord c = true)
    (hW2s : ∀ c ∈ W2, isSpace c = true) : entityOpen raw = some n := by
  have hm := entityMatch_line W1 n W2 rest hW1 hW1s hn hnw hW2s
  have hf := entityMatch_first _ (by rw [hm]; exact Option.some_ne_none _)
  have hskip := not_skip_of_first _ _ hf (by decide)
  rw [← hraw] at hm hskip
  simp [entityOpen, hskip, hm]

/-! ### Blank lines and comments -/

theorem step_skip (st : State) (raw : Str) (h : isSkipLine raw = true) : step st raw = some st := by
  unfold isSkipLine at h
  simp only [step, h, if_true]

/-- The loop does on a list of lines what it does on its lines that are
neither blank nor comments. -/
theorem runLines_filter (ls : List Str) (st : State) :
    runLines st ls = runLines st (ls.filter fun l => !isSkipLine l) := by
  induction ls generalizing st with
  | nil => rfl
  | cons l ls ih =>
    by_cases h : isSkipLine l = true
    · simp only [runLines, step_skip st l h, List.filter_cons, h, Bool.not_true]
      exact ih st
    · simp only [Bool.not_eq_true] at h
      simp only [List.filter_cons, h, Bool.not_false, if_true, runLines]
      cases step st l with
      | none => rfl
      | some st' => exact ih st'

/-! ### The Transform shorthand -/

theorem closeMatch_first (line : Str) (h : closeMatch line = true) :
    firstNonSpace line = some '\x7d' := by
  unfold closeMatch at h
  rw [Option.isSome_iff_ne_none] at h
  exact starG_lit_first _ _ (by decide) _ h

/-- A statement line holds no brace. -/
theorem statementMatch_no_brace (line : Str) (h : statementMatch line = true) :
    '\x7b' ∉ line := by
  unfold statementMatch at h
  rw [Option.isSome_iff_ne_none] at h
  induction line with
  | nil => simp
  | cons d ds ih =>
    have hrest : plusG notBrace eos (d :: ds) ≠ none → '\x7b' ∉ d :: ds := by
      intro hp
      simp only [plusG] at hp
      split at hp
      · rename_i hd
        have hall : ∀ (s : Str), starG notBrace eos s ≠ none → '\x7b' ∉ s := by
          intro s
          induction s with
          | nil => simp
          | cons x xs ihx =>
            intro hs
            simp only [starG, eos, Option.map_none'] at hs
            split at hs
            · rename_i hx
              have hx' : x ≠ '\x7b' := by
                intro e
                rw [e] at hx
                revert hx
                decide
              have : starG notBrace eos xs ≠ none := by
                intro hn
                simp [hn] at hs
              simp only [List.mem_cons, not_or]
              exact ⟨fun e => hx' e.symm, ihx this⟩
            · exact absurd rfl hs
        have hd' : d ≠ '\x7b' := by
          intro e
          rw [e] at hd
          revert hd
          decide
        have hs : starG notBrace eos ds ≠ none := by
          intro hn
          simp [hn] at hp
        simp only [List.mem_cons, not_or]
        exact ⟨fun e => hd' e.symm, hall ds hs⟩
      · exact absurd rfl hp
    by_cases hd : isSpace d = true
    · by_cases hs : starG isSpace (plusG notBrace eos) ds = none
      · apply hrest
        intro hn
        simp [starG, hd, hs, hn] at h
      · have hd' : d ≠ '\x7b' := by
          intro e
          rw [e] at hd
          revert hd
          decide
        simp only [List.mem_cons, not_or]
        exact ⟨fun e => hd' e.symm, ih hs⟩
    · simp only [Bool.not_eq_true] at hd
      apply hrest
      intro hn
      simp [starG, hd, hn] at h

theorem classify_transform (st : State) (raw : Str) (e : Nat)
    (h : transformMatch (trim raw) = true) (he : st.currentEntity = some e) :
    classify st raw = .openComponent e ⟨.component, "Transform".toList, []⟩ := by
  have hf := transformMatch_first _ h
  have hskip := not_skip_of_first _ _ hf (by decide)
  have hent : entityMatch (trim raw) = none := by
    by_contra hne
    have := entityMatch_first _ hne
    rw [hf] at this
    exact absurd this (by decide)
  have hcomp : componentMatch (trim raw) = none := by
    by_contra hne
    have := componentMatch_first _ hne
    rw [hf] at this
    exact absurd this (by decide)
  simp [classify, hskip, hent, classifyDeclaration, hcomp, h, he]

/-- With no block open, a line that neither opens an entity nor closes a
block changes nothing. -/
theorem classify_idle (st : State) (raw : Str) (he : st.currentEntity = none)
    (hb : st.currentBlock = none) (hs : st.blockStack = [])
    (hent : entityMatch (trim raw) = none) : act st (classify st raw) = some st := by
  have hdecl : classifyDeclaration st (trim raw) = classifyBlock st (trim raw) := by
    unfold classifyDeclaration
    rw [he]
    cases componentMatch (trim raw) <;> cases transformMatch (trim raw) <;>
      cases eventMatch (trim raw) <;> cases nnMatch (trim raw) <;> rfl
  have hblk : classifyBlock st (trim raw) = classifyStatement st (trim raw) := by
    unfold classifyBlock
    rw [hb]
    cases propertyMatch (trim raw) <;> cases conditionalMatch (trim raw) <;> rfl
  unfold classify
  split
  · rfl
  · rw [hent]
    simp only [hdecl, hblk]
    unfold classifyStatement
    rw [hs]
    cases flowMatch (trim raw) with
    | some p => simp [act]
    | none =>
      by_cases hc : closeMatch (trim raw) = true
      · simp [hc, act, hs]
      · simp [hc, act]

/-- In a state the loop can reach, the Transform shorthand and a component
line named `Transform` do the same. -/
theorem step_transform_eq (st : State) (hi : Inv st) (l1 l2 : Str)
    (h1 : transformMatch (trim l1) = true)
    (h2 : componentMatch (trim l2) = some "Transform".toList) : step st l1 = step st l2 := by
  rcases he : st.currentEntity with _ | e
  · have hs : st.blockStack = [] := hi.entity_none.1 he
    have hb : st.currentBlock = none := by
      by_contra hne
      exact hi.block_some hne hs
    have e1 : entityMatch (trim l1) = none := by
      by_contra hne
      have := entityMatch_first _ hne
      rw [transformMatch_first _ h1] at this
      exact absurd this (by decide)
    have e2 : entityMatch (trim l2) = none := by
      by_contra hne
      have := entityMatch_first _ hne
      rw [componentMatch_first _ (by rw [h2]; exact Option.some_ne_none _)] at this
      exact absurd this (by decide)
    rw [step_eq, step_eq, classify_idle st l1 he hb hs e1, classify_idle st l2 he hb hs e2]
  · rw [step_eq, step_eq, classify_transform st l1 e h1 he, classify_component st l2 _ e h2 he]

theorem runLines_transform_eq (post : List Str) (st : State) (hi : Inv st) (l1 l2 : Str)
    (h1 : transformMatch (trim l1) = true)
    (h2 : componentMatch (trim l2) = some "Transform".toList) :
    runLines st (l1 :: post) = runLines st (l2 :: post) := by
  simp only [runLines, step_transform_eq st hi l1 l2 h1 h2]


/-! ### Lowering of conditionals -/

theorem innerLine_filter (b : List Stmt) :
    (b.map innerLine).flatten = ((b.filter Stmt.isLeaf).map innerLine).flatten := by
  induction b with
  | nil => rfl
  | cons t ts ih =>
    cases t with
    | conditional c b' => simpa [List.filter_cons, Stmt.isLeaf, innerLine] using ih
    | dataFlow s t' => simp [List.filter_cons, Stmt.isLeaf, ih]
    | statement code => simp [List.filter_cons, Stmt.isLeaf, ih]

/-! ### Programs stay flat -/

theorem FlatStmt.of_leaf {s : Stmt} (h : s.isLeaf = true) : FlatStmt s := by
  cases s with
  | conditional c b => cases h
  | dataFlow a b => trivial
  | statement a => trivial

theorem flat_set {ast : Program} (h : FlatProgram ast) (e : Nat) (ent' : Entity)
    (h' : ∀ f ∈ ent'.functions, ∀ s ∈ f.body, FlatStmt s) :
    FlatProgram ⟨ast.body.set e ent'⟩ := by
  intro ent hent
  rcases List.mem_or_eq_of_mem_set hent with hm | rfl
  · exact h ent hm
  · exact h'

theorem flat_pushComponent {ast ast' : Program} {e j : Nat} {c : Component}
    (h : FlatProgram ast) (hp : pushComponent ast e c = some (ast', j)) : FlatProgram ast' := by
  rw [pushComponent_eq] at hp
  rcases he : ast.body[e]? with _ | ent
  · simp [he] at hp
  · simp only [he, Option.map_some', Option.some.injEq, Prod.mk.injEq] at hp
    obtain ⟨rfl, -⟩ := hp
    exact flat_set h e _ (h ent (List.getElem?_mem he))

theorem flat_pushFunction {ast ast' : Program} {e j : Nat} {f : EventHandler}
    (h : FlatProgram ast) (hf : ∀ s ∈ f.body, FlatStmt s)
    (hp : pushFunction ast e f = some (ast', j)) : FlatProgram ast' := by
  rw [pushFunction_eq] at hp
  rcases he : ast.body[e]? with _ | ent
  · simp [he] at hp
  · simp only [he, Option.map_some', Option.some.injEq, Prod.mk.injEq] at hp
    obtain ⟨rfl, -⟩ := hp
    refine flat_set h e _ fun g hg => ?_
    rcases List.mem_append.1 hg with hg | hg
    · exact h ent (List.getElem?_mem he) g hg
    · simp only [List.mem_singleton] at hg
      subst hg
      exact hf

theorem flat_pushProperty {ast ast' : Program} {e j : Nat} {p : Property}
    (h : FlatProgram ast) (hp : pushProperty ast e j p = some ast') : FlatProgram ast' := by
  rw [pushProperty_eq] at hp
  rcases he : ast.body[e]? with _ | ent
  · simp [he] at hp
  · rcases hc : ent.components[j]? with _ | c
    · simp [he, hc] at hp
    · simp only [he, hc, Option.map_some', Option.some_bind, Option.some.injEq] at hp
      subst hp
      exact flat_set h e _ (h ent (List.getElem?_mem he))

/-- Pushing a statement keeps the program flat when a statement pushed to a
conditional is a DataFlow or a generic Statement. -/
theorem flat_pushBody {ast ast' : Program} {r : Ref} {s : Stmt} {k : Nat}
    (h : FlatProgram ast) (hs : FlatStmt s)
    (hleaf : ∀ e j k', r = .conditional e j k' → s.isLeaf = true)
    (hp : pushBody ast r s = some (ast', k)) : FlatProgram ast' := by
  cases r with
  | entity e => simp [pushBody] at hp
  | component e j => simp [pushBody] at hp
  | neuralNetwork e j => simp [pushBody] at hp
  | eventHandler e j =>
    rw [pushBody_handler_eq] at hp
    rcases he : ast.body[e]? with _ | ent
    · simp [he] at hp
    · rcases hf : ent.functions[j]? with _ | f
      · simp [he, hf] at hp
      · simp only [he, hf, Option.map_some', Option.some_bind, Option.some.injEq,
          Prod.mk.injEq] at hp
        obtain ⟨rfl, -⟩ := hp
        refine flat_set h e _ fun g hg => ?_
        rcases List.mem_or_eq_of_mem_set hg with hg | rfl
        · exact h ent (List.getElem?_mem he) g hg
        · intro t ht
          rcases List.mem_append.1 ht with ht | ht
          · exact h ent (List.getElem?_mem he) f (List.getElem?_mem hf) t ht
          · simp only [List.mem_singleton] at ht
            subst ht
            exact hs
  | conditional e j k' =>
    rw [pushBody_conditional_eq] at hp
    rcases he : ast.body[e]? with _ | ent
    · simp [he] at hp
    · rcases hf : ent.functions[j]? with _ | f
      · simp [he, hf] at hp
      · rcases ht : f.body[k']? with _ | t
        · simp [he, hf, ht] at hp
        · cases t with
          | dataFlow a b => simp [he, hf, ht] at hp
          | statement a => simp [he, hf, ht] at hp
          | conditional c0 b0 =>
            simp only [he, hf, ht, Option.some_bind, Option.some.injEq, Prod.mk.injEq] at hp
            obtain ⟨rfl, -⟩ := hp
            refine flat_set h e _ fun g hg => ?_
            rcases List.mem_or_eq_of_mem_set hg with hg | rfl
            · exact h ent (List.getElem?_mem he) g hg
            · intro t ht'
              rcases List.mem_or_eq_of_mem_set ht' with ht' | rfl
              · exact h ent (List.getElem?_mem he) f (List.getElem?_mem hf) t ht'
              · intro u hu
                rcases List.mem_append.1 hu with hu | hu
                · exact h ent (List.getElem?_mem he) f (List.getElem?_mem hf) _
                    (List.getElem?_mem ht) u hu
                · simp only [List.mem_singleton] at hu
                  subst hu
                  exact hleaf e j k' rfl

theorem act_flat (st st' : State) (a : Action) (h : FlatProgram st.ast) (ha : a.flat)
    (hact : act st a = some st') : FlatProgram st'.ast := by
  cases a with
  | skip =>
    simp only [act, Option.some.injEq] at hact
    subst hact
    exact h
  | openEntity name =>
    simp only [act, Option.some.injEq] at hact
    subst hact
    intro ent hent
    rcases List.mem_append.1 hent with hent | hent
    · exact h ent hent
    · simp only [List.mem_singleton] at hent
      subst hent
      intro f hf
      cases hf
  | openComponent e c =>
    simp only [act, Option.map_eq_some'] at hact
    obtain ⟨⟨ast', j⟩, hp, rfl⟩ := hact
    exact flat_pushComponent h hp
  | openHandler e f =>
    simp only [act, Option.map_eq_some'] at hact
    obtain ⟨⟨ast', j⟩, hp, rfl⟩ := hact
    exact flat_pushFunction h ha hp
  | addProperty e j p =>
    simp only [act, Option.map_eq_some'] at hact
    obtain ⟨ast', hp, rfl⟩ := hact
    exact flat_pushProperty h hp
  | openConditional e j cond =>
    simp only [act, Option.map_eq_some'] at hact
    obtain ⟨⟨ast', k⟩, hp, rfl⟩ := hact
    exact flat_pushBody h (by intro t ht; cases ht) (fun _ _ _ hr => by cases hr) hp
  | addStmt top s =>
    simp only [act, Option.map_eq_some'] at hact
    obtain ⟨⟨ast', k⟩, hp, rfl⟩ := hact
    exact flat_pushBody h (FlatStmt.of_leaf ha) (fun _ _ _ _ => ha) hp
  | close =>
    simp only [act] at hact
    split at hact <;> (simp only [Option.some.injEq] at hact; subst hact; exact h)

theorem classifyStatement_flat (st : State) (line : Str) : (classifyStatement st line).flat := by
  unfold classifyStatement
  repeat' split
  all_goals trivial

theorem classifyBlock_flat (st : State) (line : Str) : (classifyBlock st line).flat := by
  unfold classifyBlock
  split
  · trivial
  · trivial
  · split
    · trivial
    · exact classifyStatement_flat st line

theorem classifyDeclaration_flat (st : State) (line : Str) :
    (classifyDeclaration st line).flat := by
  unfold classifyDeclaration
  split
  · trivial
  · split
    · trivial
    · split
      · intro s hs
        cases hs
      · split
        · trivial
        · exact classifyBlock_flat st line

theorem classify_flat (st : State) (raw : Str) : (classify st raw).flat := by
  unfold classify
  split
  · trivial
  · split
    · trivial
    · exact classifyDeclaration_flat st _

theorem runLines_flat (ls : List Str) (st st' : State) (h : FlatProgram st.ast)
    (hrun : runLines st ls = some st') : FlatProgram st'.ast := by
  induction ls generalizing st with
  | nil =>
    simp only [runLines, Option.some.injEq] at hrun
    subst hrun
    exact h
  | cons l ls ih =>
    simp only [runLines] at hrun
    rcases hs : step st l with _ | st1
    · simp [hs] at hrun
    · rw [hs] at hrun
      rw [step_eq] at hs
      exact ih st1 (act_flat st st1 _ h (classify_flat st l) hs) hrun

/-- Every program that `parse` returns is flat. -/
theorem parse_flat (source : Str) (ast : Program) (h : parse source = some ast) :
    FlatProgram ast := by
  simp only [parse, Option.map_eq_some'] at h
  obtain ⟨st, hrun, rfl⟩ := h
  exact runLines_flat _ initState st (by intro ent hent; cases hent) hrun

/-! ### Lines that no branch records -/

/-- When no property is pushed and the line opens no conditional, the block
branches leave the line to the statement branches. -/
theorem classifyBlock_no_property (st : State) (line : Str)
    (hprop : propertyMatch line = none ∨
      ∀ e j, st.currentBlock ≠ some (.component e j) ∧
        st.currentBlock ≠ some (.neuralNetwork e j))
    (hcond : conditionalMatch line = none) :
    classifyBlock st line = classifyStatement st line := by
  unfold classifyBlock
  rw [hcond]
  rcases hprop with hp | hb
  · rw [hp]
  · rcases hcb : st.currentBlock with _ | r
    · cases propertyMatch line <;> rfl
    · cases r with
      | entity e => cases propertyMatch line <;> rfl
      | component e j => exact absurd hcb (hb e j).1
      | neuralNetwork e j => exact absurd hcb (hb e j).2
      | eventHandler e j => cases propertyMatch line <;> rfl
      | conditional e j k => cases propertyMatch line <;> rfl

/-- A line that opens nothing, is not recorded as a property and does not
close a block, read while the top frame (if any) has no body, changes
nothing. -/
theorem step_unrecorded (st : State) (raw : Str)
    (hprop : propertyMatch (trim raw) = none ∨
      ∀ e j, st.currentBlock ≠ some (.component e j) ∧
        st.currentBlock ≠ some (.neuralNetwork e j))
    (htop : ∀ top rest, st.blockStack = top :: rest → top.hasBody = false)
    (hopen : opensBlock (trim raw) = false) (hclose : closeMatch (trim raw) = false) :
    step st raw = some st := by
  obtain ⟨h1, h2, h3, h4, h5, h6⟩ := opensBlock_false _ hopen
  have hdecl : classifyDeclaration st (trim raw) = classifyBlock st (trim raw) := by
    unfold classifyDeclaration
    rw [h2, h3, h4, h5]
  have hstmt : classifyStatement st (trim raw) = .skip := by
    unfold classifyStatement
    rcases hs : st.blockStack with _ | ⟨top, rest⟩
    · cases flowMatch (trim raw) <;> simp [hclose]
    · have := htop top rest hs
      cases flowMatch (trim raw) <;> simp [this, hclose]
  rw [step_eq]
  unfold classify
  split
  · rfl
  · rw [h1]
    simp only [hdecl, classifyBlock_no_property st _ hprop h6, hstmt]
    rfl

/-- A generic statement line read while the top frame and the current block
have a body is taken by the statement branch. -/
theorem classify_statement (st : State) (r : Ref) (hr : st.currentBlock = some r)
    (hb : r.hasBody = true) (top : Ref) (rest : List Ref)
    (hstack : st.blockStack = top :: rest) (htop : top.hasBody = true) (raw : Str)
    (hskip : isSkipLine raw = false) (hopen : opensBlock (trim raw) = false)
    (hflow : flowMatch (trim raw) = none) (hstmt : statementMatch (trim raw) = true) :
    classify st raw = .addStmt top (.statement (trim raw)) := by
  obtain ⟨h1, h2, h3, h4, h5, h6⟩ := opensBlock_false _ hopen
  have hdecl : classifyDeclaration st (trim raw) = classifyBlock st (trim raw) := by
    unfold classifyDeclaration
    rw [h2, h3, h4, h5]
  unfold isSkipLine at hskip
  simp only [classify, hskip, h1, hdecl, classifyBlock_of_body st r hr hb _ h6]
  unfold classifyStatement
  rw [hflow, hstack]
  simp [hstmt, htop, trim_trim]

/-! ### Patterns: the character a match needs -/

theorem needsChar_lit_self {α : Type} (x : Char) (k : Str → Option α) : NeedsChar x (lit x k) := by
  intro s hs
  cases s with
  | nil => rfl
  | cons d ds =>
    simp only [List.mem_cons, not_or] at hs
    have hd : d ≠ x := fun h => hs.1 h.symm
    simp [lit, hd]

theorem needsChar_starG {α : Type} (x : Char) (p : Char → Bool) {k : Str → Option α}
    (hk : NeedsChar x k) : NeedsChar x (starG p k) := by
  intro s hs
  induction s with
  | nil => simp [starG, hk [] hs]
  | cons d ds ih =>
    have hds : x ∉ ds := fun h => hs (List.mem_cons_of_mem _ h)
    simp only [starG, ih hds, hk _ hs, Option.map_none']
    split <;> rfl

theorem needsChar_starL {α : Type} (x : Char) (p : Char → Bool) {k : Str → Option α}
    (hk : NeedsChar x k) : NeedsChar x (starL p k) := by
  intro s hs
  induction s with
  | nil => simp [starL, hk [] hs]
  | cons d ds ih =>
    have hds : x ∉ ds := fun h => hs (List.mem_cons_of_mem _ h)
    simp only [starL, ih hds, hk _ hs, Option.map_none']
    split <;> rfl

theorem needsChar_plusL {α : Type} (x : Char) (p : Char → Bool) {k : Str → Option α}
    (hk : NeedsChar x k) : NeedsChar x (plusL p k) := by
  intro s hs
  cases s with
  | nil => rfl
  | cons d ds =>
    have hds : x ∉ ds := fun h => hs (List.mem_cons_of_mem _ h)
    simp only [plusL, needsChar_starL x p hk ds hds, Option.map_none']
    split <;> rfl

/-- A line without an arrow is not a data-flow line. -/
theorem flowMatch_none_of_no_arrow (line : Str) (h : '→' ∉ line) : flowMatch line = none := by
  simp [flowMatch, needsChar_starG '→' isSpace (needsChar_plusL '→' isDot
    (needsChar_starG '→' isSpace (needsChar_lit_self '→' _))) line h]

/-- A trimmed line that is not empty and holds no brace is a statement
line. -/
theorem statementMatch_of_no_brace (line : Str) (hne : line ≠ []) (ht : Trimmed line)
    (h1 : '\x7b' ∉ line) (h2 : '\x7d' ∉ line) : statementMatch line = true := by
  obtain ⟨c, cs, rfl⟩ := List.exists_cons_of_ne_nil hne
  have hall : ∀ x ∈ c :: cs, notBrace x = true := by
    intro x hx
    have hx1 : x ≠ '\x7b' := fun e => h1 (e ▸ hx)
    have hx2 : x ≠ '\x7d' := fun e => h2 (e ▸ hx)
    simp [notBrace, hx1, hx2]
  simp [statementMatch, starG_stop isSpace _ c cs (ht.1 c rfl),
    plusG_all_eos notBrace (c :: cs) (by simp) hall]

/-! ### Joined lines -/

theorem joinWith_cons_cons (sep x y : Str) (rest : List Str) :
    joinWith sep (x :: y :: rest) = x ++ sep ++ joinWith sep (y :: rest) := rfl

/-- Splitting the lines joined by line feeds gives the lines back. -/
theorem splitOn_joinWith (ls : List Str) (hne : ls ≠ []) (h : ∀ l ∈ ls, '\n' ∉ l) :
    splitOn '\n' (joinWith ['\n'] ls) = ls := by
  induction ls with
  | nil => exact absurd rfl hne
  | cons x xs ih =>
    cases xs with
    | nil => exact splitOn_of_not_mem _ _ (h x (List.mem_cons_self _ _))
    | cons y ys =>
      rw [joinWith_cons_cons, List.append_assoc, List.singleton_append, splitOn_append,
        splitOn_of_not_mem _ _ (h x (List.mem_cons_self _ _)),
        ih (by simp) (fun l hl => h l (List.mem_cons_of_mem _ hl))]
      rfl

theorem trim_of_trimmed (s : Str) (hne : s ≠ []) (ht : Trimmed s) : trim s = s := by
  simpa using trim_eq_of [] s [] (by simp) (by simp) ht hne

/-! ### Event-handler headers -/

/-- Splitting the pieces joined by a separator gives the pieces back. -/
theorem splitOn_joinWith_sep (sep : Char) (ls : List Str) (hne : ls ≠ [])
    (h : ∀ l ∈ ls, sep ∉ l) : splitOn sep (joinWith [sep] ls) = ls := by
  induction ls with
  | nil => exact absurd rfl hne
  | cons x xs ih =>
    cases xs with
    | nil => exact splitOn_of_not_mem _ _ (h x (List.mem_cons_self _ _))
    | cons y ys =>
      rw [joinWith_cons_cons, List.append_assoc, List.singleton_append, splitOn_append,
        splitOn_of_not_mem _ _ (h x (List.mem_cons_self _ _)),
        ih (by simp) (fun l hl => h l (List.mem_cons_of_mem _ hl))]
      rfl

/-- The parameters of a list of comma-separated entries: the entries trimmed,
the empty ones dropped. -/
theorem parseParameters_joinWith (ps : List Str) (h : ∀ p ∈ ps, ',' ∉ p) :
    parseParameters (joinWith [','] ps) = (ps.map trim).filter fun p => !p.isEmpty := by
  cases ps with
  | nil => rfl
  | cons p ps => rw [parseParameters, splitOn_joinWith_sep ',' (p :: ps) (by simp) h]

/-- The event pattern on `⊻`, white space, a name of word characters, `(`, a
text without `)`, `)`, optional white space, an opening brace, anything:
group 1 is the name and group 2 the text between the parentheses. -/
theorem eventMatch_line (W1 n ptext W2 rest : Str) (hW1 : W1 ≠ [])
    (hW1s : ∀ c ∈ W1, isSpace c = true) (hn : n ≠ []) (hnw : ∀ c ∈ n, isWord c = true)
    (hp : ')' ∉ ptext) (hW2s : ∀ c ∈ W2, isSpace c = true) :
    eventMatch ('⊻' :: (W1 ++ n ++ '(' :: (ptext ++ ')' :: (W2 ++ '\x7b' :: rest)))) =
      some (n, ptext) := by
  obtain ⟨w, ws, rfl⟩ := List.exists_cons_of_ne_nil hW1
  obtain ⟨x, xs, rfl⟩ := List.exists_cons_of_ne_nil hn
  have hx : isWord x = true := hnw x (List.mem_cons_self _ _)
  have k5 : starG isSpace (lit '\x7b' accept) (W2 ++ '\x7b' :: rest) = some (W2 ++ [], ()) :=
    starG_append_all _ _ _ _ _ _ hW2s (by
      rw [starG_stop _ _ _ _ (by decide)]
      simp [lit, accept])
  have k4 : lit ')' (starG isSpace (lit '\x7b' accept)) (')' :: (W2 ++ '\x7b' :: rest)) =
      some (W2 ++ [], ()) := by
    simp only [lit, if_true, k5]
  have hall : ∀ c ∈ ptext, notRParen c = true := by
    intro c hc
    have : c ≠ ')' := fun e => hp (e ▸ hc)
    simp [notRParen, this]
  have k3 : starL notRParen (lit ')' (starG isSpace (lit '\x7b' accept)))
      (ptext ++ ')' :: (W2 ++ '\x7b' :: rest)) = some (ptext ++ [], (W2 ++ [], ())) := by
    rw [starL_skip notRParen _ ptext _ hall, starL_here _ _ _ _ k4]
    · rfl
    · intro t ht hsuf
      obtain ⟨d, ds, rfl⟩ := List.exists_cons_of_ne_nil ht
      have hd : d ≠ ')' := fun e => hp (e ▸ hsuf.subset (List.mem_cons_self _ _))
      simp [lit, hd]
  have k2stop : starG isWord (lit '(' (starL notRParen (lit ')'
      (starG isSpace (lit '\x7b' accept)))))
      ('(' :: (ptext ++ ')' :: (W2 ++ '\x7b' :: rest))) =
      some ([], (ptext ++ [], (W2 ++ [], ()))) := by
    rw [starG_stop _ _ _ _ (by decide)]
    simp only [lit, if_true, k3]
    rfl
  have k2 := starG_append_all isWord _ xs _ _ _
    (fun c hc => hnw c (List.mem_cons_of_mem _ hc)) k2stop
  have k1stop : starG isSpace (plusG isWord (lit '(' (starL notRParen (lit ')'
      (starG isSpace (lit '\x7b' accept))))))
      (x :: (xs ++ '(' :: (ptext ++ ')' :: (W2 ++ '\x7b' :: rest)))) =
      some ([], (x :: (xs ++ []), (ptext ++ [], (W2 ++ [], ())))) := by
    rw [starG_stop _ _ _ _ (isSpace_of_isWord x hx)]
    simp only [plusG, hx, if_true, k2]
    rfl
  have k1 := starG_append_all isSpace _ ws _ _ _
    (fun c hc => hW1s c (List.mem_cons_of_mem _ hc)) k1stop
  have e : '⊻' :: (w :: ws ++ x :: xs ++ '(' :: (ptext ++ ')' :: (W2 ++ '\x7b' :: rest))) =
      '⊻' :: w :: (ws ++ x :: (xs ++ '(' :: (ptext ++ ')' :: (W2 ++ '\x7b' :: rest)))) := by
    simp [List.append_assoc]
  rw [e]
  simp only [eventMatch]
  rw [starG_stop _ _ _ _ (by decide)]
  simp only [lit, if_true, plusG, hW1s w (List.mem_cons_self _ _), k1]
  simp

/-- Replacing an entity by one that keeps the headers of its handlers keeps
the header of every handler of the program. -/
theorem lookupFunction_set (ast : Program) (e' : Nat) (ent ent' : Entity)
    (he : ast.body[e']? = some ent)
    (hf : ∀ (j : Nat) (f : EventHandler), ent.functions[j]? = some f →
      ∃ f' : EventHandler,
        ent'.functions[j]? = some f' ∧ f'.name = f.name ∧ f'.parameters = f.parameters)
    (e j : Nat) (f : EventHandler) (h : lookupFunction ast e j = some f) :
    ∃ f', lookupFunction ⟨ast.body.set e' ent'⟩ e j = some f' ∧ f'.name = f.name ∧
      f'.parameters = f.parameters := by
  have hlt : e' < ast.body.length := (List.getElem?_eq_some.1 he).1
  unfold lookupFunction at h ⊢
  by_cases hee : e' = e
  · subst hee
    rw [he] at h
    simp only [Option.some_bind] at h
    obtain ⟨f', h1, h2, h3⟩ := hf j f h
    exact ⟨f', by simp [List.getElem?_set, hlt, h1], h2, h3⟩
  · exact ⟨f, by simpa [List.getElem?_set, hee] using h, rfl, rfl⟩

theorem functions_set_header (fs : List EventHandler) (j' : Nat) (g g' : EventHandler)
    (hg : fs[j']? = some g) (hn : g'.name = g.name) (hp : g'.parameters = g.parameters)
    (j : Nat) (f : EventHandler) (h : fs[j]? = some f) :
    ∃ f', (fs.set j' g')[j]? = some f' ∧ f'.name = f.name ∧ f'.parameters = f.parameters := by
  have hlt : j' < fs.length := (List.getElem?_eq_some.1 hg).1
  by_cases hjj : j' = j
  · subst hjj
    rw [hg] at h
    cases h
    exact ⟨g', by simp [List.getElem?_set, hlt], hn, hp⟩
  · exact ⟨f, by simpa [List.getElem?_set, hjj] using h, rfl, rfl⟩

theorem pushBody_header {ast ast' : Program} {r : Ref} {s : Stmt} {k : Nat}
    (hpush : pushBody ast r s = some (ast', k)) (e j : Nat) (f : EventHandler)
    (h : lookupFunction ast e j = some f) :
    ∃ f', lookupFunction ast' e j = some f' ∧ f'.name = f.name ∧
      f'.parameters = f.parameters := by
  cases r with
  | entity e => simp [pushBody] at hpush
  | component e j => simp [pushBody] at hpush
  | neuralNetwork e j => simp [pushBody] at hpush
  | eventHandler e' j' =>
    rw [pushBody_handler_eq] at hpush
    rcases he : ast.body[e']? with _ | ent
    · simp [he] at hpush
    · rcases hf : ent.functions[j']? with _ | g
      · simp [he, hf] at hpush
      · simp only [he, hf, Option.map_some', Option.some_bind, Option.some.injEq,
          Prod.mk.injEq] at hpush
        obtain ⟨rfl, -⟩ := hpush
        exact lookupFunction_set ast e' ent
          { ent with functions := ent.functions.set j' { g with body := g.body ++ [s] } } he
          (fun j f hj =>
            functions_set_header ent.functions j' g { g with body := g.body ++ [s] } hf rfl rfl
              j f hj) e j f h
  | conditional e' j' k' =>
    rw [pushBody_conditional_eq] at hpush
    rcases he : ast.body[e']? with _ | ent
    · simp [he] at hpush
    · rcases hf : ent.functions[j']? with _ | g
      · simp [he, hf] at hpush
      · rcases hk : g.body[k']? with _ | t
        · simp [he, hf, hk] at hpush
        · cases t with
          | conditional c b =>
            simp only [he, hf, hk, Option.some_bind, Option.some.injEq, Prod.mk.injEq] at hpush
            obtain ⟨rfl, -⟩ := hpush
            exact lookupFunction_set ast e' ent
              { ent with functions := (ent.functions.set j'
                  { g with body := g.body.set k' (.conditional c (b ++ [s])) }) } he
              (fun j f hj =>
                functions_set_header ent.functions j' g
                  { g with body := g.body.set k' (.conditional c (b ++ [s])) } hf rfl rfl
                  j f hj) e j f h
          | dataFlow a b => simp [he, hf, hk] at hpush
          | statement a => simp [he, hf, hk] at hpush

/-- No action changes the name or the parameters of a handler that the
program already has. -/
theorem act_header (st st' : State) (a : Action) (hact : act st a = some st') (e j : Nat)
    (f : EventHandler) (h : lookupFunction st.ast e j = some f) :
    ∃ f', lookupFunction st'.ast e j = some f' ∧ f'.name = f.name ∧
      f'.parameters = f.parameters := by
  cases a with
  | skip =>
    cases hact
    exact ⟨f, h, rfl, rfl⟩
  | openEntity name =>
    simp only [act, Option.some.injEq] at hact
    subst hact
    refine ⟨f, ?_, rfl, rfl⟩
    unfold lookupFunction at h ⊢
    rcases he : st.ast.body[e]? with _ | ent
    · simp [he] at h
    · have hlt : e < st.ast.body.length := (List.getElem?_eq_some.1 he).1
      simpa [List.getElem?_append_left hlt, he] using h
  | openComponent e' c =>
    simp only [act, pushComponent_eq] at hact
    rcases he : st.ast.body[e']? with _ | ent
    · simp [he] at hact
    · simp only [he, Option.map_some', Option.some.injEq] at hact
      subst hact
      exact lookupFunction_set st.ast e' ent { ent with components := ent.components ++ [c] } he
        (fun j f hj => ⟨f, hj, rfl, rfl⟩) e j f h
  | openHandler e' g =>
    simp only [act, pushFunction_eq] at hact
    rcases he : st.ast.body[e']? with _ | ent
    · simp [he] at hact
    · simp only [he, Option.map_some', Option.some.injEq] at hact
      subst hact
      refine lookupFunction_set st.ast e' ent { ent with functions := ent.functions ++ [g] } he
        (fun j f hj => ⟨f, ?_, rfl, rfl⟩) e j f h
      have hlt : j < ent.functions.length := (List.getElem?_eq_some.1 hj).1
      simpa [List.getElem?_append_left hlt] using hj
  | addProperty e' j' p =>
    simp only [act, pushProperty_eq] at hact
    rcases he : st.ast.body[e']? with _ | ent
    · simp [he] at hact
    · rcases hc : ent.components[j']? with _ | c
      · simp [he, hc] at hact
      · simp only [he, hc, Option.map_some', Option.some_bind, Option.some.injEq] at hact
        subst hact
        exact lookupFunction_set st.ast e' ent
          { ent with components :=
              (ent.components.set j' { c with properties := c.properties ++ [p] }) } he
          (fun j f hj => ⟨f, hj, rfl, rfl⟩) e j f h
  | openConditional e' j' cond =>
    simp only [act] at hact
    rcases hp : pushBody st.ast (.eventHandler e' j') (.conditional cond []) with _ | ⟨ast', k⟩
    · simp [hp] at hact
    · simp only [hp, Option.map_some', Option.some.injEq] at hact
      subst hact
      exact pushBody_header hp e j f h
  | addStmt top s =>
    simp only [act] at hact
    rcases hp : pushBody st.ast top s with _ | ⟨ast', k⟩
    · simp [hp] at hact
    · simp only [hp, Option.map_some', Option.some.injEq] at hact
      subst hact
      exact pushBody_header hp e j f h
  | close =>
    have hast : st'.ast = st.ast := by
      simp only [act] at hact
      split at hact <;> cases hact <;> rfl
    rw [hast]
    exact ⟨f, h, rfl, rfl⟩

theorem runLines_header (ls : List Str) (st st' : State) (hrun : runLines st ls = some st')
    (e j : Nat) (f : EventHandler) (h : lookupFunction st.ast e j = some f) :
    ∃ f', lookupFunction st'.ast e j = some f' ∧ f'.name = f.name ∧
      f'.parameters = f.parameters := by
  induction ls generalizing st f with
  | nil =>
    cases hrun
    exact ⟨f, h, rfl, rfl⟩
  | cons l ls ih =>
    simp only [runLines] at hrun
    rcases h1 : step st l with _ | st1
    · simp [h1] at hrun
    · simp only [h1] at hrun
      rw [step_eq] at h1
      obtain ⟨f1, hf1, hn1, hp1⟩ := act_header st st1 _ h1 e j f h
      obtain ⟨f2, hf2, hn2, hp2⟩ := ih st1 hrun f1 hf1
      exact ⟨f2, hf2, hn2.trans hn1, hp2.trans hp1⟩

/-- The output of the generator holds the callable of every handler of the
program. -/
theorem generateJavaScript_callable (ast : Program) (e j : Nat) (f : EventHandler)
    (h : lookupFunction ast e j = some f) :
    ∃ a b, generateJavaScript ast = a ++ handlerCallable f ++ b := by
  unfold lookupFunction at h
  rcases he : ast.body[e]? with _ | ent
  · simp [he] at h
  · simp only [he, Option.some_bind] at h
    have hlt : e < ast.body.length := (List.getElem?_eq_some.1 he).1
    have hjlt : j < ent.functions.length := (List.getElem?_eq_some.1 h).1
    have hb : ast.body = ast.body.take e ++ ent :: ast.body.drop (e + 1) := by
      have := (List.getElem?_eq_some.1 he).2
      rw [← this]
      exact (List.take_append_drop e ast.body).symm.trans (by rw [List.drop_eq_getElem_cons hlt])
    have hfs : ent.functions = ent.functions.take j ++ f :: ent.functions.drop (j + 1) := by
      have := (List.getElem?_eq_some.1 h).2
      rw [← this]
      exact (List.take_append_drop j ent.functions).symm.trans
        (by rw [List.drop_eq_getElem_cons hjlt])
    rw [generateJavaScript_eq]
    refine ⟨prologue ++ ((ast.body.take e).map entityRecord).flatten ++
        ("  // Entity: ".toList ++ ent.name ++ "\n".toList ++
          ("  entities.".toList ++ ent.name ++ " = \x7b\n".toList) ++
          (ent.components.map componentGroup).flatten ++
          ((ent.functions.take j).map handlerCallable).flatten),
      (((ent.functions.drop (j + 1)).map handlerCallable).flatten ++ "  \x7d;\n\n".toList) ++
        ((ast.body.drop (e + 1)).map entityRecord).flatten ++ epilogue, ?_⟩
    conv_lhs => rw [hb]
    simp only [List.map_append, List.map_cons, List.flatten_append, List.flatten_cons]
    conv_lhs => rw [entityRecord, hfs]
    simp only [List.map_append, List.map_cons, List.flatten_append, List.flatten_cons,
      List.append_assoc]

theorem mem_joinWith (sep : Str) (ls : List Str) (c : Char) (h : c ∈ joinWith sep ls) :
    c ∈ sep ∨ ∃ l ∈ ls, c ∈ l := by
  induction ls with
  | nil => simp [joinWith] at h
  | cons x xs ih =>
    cases xs with
    | nil => exact Or.inr ⟨x, List.mem_cons_self _ _, by simpa [joinWith] using h⟩
    | cons y ys =>
      rw [joinWith_cons_cons] at h
      rcases List.mem_append.1 h with h1 | h2
      · rcases List.mem_append.1 h1 with h3 | h4
        · exact Or.inr ⟨x, List.mem_cons_self _ _, h3⟩
        · exact Or.inl h4
      · rcases ih h2 with h5 | ⟨l, hl, hc⟩
        · exact Or.inl h5
        · exact Or.inr ⟨l, List.mem_cons_of_mem _ hl, hc⟩

end Web

namespace Aopl

theorem findFrom_lt (c : Char) (line : Str) (i : Nat) (h : findFrom c line = some i) :
    i < line.length := by
  induction line generalizing i with
  | nil => simp [findFrom] at h
  | cons d ds ih =>
    simp only [findFrom] at h
    split at h
    · cases h
      simp
    · rcases hf : findFrom c ds with _ | j
      · simp [hf] at h
      · simp only [hf, Option.map_some', Option.some.injEq] at h
        subst h
        simpa using ih j hf

/-- The start position passed to `substr` is inside the line whenever the
line has an `E`. -/
theorem find_succ_le (line : Str) (h : find 'E' line ≠ npos) :
    (find 'E' line + 1) % sizeMod ≤ line.length := by
  unfold find at h ⊢
  rcases hf : findFrom 'E' line with _ | i
  · simp [hf] at h
  · simp only [hf]
    have := findFrom_lt 'E' line i hf
    exact le_trans (Nat.mod_le _ _) this

theorem entityName_total (line : Str) (h : find 'E' line ≠ npos) :
    ∃ name, entityName line = some name := by
  unfold entityName
  simp only []
  split
  · have hle := find_succ_le line h
    simp only [substr, not_lt.2 hle, if_false]
    split <;> exact ⟨_, rfl⟩
  · exact ⟨_, rfl⟩

theorem parseLine_total (st : LoopState) (line : Str) : ∃ st', parseLine st line = some st' := by
  unfold parseLine
  split
  · exact ⟨_, rfl⟩
  · split
    · exact ⟨_, rfl⟩
    · split
      · rename_i hN
        simp only [Bool.and_eq_true, decide_eq_true_eq] at hN
        obtain ⟨name, hn⟩ := entityName_total _ hN.2
        simp only [hn]
        exact ⟨_, rfl⟩
      · exact ⟨_, rfl⟩

theorem parseLines_total (ls : List Str) (st : LoopState) :
    ∃ st', parseLines st ls = some st' := by
  induction ls generalizing st with
  | nil => exact ⟨st, rfl⟩
  | cons l ls ih =>
    obtain ⟨st1, h1⟩ := parseLine_total st l
    obtain ⟨st2, h2⟩ := ih st1
    exact ⟨st2, by simp [parseLines, h1, h2]⟩

/-- The method `Parse` returns for every source, and returns `true`. -/
theorem Parse_total (p : Parser) (code : Str) :
    ∃ p', p.Parse code = some (true, p') := by
  obtain ⟨st, h⟩ := parseLines_total (getlines code) ⟨Parser.new, none⟩
  exact ⟨{ st.parser with m_IsParsed := true }, by
    simp only [Parser.Parse]
    exact congrArg (Option.map _) h⟩

/-- The result of `Parse` does not depend on the parser it is called on. -/
theorem Parse_congr (p q : Parser) (code : Str) : p.Parse code = q.Parse code := rfl

theorem Parse_flag (p : Parser) (code : Str) :
    ∃ p', p.Parse code = some (true, p') ∧ p'.m_IsParsed = true := by
  obtain ⟨st, h⟩ := parseLines_total (getlines code) ⟨Parser.new, none⟩
  exact ⟨{ st.parser with m_IsParsed := true }, by
    simp only [Parser.Parse]
    exact congrArg (Option.map _) h, rfl⟩

theorem Compile_eq (p : Parser) : p.Compile = (p.m_IsParsed, p) := by
  unfold Parser.Compile
  cases p.m_IsParsed <;> rfl

theorem call_flag (p : Parser) (c : Call) :
    ∃ p', p.call c = some p' ∧ p'.m_IsParsed = (p.m_IsParsed || c.isParse) := by
  cases c with
  | Parse code =>
    obtain ⟨p', h, hf⟩ := Parse_flag p code
    exact ⟨p', by simp [Parser.call, h], by simp [hf, Call.isParse]⟩
  | GetEntities => exact ⟨p, rfl, by simp [Call.isParse]⟩
  | Compile => exact ⟨p, by simp [Parser.call, Compile_eq], by simp [Call.isParse]⟩

theorem calls_flag (cs : List Call) (p : Parser) :
    ∃ p', p.calls cs = some p' ∧ p'.m_IsParsed = (p.m_IsParsed || cs.any Call.isParse) := by
  induction cs generalizing p with
  | nil => exact ⟨p, rfl, by simp⟩
  | cons c cs ih =>
    obtain ⟨p1, h1, f1⟩ := call_flag p c
    obtain ⟨p2, h2, f2⟩ := ih p1
    exact ⟨p2, by simp [Parser.calls, h1, h2], by rw [f2, f1]; simp [Bool.or_assoc]⟩

theorem entityName_ne_nil (line name : Str) (h : entityName line = some name) : name ≠ [] := by
  unfold entityName at h
  simp only [] at h
  split at h
  · split at h
    · rename_i nm _
      split at h
      · cases h
        decide
      · rename_i hne
        cases h
        intro hn
        exact hne (by simp [hn])
    · cases h
  · cases h
    decide

theorem parseLine_names (st st' : LoopState) (line : Str) (h : parseLine st line = some st')
    (hn : ∀ e ∈ st.parser.m_Entities, e.m_Name ≠ []) :
    ∀ e ∈ st'.parser.m_Entities, e.m_Name ≠ [] := by
  unfold parseLine at h
  split at h
  · cases h
    exact hn
  · split at h
    · cases h
      exact hn
    · split at h
      · split at h
        · rename_i name hname
          cases h
          intro e he
          simp only [List.mem_append, List.mem_singleton] at he
          rcases he with he | rfl
          · exact hn e he
          · exact entityName_ne_nil _ _ hname
        · cases h
      · cases h
        exact hn

theorem parseLines_names (ls : List Str) (st st' : LoopState) (h : parseLines st ls = some st')
    (hn : ∀ e ∈ st.parser.m_Entities, e.m_Name ≠ []) :
    ∀ e ∈ st'.parser.m_Entities, e.m_Name ≠ [] := by
  induction ls generalizing st with
  | nil =>
    cases h
    exact hn
  | cons l ls ih =>
    simp only [parseLines] at h
    rcases h1 : parseLine st l with _ | st1
    · simp [h1] at h
    · simp only [h1] at h
      exact ih st1 h (parseLine_names st st1 l h1 hn)

theorem find_lt (c : Char) (line : Str) (h : find c line ≠ npos) : find c line < line.length := by
  unfold find at h ⊢
  rcases hf : findFrom c line with _ | i
  · simp [hf] at h
  · simpa [hf] using findFrom_lt c line i hf

end Aopl

namespace Core

theorem neuralInitialize_keeps (t : Target) (w : World) :
    (NeuralEngine.Initialize t w).2.engine = w.engine ∧
      (NeuralEngine.Initialize t w).2.platform = w.platform ∧
      (NeuralEngine.Initialize t w).2.renderer = w.renderer := by
  unfold NeuralEngine.Initialize
  split <;> simp

/-- From a state without engine, platform and renderer instance,
`Engine::Initialize` returns true and leaves the three instances in place. -/
theorem engineInitialize_fresh (t : Target) (appName : Str) (enable : Bool) (w : World)
    (he : w.engine = none) (hp : w.platform = none) (hr : w.renderer = none) :
    (Engine.Initialize t appName enable w).1 = true ∧
      (Engine.Initialize t appName enable w).2.engine = some ⟨true, enable, appName⟩ ∧
      (Engine.Initialize t appName enable w).2.platform = some ⟨true, t.platformType⟩ ∧
      (Engine.Initialize t appName enable w).2.renderer ≠ none := by
  obtain ⟨e, p, r, n⟩ := w
  simp only at he hp hr
  subst he hp hr
  rcases n with _ | n <;> rcases enable with _ | _ <;>
    rcases t with ⟨_ | _, _ | _, w32, lx, _ | _⟩ <;>
    simp [Engine.Initialize, Platform.Initialize, Platform.IsNeuralEngineAvailable,
      NeuralEngine.Initialize, Renderer.Initialize, Renderer.CreateContext, RendererConfig.default]

/-- After `Engine::Shutdown` on a state with an engine instance, no engine,
platform or renderer instance is left; the neural engine instance stays. -/
theorem engineShutdown_clears (w : World) (e : Engine) (he : w.engine = some e) :
    (Engine.Shutdown w).engine = none ∧ (Engine.Shutdown w).platform = none ∧
      (Engine.Shutdown w).renderer = none ∧
      (Engine.Shutdown w).neuralEngine = w.neuralEngine := by
  obtain ⟨e', p, r, n⟩ := w
  simp only at he
  subst he
  rcases p with _ | p <;> rcases r with _ | r <;>
    simp [Engine.Shutdown, Engine.delete, Platform.Shutdown, Renderer.Shutdown]

end Core

namespace Test

theorem loadLoop_first (p : Str) (pre post : List ModelExpectation) (e : ModelExpectation)
    (hpre : ∀ x ∈ pre, ¬ (x.path = p ∧ x.called = false)) (hp : e.path = p)
    (hc : e.called = false) :
    loadLoop p (pre ++ e :: post) =
      some (e.returnId, pre ++ { e with called := true } :: post) := by
  induction pre with
  | nil => simp [loadLoop, hp, hc]
  | cons x xs ih =>
    have hx := hpre x (List.mem_cons_self _ _)
    have := ih fun y hy => hpre y (List.mem_cons_of_mem _ hy)
    have hcond : (decide (x.path = p) && !x.called) = false := by
      rcases hcl : x.called with _ | _
      · have : x.path ≠ p := fun h => hx ⟨h, hcl⟩
        simp [this]
      · simp
    simp [loadLoop, hcond, this]

theorem loadLoop_none (p : Str) (l : List ModelExpectation)
    (h : ∀ x ∈ l, ¬ (x.path = p ∧ x.called = false)) : loadLoop p l = none := by
  induction l with
  | nil => rfl
  | cons x xs ih =>
    have hx := h x (List.mem_cons_self _ _)
    have := ih fun y hy => h y (List.mem_cons_of_mem _ hy)
    have hcond : (decide (x.path = p) && !x.called) = false := by
      rcases hcl : x.called with _ | _
      · have : x.path ≠ p := fun h => hx ⟨h, hcl⟩
        simp [this]
      · simp
    simp [loadLoop, hcond, this]

theorem unloadLoop_first (id : Int) (pre post : List UnloadExpectation) (e : UnloadExpectation)
    (hpre : ∀ x ∈ pre, ¬ (x.modelId = id ∧ x.called = false)) (hp : e.modelId = id)
    (hc : e.called = false) :
    unloadLoop id (pre ++ e :: post) = some (pre ++ { e with called := true } :: post) := by
  induction pre with
  | nil => simp [unloadLoop, hp, hc]
  | cons x xs ih =>
    have hx := hpre x (List.mem_cons_self _ _)
    have := ih fun y hy => hpre y (List.mem_cons_of_mem _ hy)
    have hcond : (decide (x.modelId = id) && !x.called) = false := by
      rcases hcl : x.called with _ | _
      · have : x.modelId ≠ id := fun h => hx ⟨h, hcl⟩
        simp [this]
      · simp
    simp [unloadLoop, hcond, this]

theorem unloadLoop_none (id : Int) (l : List UnloadExpectation)
    (h : ∀ x ∈ l, ¬ (x.modelId = id ∧ x.called = false)) : unloadLoop id l = none := by
  induction l with
  | nil => rfl
  | cons x xs ih =>
    have hx := h x (List.mem_cons_self _ _)
    have := ih fun y hy => h y (List.mem_cons_of_mem _ hy)
    have hcond : (decide (x.modelId = id) && !x.called) = false := by
      rcases hcl : x.called with _ | _
      · have : x.modelId ≠ id := fun h => hx ⟨h, hcl⟩
        simp [this]
      · simp
    simp [unloadLoop, hcond, this]

theorem inferenceLoop_first (id : Int) (pre post : List InferenceExpectation)
    (e : InferenceExpectation)
    (hpre : ∀ x ∈ pre, ¬ (x.modelId = id ∧ x.called = false)) (hp : e.modelId = id)
    (hc : e.called = false) :
    inferenceLoop id (pre ++ e :: post) =
      some (e.returnData, pre ++ { e with called := true } :: post) := by
  induction pre with
  | nil => simp [inferenceLoop, hp, hc]
  | cons x xs ih =>
    have hx := hpre x (List.mem_cons_self _ _)
    have := ih fun y hy => hpre y (List.mem_cons_of_mem _ hy)
    have hcond : (decide (x.modelId = id) && !x.called) = false := by
      rcases hcl : x.called with _ | _
      · have : x.modelId ≠ id := fun h => hx ⟨h, hcl⟩
        simp [this]
      · simp
    simp [inferenceLoop, hcond, this]

theorem inferenceLoop_none (id : Int) (l : List InferenceExpectation)
    (h : ∀ x ∈ l, ¬ (x.modelId = id ∧ x.called = false)) : inferenceLoop id l = none := by
  induction l with
  | nil => rfl
  | cons x xs ih =>
    have hx := h x (List.mem_cons_self _ _)
    have := ih fun y hy => h y (List.mem_cons_of_mem _ hy)
    have hcond : (decide (x.modelId = id) && !x.called) = false := by
      rcases hcl : x.called with _ | _
      · have : x.modelId ≠ id := fun h => hx ⟨h, hcl⟩
        simp [this]
      · simp
    simp [inferenceLoop, hcond, this]

/-- The loops of `VerifyAllExpectations`: the flag stays true exactly when
every expectation of the list has been called. -/
theorem allMet_foldl {α : Type} (called : α → Bool) (l : List α) (b : Bool) :
    l.foldl (fun acc e => if !called e then false else acc) b = (b && l.all called) := by
  induction l generalizing b with
  | nil => simp
  | cons x xs ih =>
    simp only [List.foldl_cons, ih, List.all_cons]
    cases called x <;> cases b <;> simp

theorem verify_eq (m : MockNeuralEngine) :
    m.VerifyAllExpectations =
      (m.m_LoadExpectations.all (fun e => e.called) &&
        m.m_UnloadExpectations.all (fun e => e.called) &&
        m.m_InferenceExpectations.all (fun e => e.called)) := by
  simp only [MockNeuralEngine.VerifyAllExpectations]
  rw [allMet_foldl (fun e : ModelExpectation => e.called),
    allMet_foldl (fun e : UnloadExpectation => e.called),
    allMet_foldl (fun e : InferenceExpectation => e.called)]
  simp

end Test

end GaiaMatrix

namespace GaiaMatrix

/-! ## The claims -/

namespace Web

/-- C1: for every source (in particular one whose entities are opened at top
level and whose blocks are closed in balance), `compileAOPL` returns a text
that holds exactly one entity record per entity-open line of the source, in
the order of the lines: the program has one entity per such line, with the
declared name, and the output is the prologue, the records of these entities in
order, and the epilogue; each record opens with `entities.<name> = ...`.  A
line is an entity-open line of name `n` whenever, trimmed, it reads `E`, white
space, the word `n`, optional white space and an opening brace. -/
theorem compile_one_record_per_entity (source : Str) :
    (∃ ast, parse source = some ast ∧
      ast.body.map (fun ent => ent.name) = (splitOn '\n' source).filterMap entityOpen ∧
      compileAOPL source = some (prologue ++ (ast.body.map entityRecord).flatten ++ epilogue) ∧
      ∀ ent, ent ∈ ast.body → ∃ inner, entityRecord ent =
        "  // Entity: ".toList ++ ent.name ++ "\n".toList ++
          ("  entities.".toList ++ ent.name ++ " = \x7b\n".toList) ++ inner ++
          "  \x7d;\n\n".toList) ∧
    ∀ raw W1 n W2 rest : Str, trim raw = 'E' :: (W1 ++ n ++ W2 ++ '\x7b' :: rest) →
      W1 ≠ [] → (∀ c ∈ W1, isSpace c = true) → n ≠ [] → (∀ c ∈ n, isWord c = true) →
      (∀ c ∈ W2, isSpace c = true) → entityOpen raw = some n := by
  obtain ⟨st, -, -, hp, hn⟩ := parse_total source
  refine ⟨⟨st.ast, hp, hn, ?_, fun ent _ =>
    ⟨(ent.components.map componentGroup).flatten ++ (ent.functions.map handlerCallable).flatten,
      ?_⟩⟩, fun raw W1 n W2 rest hraw h1 h2 h3 h4 h5 =>
        entityOpen_line raw W1 n W2 rest hraw h1 h2 h3 h4 h5⟩
  · simp [compileAOPL, hp, generateJavaScript_eq]
  · simp only [entityRecord, List.append_assoc]

/-- C1, at the line `  E Player {` and at the source `E A {` / `}` /
`E B {` / `}`. -/
theorem compile_one_record_per_entity_witness :
    entityOpen "  E Player \x7b".toList = some "Player".toList ∧
      ∃ ast, parse "E A \x7b\n\x7d\nE B \x7b\n\x7d".toList = some ast ∧
        ast.body.map (fun ent => ent.name) = ["A".toList, "B".toList] := by
  refine ⟨(compile_one_record_per_entity []).2 "  E Player \x7b".toList [' '] "Player".toList
    [' '] [] (by decide) (by decide) (by decide) (by decide) (by decide) (by decide), ?_⟩
  obtain ⟨ast, h1, h2, -⟩ := (compile_one_record_per_entity
    "E A \x7b\n\x7d\nE B \x7b\n\x7d".toList).1
  exact ⟨ast, h1, by rw [h2]; decide⟩

/-- C6: for every entity node with N components and M handlers, the text that
`generateJavaScript` adds for it is the record header, then exactly N
component groups (one per component, in order), then exactly M handler
callables (one per handler, in order), then the record end; a group lists the
properties of its component in their order and a callable lists the lowered
statements of its handler in their order. -/
theorem entity_record_groups (js : Str) (ent : Entity) :
    genEntity js ent = js ++ ("  // Entity: ".toList ++ ent.name ++ "\n".toList ++
        ("  entities.".toList ++ ent.name ++ " = \x7b\n".toList) ++
        (ent.components.map componentGroup).flatten ++
        (ent.functions.map handlerCallable).flatten ++ "  \x7d;\n\n".toList) ∧
      (ent.components.map componentGroup).length = ent.components.length ∧
      (ent.functions.map handlerCallable).length = ent.functions.length ∧
      (∀ (c : Component) (out : Str), genComponent out c = out ++ ("    ".toList ++ c.name ++
        ": \x7b\n".toList ++ (c.properties.map propertyLine).flatten ++ "    \x7d,\n".toList)) ∧
      (∀ (f : EventHandler) (out : Str), genFunction out f = out ++ ("    ".toList ++ f.name ++
        ": function(".toList ++ joinWith ", ".toList f.parameters ++ ") \x7b\n".toList ++
        (f.body.map stmtText).flatten ++ "    \x7d,\n".toList)) := by
  refine ⟨genEntity_eq js ent, by simp, by simp, fun c out => genComponent_eq out c,
    fun f out => genFunction_eq out f⟩

/-- C2 (as stated, refuted): the source `E A {}` / `E A {}` declares the
entity `A` twice, yet `parse` returns a program that holds both declarations and
`compileAOPL` returns a text with a record for each; nothing fails.  The native
`Parse` likewise returns true on two declarations of `A`, keeps both in the
entity list and has one registry entry for the name. -/
theorem duplicate_entities_counterexample :
    parse "E A \x7b\x7d\nE A \x7b\x7d".toList =
        some ⟨[⟨"A".toList, [], []⟩, ⟨"A".toList, [], []⟩]⟩ ∧
      compileAOPL "E A \x7b\x7d\nE A \x7b\x7d".toList =
        some (prologue ++ entityRecord ⟨"A".toList, [], []⟩ ++
          entityRecord ⟨"A".toList, [], []⟩ ++ epilogue) ∧
      compileAOPL "E A \x7b\x7d\nE A \x7b\x7d".toList ≠ none ∧
      (Aopl.Parser.new.Parse "N EA<T>\nN EA<T>".toList).map
          (fun r => (r.1, r.2.GetEntities.map (fun e => e.m_Name), r.2.m_NodeRegistry.length)) =
        some (true, ["A".toList, "A".toList], 1) :=
  ⟨rfl, rfl, by decide, by decide⟩

/-- C2 (amended): a source of two entity declaration lines with the same name
does not fail: the program holds both declarations, in order, and the output
holds one record for each. -/
theorem duplicate_entities_both_kept (l1 l2 n : Str)
    (h1 : entityOpen l1 = some n) (h2 : entityOpen l2 = some n)
    (hn1 : '\n' ∉ l1) (hn2 : '\n' ∉ l2) :
    parse (l1 ++ '\n' :: l2) = some ⟨[⟨n, [], []⟩, ⟨n, [], []⟩]⟩ ∧
      compileAOPL (l1 ++ '\n' :: l2) =
        some (prologue ++ entityRecord ⟨n, [], []⟩ ++ entityRecord ⟨n, [], []⟩ ++ epilogue) := by
  have hp : parse (l1 ++ '\n' :: l2) = some ⟨[⟨n, [], []⟩, ⟨n, [], []⟩]⟩ := by
    simp only [parse, splitOn_append, splitOn_of_not_mem _ _ hn1, splitOn_of_not_mem _ _ hn2,
      List.singleton_append, runLines, step_entityOpen _ _ _ h1, step_entityOpen _ _ _ h2]
    rfl
  refine ⟨hp, ?_⟩
  simp [compileAOPL, hp, generateJavaScript_eq, List.append_assoc]

/-- C2 (amended), at the source `E A {}` / `E A {}`. -/
theorem duplicate_entities_both_kept_witness :
    entityOpen "E A \x7b\x7d".toList = some "A".toList ∧
      parse ("E A \x7b\x7d".toList ++ '\n' :: "E A \x7b\x7d".toList) =
        some ⟨[⟨"A".toList, [], []⟩, ⟨"A".toList, [], []⟩]⟩ :=
  ⟨by decide,
    (duplicate_entities_both_kept "E A \x7b\x7d".toList "E A \x7b\x7d".toList "A".toList
      (by decide) (by decide) (by decide) (by decide)).1⟩

/-- C3 (as stated, refuted): the source `E A {` / `C B {` ends with an entity
and a component still open, yet `parse` returns a program (the entity `A` with
its component `B`).  Written on one line, `E A { C B {` is an entity-open line
and nothing more; it too ends with an open block and returns a program. -/
theorem unclosed_blocks_counterexample :
    finalStack "E A \x7b\nC B \x7b".toList = some [.component 0 0, .entity 0] ∧
      parse "E A \x7b\nC B \x7b".toList =
        some ⟨[⟨"A".toList, [⟨.component, "B".toList, []⟩], []⟩]⟩ ∧
      parse "E A \x7b\nC B \x7b".toList ≠ none ∧
      finalStack "E A \x7b C B \x7b".toList = some [.entity 0] ∧
      parse "E A \x7b C B \x7b".toList = some ⟨[⟨"A".toList, [], []⟩]⟩ :=
  ⟨by decide, rfl, by
    rw [show parse "E A \x7b\nC B \x7b".toList =
      some ⟨[⟨"A".toList, [⟨.component, "B".toList, []⟩], []⟩]⟩ from rfl]
    exact Option.some_ne_none _, by decide, rfl⟩

/-- C3 (amended): a source that ends while blocks are still open (`stack` is
what the block stack then holds) does not fail: `parse` returns the program
built from its lines, which is the program of the same source completed by one
closing line per open block (after which no block is open). -/
theorem unclosed_blocks_return_program (source : Str) (stack : List Ref)
    (h : finalStack source = some stack) :
    ∃ ast, parse source = some ast ∧ parse (source ++ closes stack.length) = some ast ∧
      finalStack (source ++ closes stack.length) = some [] := by
  simp only [finalStack, Option.map_eq_some'] at h
  obtain ⟨st, hst, hs⟩ := h
  obtain ⟨st', h', ha, hs'⟩ := runLines_closes stack.length st
  have hrun : runLines initState (splitOn '\n' (source ++ closes stack.length)) = some st' := by
    rw [splitOn_append_closes, runLines_append, hst]
    exact h'
  refine ⟨st.ast, by simp [parse, hst], by simp [parse, hrun, ha], ?_⟩
  simp [finalStack, hrun, hs', hs]

/-- C3 (amended), at the source `E A {` / `C B {`. -/
theorem unclosed_blocks_return_program_witness :
    finalStack "E A \x7b\nC B \x7b".toList = some [.component 0 0, .entity 0] ∧
      ∃ ast, parse "E A \x7b\nC B \x7b".toList = some ast ∧
        parse ("E A \x7b\nC B \x7b".toList ++ closes 2) = some ast ∧
        finalStack ("E A \x7b\nC B \x7b".toList ++ closes 2) = some [] :=
  ⟨by decide,
    unclosed_blocks_return_program "E A \x7b\nC B \x7b".toList [.component 0 0, .entity 0]
      (by decide)⟩

/-- C4 (as stated, refuted): in `E A {` / `}` / `}` the last line is a close
met with an empty block stack, yet `parse` returns a program, the one of the
source without that line; so it does on the source that is a lone `}`, and on
`E A { }` / `}` (where the first line is an entity-open line, its own `}` not
being looked at). -/
theorem unmatched_close_counterexample :
    finalStack "E A \x7b\n\x7d".toList = some [] ∧
      parse "E A \x7b\n\x7d\n\x7d".toList = some ⟨[⟨"A".toList, [], []⟩]⟩ ∧
      parse "E A \x7b\n\x7d\n\x7d".toList ≠ none ∧
      finalStack "\x7d".toList = some [] ∧ parse "\x7d".toList = some ⟨[]⟩ ∧
      parse "E A \x7b \x7d\n\x7d".toList = some ⟨[⟨"A".toList, [], []⟩]⟩ :=
  ⟨by decide, rfl, by
    rw [show parse "E A \x7b\n\x7d\n\x7d".toList = some ⟨[⟨"A".toList, [], []⟩]⟩ from rfl]
    exact Option.some_ne_none _, by decide, rfl, rfl⟩

/-- C4 (amended): a closing line met while the block stack is empty is
ignored: `parse` does not fail and returns the program of the source without
that line, be the line the last one or followed by further text. -/
theorem unmatched_close_ignored (a b : Str) (h : finalStack a = some []) :
    ∃ ast, parse a = some ast ∧ parse (a ++ '\n' :: ['\x7d']) = some ast ∧
      parse (a ++ '\n' :: '\x7d' :: '\n' :: b) = parse (a ++ '\n' :: b) ∧
      parse (a ++ '\n' :: b) ≠ none := by
  simp only [finalStack, Option.map_eq_some'] at h
  obtain ⟨st, hst, hs⟩ := h
  have hc : step st ['\x7d'] = some st := step_close_empty st _ (by decide) hs
  have e1 : splitOn '\n' (a ++ '\n' :: ['\x7d']) = splitOn '\n' a ++ [['\x7d']] := by
    rw [splitOn_append]
    rfl
  have e2 : splitOn '\n' (a ++ '\n' :: '\x7d' :: '\n' :: b) =
      splitOn '\n' a ++ (['\x7d'] :: splitOn '\n' b) := by
    rw [splitOn_append]
    have : '\x7d' :: '\n' :: b = ['\x7d'] ++ '\n' :: b := rfl
    rw [this, splitOn_append]
    rfl
  obtain ⟨st2, hst2, -, -⟩ := runLines_inv (splitOn '\n' b) st
    (reachable_inv ⟨_, hst⟩)
  refine ⟨st.ast, by simp [parse, hst], ?_, ?_, ?_⟩
  · simp [parse, e1, runLines_append, hst, runLines, hc]
  · simp [parse, e2, splitOn_append, runLines_append, hst, runLines, hc]
  · simp [parse, splitOn_append, runLines_append, hst, hst2]

/-- C4 (amended), at the source `E A {` / `}` followed by the extra `}`. -/
theorem unmatched_close_ignored_witness :
    finalStack "E A \x7b\n\x7d".toList = some [] ∧
      ∃ ast, parse "E A \x7b\n\x7d".toList = some ast ∧
        parse ("E A \x7b\n\x7d".toList ++ '\n' :: ['\x7d']) = some ast ∧
        parse ("E A \x7b\n\x7d".toList ++ '\n' :: '\x7d' :: '\n' :: []) =
          parse ("E A \x7b\n\x7d".toList ++ '\n' :: []) ∧
        parse ("E A \x7b\n\x7d".toList ++ '\n' :: []) ≠ none :=
  ⟨by decide, unmatched_close_ignored "E A \x7b\n\x7d".toList [] (by decide)⟩

/-- C10 (as stated, refuted): in `E A {` / `C X {` / `E B {` / `C Y {` the
entity `B` is opened while two blocks are open, and the component `Y` is
opened while the innermost open block is a component; `parse` does not fail
and both lines add their node to the AST. -/
theorem nested_opens_counterexample :
    parse "E A \x7b\nC X \x7b\nE B \x7b\nC X \x7b\nC Y \x7b".toList =
        some ⟨[⟨"A".toList, [⟨.component, "X".toList, []⟩], []⟩,
          ⟨"B".toList, [⟨.component, "X".toList, []⟩, ⟨.component, "Y".toList, []⟩], []⟩]⟩ ∧
      finalStack "E A \x7b\nC X \x7b\nE B \x7b\nC X \x7b".toList =
        some [.component 1 0, .entity 1, .component 0 0, .entity 0] :=
  ⟨rfl, by decide⟩

/-- C10 (amended): `parse` makes no nesting check and does not fail on an
open.  In every state the loop can reach: an entity-open line appends an
entity to the program and pushes its frame, whatever the block stack holds;
and when some block is open, a component-open, neural-network-open or
event-handler-open line appends its node to the current entity and pushes its
frame, whatever block is on top of the stack. -/
theorem opens_ignore_nesting (ls : List Str) (st : State)
    (hrun : runLines initState ls = some st) (raw : Str) :
    (∀ name, entityOpen raw = some name →
      step st raw = some { st with
        ast := ⟨st.ast.body ++ [⟨name, [], []⟩]⟩
        currentEntity := some st.ast.body.length
        blockStack := .entity st.ast.body.length :: st.blockStack }) ∧
    (st.blockStack ≠ [] → ∃ e ent, st.currentEntity = some e ∧ st.ast.body[e]? = some ent ∧
      (∀ name, componentMatch (trim raw) = some name → ∃ st', step st raw = some st' ∧
        st'.ast.body[e]? =
          some { ent with components := ent.components ++ [⟨.component, name, []⟩] } ∧
        st'.blockStack = .component e ent.components.length :: st.blockStack) ∧
      (∀ name, nnMatch (trim raw) = some name → ∃ st', step st raw = some st' ∧
        st'.ast.body[e]? =
          some { ent with components := ent.components ++ [⟨.neuralNetwork, name, []⟩] } ∧
        st'.blockStack = .neuralNetwork e ent.components.length :: st.blockStack) ∧
      (∀ name params, eventMatch (trim raw) = some (name, params) →
        ∃ st', step st raw = some st' ∧
        st'.ast.body[e]? = some { ent with
          functions := ent.functions ++ [⟨name, parseParameters params, []⟩] } ∧
        st'.blockStack = .eventHandler e ent.functions.length :: st.blockStack)) := by
  have hi : Inv st := reachable_inv ⟨ls, hrun⟩
  refine ⟨fun name h => step_entityOpen st raw name h, fun hs => ?_⟩
  obtain ⟨e, ent, he, hent⟩ := current_entity_of_open hi hs
  refine ⟨e, ent, he, hent, fun name h => ?_, fun name h => ?_, fun name params h => ?_⟩
  · obtain ⟨st', h1, h2, -, h4⟩ :=
      step_openComponent st raw e ent _ (classify_component st raw name e h he) hent
    exact ⟨st', h1, h2, h4⟩
  · obtain ⟨st', h1, h2, -, h4⟩ :=
      step_openComponent st raw e ent _ (classify_nn st raw name e h he) hent
    exact ⟨st', h1, h2, h4⟩
  · obtain ⟨st', h1, h2, -, h4, -⟩ :=
      step_openHandler st raw e ent _ (classify_event st raw name params e h he) hent
    exact ⟨st', h1, h2, h4⟩

/-- C10 (amended), in the state after `E A {` / `C X {` (a component on top
of the stack): the line `C Y {` adds the component `Y` to the entity `A`. -/
theorem opens_ignore_nesting_witness :
    ∃ e ent, (⟨⟨[⟨"A".toList, [⟨.component, "X".toList, []⟩], []⟩]⟩, some 0,
        some (.component 0 0), [.component 0 0, .entity 0]⟩ : State).currentEntity = some e ∧
      (⟨[⟨"A".toList, [⟨.component, "X".toList, []⟩], []⟩]⟩ : Program).body[e]? = some ent ∧
      ∃ st', step ⟨⟨[⟨"A".toList, [⟨.component, "X".toList, []⟩], []⟩]⟩, some 0,
          some (.component 0 0), [.component 0 0, .entity 0]⟩ "C Y \x7b".toList = some st' ∧
        st'.ast.body[e]? =
          some { ent with components := ent.components ++ [⟨.component, "Y".toList, []⟩] } ∧
        st'.blockStack = .component e ent.components.length ::
          [.component 0 0, .entity 0] := by
  obtain ⟨e, ent, he, hent, hc, -, -⟩ :=
    (opens_ignore_nesting ["E A \x7b".toList, "C X \x7b".toList]
      ⟨⟨[⟨"A".toList, [⟨.component, "X".toList, []⟩], []⟩]⟩, some 0,
        some (.component 0 0), [.component 0 0, .entity 0]⟩ rfl "C Y \x7b".toList).2
      (by decide)
  exact ⟨e, ent, he, hent, hc "Y".toList (by decide)⟩

/-- C7: a data-flow line `S → T` read while the innermost open block is an
event handler or a conditional (the line is not a comment, is not taken by a
pattern that opens a block, `S` holds no arrow, and neither side is empty or
holds a line terminator once trimmed) adds to the body of that block a DataFlow
statement whose source is `S` trimmed and whose target is `T` trimmed, and the
generator lowers this statement to the text `T = S` of the two trimmed sides,
at either depth. -/
theorem dataflow_recorded_and_lowered (ls : List Str) (st : State)
    (hrun : runLines initState ls = some st) (top : Ref) (rest : List Ref)
    (hstack : st.blockStack = top :: rest) (htop : top.hasBody = true) (S T : Str)
    (hS : trim S ≠ []) (hT : trim T ≠ []) (hSdot : ∀ c ∈ trim S, isDot c = true)
    (hTdot : ∀ c ∈ trim T, isDot c = true) (hSarrow : '→' ∉ S)
    (hopen : opensBlock (trim (S ++ '→' :: T)) = false)
    (hcomment : startsWithSlashes (trim S) = false) :
    ∃ st' body, step st (S ++ '→' :: T) = some st' ∧ bodyOf st.ast top = some body ∧
      bodyOf st'.ast top = some (body ++ [.dataFlow (trim S) (trim T)]) ∧
      st'.blockStack = st.blockStack ∧
      translateDataFlow (trim T) (trim S) = trim T ++ " = ".toList ++ trim S ∧
      (∀ js, genStmt js (.dataFlow (trim S) (trim T)) =
        js ++ ("      ".toList ++ (trim T ++ " = ".toList ++ trim S) ++ ";\n".toList)) ∧
      (∀ js, genInner js (.dataFlow (trim S) (trim T)) =
        js ++ ("        ".toList ++ (trim T ++ " = ".toList ++ trim S) ++ ";\n".toList)) := by
  have hi : Inv st := reachable_inv ⟨ls, hrun⟩
  obtain ⟨r, hr, hb⟩ := hi.top top rest hstack htop
  have hc := classify_flow st r hr hb top rest hstack htop S T hS hT hSdot hTdot hSarrow hopen
    hcomment
  obtain ⟨st', b, h1, h2, h3, h4, -, -⟩ := step_addStmt st hi _ top rest _ hstack htop hc
  exact ⟨st', b, h1, h2, h3, h4, rfl, fun js => rfl, fun js => rfl⟩

/-- C7, in the state after `E A {` / `⊻ f() {`: the line
`  T.x → T.x - v * dt` is recorded in the body of the handler `f`. -/
theorem dataflow_recorded_and_lowered_witness :
    ∃ st' body, step ⟨⟨[⟨"A".toList, [], [⟨"f".toList, [], []⟩]⟩]⟩, some 0,
          some (.eventHandler 0 0), [.eventHandler 0 0, .entity 0]⟩
        ("  T.x ".toList ++ '→' :: " T.x - v * dt".toList) = some st' ∧
      bodyOf ⟨[⟨"A".toList, [], [⟨"f".toList, [], []⟩]⟩]⟩ (.eventHandler 0 0) = some body ∧
      bodyOf st'.ast (.eventHandler 0 0) =
        some (body ++ [.dataFlow "T.x".toList "T.x - v * dt".toList]) := by
  obtain ⟨st', body, h1, h2, h3, -⟩ :=
    dataflow_recorded_and_lowered ["E A \x7b".toList, "⊻ f() \x7b".toList]
      ⟨⟨[⟨"A".toList, [], [⟨"f".toList, [], []⟩]⟩]⟩, some 0,
        some (.eventHandler 0 0), [.eventHandler 0 0, .entity 0]⟩ rfl
      (.eventHandler 0 0) [.entity 0] rfl rfl "  T.x ".toList " T.x - v * dt".toList
      (by decide) (by decide) (by decide) (by decide) (by decide) (by decide) (by decide)
  exact ⟨st', body, h1, h2, h3⟩

/-- C5 (as stated, refuted): for the handler body `⊿ c1 {` / `⊿ c2 {` /
`a → b` / `}` / `}` the conditional `c2` is not inside `c1`: the body of the
handler holds `c1` with an empty body and, next to it, `c2` with the
assignment, and the output has the two guarded blocks one after the other. -/
theorem nested_conditional_counterexample :
    parse "E A \x7b\n⊻ f() \x7b\n⊿ c1 \x7b\n⊿ c2 \x7b\na → b\n\x7d\n\x7d\n\x7d\n\x7d".toList =
        some ⟨[⟨"A".toList, [], [⟨"f".toList, [],
          [.conditional "c1 ".toList [],
           .conditional "c2 ".toList [.dataFlow "a".toList "b".toList]]⟩]⟩]⟩ ∧
      compileAOPL
          "E A \x7b\n⊻ f() \x7b\n⊿ c1 \x7b\n⊿ c2 \x7b\na → b\n\x7d\n\x7d\n\x7d\n\x7d".toList =
        some (prologue ++ ("  // Entity: A\n".toList ++ "  entities.A = \x7b\n".toList ++
          "    f: function() \x7b\n".toList ++
          "      if (c1 ) \x7b\n".toList ++ "      \x7d\n".toList ++
          "      if (c2 ) \x7b\n".toList ++ "        b = a;\n".toList ++ "      \x7d\n".toList ++
          "    \x7d,\n".toList ++ "  \x7d;\n\n".toList) ++ epilogue) :=
  ⟨rfl, rfl⟩

/-- C5 (amended): nesting depth is not preserved.  For a handler opened
inside an open block whose body is the conditional line `⊿ c1 {`, then the
conditional line `⊿ c2 {`, then one data-flow line `S → T`, then the closing
lines, `parse` records both conditionals in the body of the handler, side by
side: the first with an empty body, the second with the single DataFlow
statement; and `generateJavaScript` emits for the handler a guarded block for
`c1` with nothing inside, followed by a guarded block for `c2` that holds the
single assignment, which is not lost. -/
theorem nested_conditional_emitted_as_sibling (ls : List Str) (st : State)
    (hrun : runLines initState ls = some st) (hopen : st.blockStack ≠ [])
    (l0 name params : Str) (hev : eventMatch (trim l0) = some (name, params))
    (c1 c2 : Str) (hc1 : ConditionText c1) (hc2 : ConditionText c2) (S T : Str)
    (hS : trim S ≠ []) (hT : trim T ≠ []) (hSdot : ∀ c ∈ trim S, isDot c = true)
    (hTdot : ∀ c ∈ trim T, isDot c = true) (hSarrow : '→' ∉ S)
    (hnoopen : opensBlock (trim (S ++ '→' :: T)) = false)
    (hcomment : startsWithSlashes (trim S) = false) :
    ∃ e ent st', st.currentEntity = some e ∧ st.ast.body[e]? = some ent ∧
      runLines st [l0, conditionalLine c1, conditionalLine c2, S ++ '→' :: T,
        ['\x7d'], ['\x7d'], ['\x7d']] = some st' ∧
      st'.ast.body[e]? = some { ent with functions := ent.functions ++
        [⟨name, parseParameters params,
          [.conditional (c1 ++ [' ']) [],
           .conditional (c2 ++ [' ']) [.dataFlow (trim S) (trim T)]]⟩] } ∧
      st'.blockStack = st.blockStack ∧
      ∀ js, genFunction js ⟨name, parseParameters params,
          [.conditional (c1 ++ [' ']) [],
           .conditional (c2 ++ [' ']) [.dataFlow (trim S) (trim T)]]⟩ =
        js ++ ("    ".toList ++ name ++ ": function(".toList ++
          joinWith ", ".toList (parseParameters params) ++ ") \x7b\n".toList ++
          ("      if (".toList ++ (c1 ++ [' ']) ++ ") \x7b\n".toList ++ "      \x7d\n".toList) ++
          ("      if (".toList ++ (c2 ++ [' ']) ++ ") \x7b\n".toList ++
            ("        ".toList ++ (trim T ++ " = ".toList ++ trim S) ++ ";\n".toList) ++
            "      \x7d\n".toList) ++
          "    \x7d,\n".toList) := by
  have hi : Inv st := reachable_inv ⟨ls, hrun⟩
  obtain ⟨e, ent, he, hent⟩ := current_entity_of_open hi hopen
  -- the handler opens
  obtain ⟨st1, h1, hb1, -, hs1, hcb1, -⟩ :=
    step_openHandler st l0 e ent _ (classify_event st l0 name params e hev he) hent
  -- the first conditional goes to the body of the handler
  obtain ⟨ast2, hp2, hb2, -⟩ := pushBody_last_handler st1.ast e _ ent.functions
    ⟨name, parseParameters params, []⟩ (.conditional (c1 ++ [' ']) []) hb1 rfl
  have h2 : step st1 (conditionalLine c1) = some { st1 with
      ast := ast2, blockStack := .conditional e ent.functions.length 0 :: st1.blockStack } := by
    rw [step_eq, classify_conditionalLine st1 c1 hc1 e _ hcb1]
    simp only [act, hp2, Option.map_some']
    rfl
  -- so does the second one: the current block is still the handler
  obtain ⟨ast3, hp3, hb3, -⟩ := pushBody_last_handler ast2 e _ ent.functions
    ⟨name, parseParameters params, [.conditional (c1 ++ [' ']) []]⟩
    (.conditional (c2 ++ [' ']) []) hb2 rfl
  have h3 : step { st1 with
        ast := ast2, blockStack := .conditional e ent.functions.length 0 :: st1.blockStack }
      (conditionalLine c2) = some { st1 with
        ast := ast3
        blockStack := .conditional e ent.functions.length 1 ::
          .conditional e ent.functions.length 0 :: st1.blockStack } := by
    rw [step_eq, classify_conditionalLine { st1 with
        ast := ast2, blockStack := .conditional e ent.functions.length 0 :: st1.blockStack }
      c2 hc2 e _ hcb1]
    simp only [act, hp3, Option.map_some']
    rfl
  -- the data flow goes to the conditional on top of the stack
  obtain ⟨ast4, hp4, hb4, -⟩ := pushBody_last_conditional ast3 e _ ent.functions
    ⟨name, parseParameters params,
      [.conditional (c1 ++ [' ']) [], .conditional (c2 ++ [' ']) []]⟩ 1 (c2 ++ [' ']) []
    (.dataFlow (trim S) (trim T)) hb3 rfl rfl
  have h4 : step { st1 with
        ast := ast3
        blockStack := .conditional e ent.functions.length 1 ::
          .conditional e ent.functions.length 0 :: st1.blockStack }
      (S ++ '→' :: T) = some { st1 with
        ast := ast4
        blockStack := .conditional e ent.functions.length 1 ::
          .conditional e ent.functions.length 0 :: st1.blockStack } := by
    rw [step_eq, classify_flow { st1 with
        ast := ast3
        blockStack := .conditional e ent.functions.length 1 ::
          .conditional e ent.functions.length 0 :: st1.blockStack } _ hcb1 rfl
      (.conditional e ent.functions.length 1) _ rfl rfl
      S T hS hT hSdot hTdot hSarrow hnoopen hcomment]
    simp only [act, hp4, Option.map_some']
  -- the three closes
  obtain ⟨st5, h5, ha5, hs5⟩ := step_close { st1 with
        ast := ast4
        blockStack := .conditional e ent.functions.length 1 ::
          .conditional e ent.functions.length 0 :: st1.blockStack } ['\x7d'] (by decide)
  obtain ⟨st6, h6, ha6, hs6⟩ := step_close st5 ['\x7d'] (by decide)
  obtain ⟨st7, h7, ha7, hs7⟩ := step_close st6 ['\x7d'] (by decide)
  refine ⟨e, ent, st7, he, hent, ?_, ?_, ?_, ?_⟩
  · simp only [runLines, h1, h2, h3, h4, h5, h6, h7]
  · rw [ha7, ha6, ha5]
    exact hb4
  · rw [hs7, hs6, hs5, hs1]
    rfl
  · intro js
    rw [genFunction_eq]
    simp [handlerCallable, stmtText, innerLine, List.append_assoc]

/-- C5 (amended), in the state after `E A {`, for the handler `⊻ f() {` with
the conditions `c1` and `c2` and the data-flow line `a → b`. -/
theorem nested_conditional_emitted_as_sibling_witness :
    ∃ st', runLines ⟨⟨[⟨"A".toList, [], []⟩]⟩, some 0, none, [.entity 0]⟩
        ["⊻ f() \x7b".toList, conditionalLine "c1".toList, conditionalLine "c2".toList,
          "a ".toList ++ '→' :: " b".toList, ['\x7d'], ['\x7d'], ['\x7d']] = some st' ∧
      st'.ast.body[0]? = some ⟨"A".toList, [], [⟨"f".toList, [],
        [.conditional "c1 ".toList [],
         .conditional "c2 ".toList [.dataFlow "a".toList "b".toList]]⟩]⟩ ∧
      st'.blockStack = [.entity 0] := by
  obtain ⟨e, ent, st', he, hent, hrun, hbody, hstack, -⟩ :=
    nested_conditional_emitted_as_sibling ["E A \x7b".toList]
      ⟨⟨[⟨"A".toList, [], []⟩]⟩, some 0, none, [.entity 0]⟩ rfl (by decide)
      "⊻ f() \x7b".toList "f".toList [] (by decide) "c1".toList "c2".toList
      ⟨by decide, fun x hx => by cases hx; decide, by decide⟩
      ⟨by decide, fun x hx => by cases hx; decide, by decide⟩
      "a ".toList " b".toList (by decide) (by decide) (by decide) (by decide) (by decide)
      (by decide) (by decide)
  cases he
  cases hent
  exact ⟨st', hrun, hbody, hstack⟩

/-- C18: blank lines and comment lines produce no AST node.  Two sources
whose lines agree once the lines that are empty after trimming or begin, after
trimming, with `//` are left out parse to the same AST; in particular a source
and the same source with one such line inserted do. -/
theorem blank_and_comment_lines_ignored (s1 s2 : Str) :
    ((splitOn '\n' s1).filter (fun l => !isSkipLine l) =
        (splitOn '\n' s2).filter (fun l => !isSkipLine l) →
      ∃ ast, parse s1 = some ast ∧ parse s2 = some ast) ∧
    ∀ (pre post : List Str) (l : Str), isSkipLine l = true →
      splitOn '\n' s1 = pre ++ l :: post → splitOn '\n' s2 = pre ++ post →
      ∃ ast, parse s1 = some ast ∧ parse s2 = some ast := by
  have key : (splitOn '\n' s1).filter (fun l => !isSkipLine l) =
      (splitOn '\n' s2).filter (fun l => !isSkipLine l) →
      ∃ ast, parse s1 = some ast ∧ parse s2 = some ast := by
    intro h
    obtain ⟨st, -, -, hp, -⟩ := parse_total s1
    refine ⟨st.ast, hp, ?_⟩
    rw [← hp]
    simp only [parse]
    rw [runLines_filter (splitOn '\n' s2), ← h, ← runLines_filter]
  refine ⟨key, fun pre post l hl h1 h2 => key ?_⟩
  rw [h1, h2]
  simp [List.filter_append, List.filter_cons, hl]

/-- C18, for the source `E A {` / `}` and the same source with a blank line
and a comment line inserted. -/
theorem blank_and_comment_lines_ignored_witness :
    (∃ ast, parse "E A \x7b\n\n  // note\n\x7d".toList = some ast ∧
        parse "E A \x7b\n\x7d".toList = some ast) ∧
      ∃ ast, parse "E A \x7b\n   \n\x7d".toList = some ast ∧
        parse "E A \x7b\n\x7d".toList = some ast :=
  ⟨(blank_and_comment_lines_ignored "E A \x7b\n\n  // note\n\x7d".toList
      "E A \x7b\n\x7d".toList).1 (by decide),
    (blank_and_comment_lines_ignored "E A \x7b\n   \n\x7d".toList "E A \x7b\n\x7d".toList).2
      ["E A \x7b".toList] ["\x7d".toList] "   ".toList (by decide) (by decide) (by decide)⟩

/-- C16: the Transform shorthand is a naming convention.  Two sources that
differ in one line, a Transform line (`T {`) in the first and a component line
named `Transform` (`C Transform {`) in the second, parse to the same AST; and
where there is a current entity the Transform line appends to it an ordinary
Component node named `Transform` with no property yet. -/
theorem transform_shorthand_is_component (s1 s2 : Str) (pre post : List Str) (l1 l2 : Str)
    (hs1 : splitOn '\n' s1 = pre ++ l1 :: post) (hs2 : splitOn '\n' s2 = pre ++ l2 :: post)
    (h1 : transformMatch (trim l1) = true)
    (h2 : componentMatch (trim l2) = some "Transform".toList) :
    (∃ ast, parse s1 = some ast ∧ parse s2 = some ast) ∧
      ∀ st, runLines initState pre = some st → ∀ e ent, st.currentEntity = some e →
        st.ast.body[e]? = some ent → ∃ st', step st l1 = some st' ∧
          st'.ast.body[e]? = some { ent with
            components := ent.components ++ [⟨.component, "Transform".toList, []⟩] } ∧
          st'.blockStack = .component e ent.components.length :: st.blockStack := by
  obtain ⟨st0, hrun0, hi0, -⟩ := runLines_inv pre initState inv_init
  constructor
  · obtain ⟨st, -, -, hp, -⟩ := parse_total s1
    refine ⟨st.ast, hp, ?_⟩
    rw [← hp]
    simp only [parse, hs1, hs2, runLines_append, hrun0, Option.some_bind,
      runLines_transform_eq post st0 hi0 l1 l2 h1 h2]
  · intro st hst e ent he hent
    obtain ⟨st', h1', h2', -, h4'⟩ :=
      step_openComponent st l1 e ent _ (classify_transform st l1 e h1 he) hent
    exact ⟨st', h1', h2', h4'⟩

/-- C16, for the sources `E A {` / `T {` / `position: 1` / `}` / `}` and
`E A {` / `C Transform {` / `position: 1` / `}` / `}`. -/
theorem transform_shorthand_is_component_witness :
    ∃ ast, parse "E A \x7b\n  T \x7b\nposition: 1\n\x7d\n\x7d".toList = some ast ∧
      parse "E A \x7b\n  C Transform \x7b\nposition: 1\n\x7d\n\x7d".toList = some ast :=
  (transform_shorthand_is_component "E A \x7b\n  T \x7b\nposition: 1\n\x7d\n\x7d".toList
    "E A \x7b\n  C Transform \x7b\nposition: 1\n\x7d\n\x7d".toList ["E A \x7b".toList]
    ["position: 1".toList, "\x7d".toList, "\x7d".toList] "  T \x7b".toList
    "  C Transform \x7b".toList (by decide) (by decide) (by decide) (by decide)).1

/-- C17: the generator lowers a NeuralNetwork component exactly like an
ordinary component.  Changing the kind of one component of an entity from
NeuralNetwork to Component (same name, same properties) leaves the text
generated for the entity, and for any program that holds it, unchanged; the
group of a NeuralNetwork lists all its properties in their order. -/
theorem neural_network_lowered_as_component (js name cname : Str) (fns : List EventHandler)
    (pre post : List Component) (props : List Property) (before after : List Entity) :
    genEntity js ⟨name, pre ++ ⟨.neuralNetwork, cname, props⟩ :: post, fns⟩ =
        genEntity js ⟨name, pre ++ ⟨.component, cname, props⟩ :: post, fns⟩ ∧
      generateJavaScript
          ⟨before ++ ⟨name, pre ++ ⟨.neuralNetwork, cname, props⟩ :: post, fns⟩ :: after⟩ =
        generateJavaScript
          ⟨before ++ ⟨name, pre ++ ⟨.component, cname, props⟩ :: post, fns⟩ :: after⟩ ∧
      genComponent js ⟨.neuralNetwork, cname, props⟩ =
        js ++ ("    ".toList ++ cname ++ ": \x7b\n".toList ++
          (props.map propertyLine).flatten ++ "    \x7d,\n".toList) := by
  refine ⟨?_, ?_, genComponent_eq js _⟩
  · simp [genEntity_eq, entityRecord, componentGroup]
  · simp [generateJavaScript_eq, entityRecord, componentGroup]

/-- C14 (as stated, refuted): for the handler body that is the conditional
`c1` holding the conditional `c2` holding the assignment of `a` to `b`, the
text emitted is the guarded block of `c1` with nothing inside: the inner
conditional and its assignment are omitted. -/
theorem nested_conditional_lowering_counterexample :
    genStmt [] (.conditional "c1".toList
        [.conditional "c2".toList [.dataFlow "a".toList "b".toList]]) =
      "      if (c1) \x7b\n".toList ++ "      \x7d\n".toList ∧
    genFunction [] ⟨"f".toList, [], [.conditional "c1".toList
        [.conditional "c2".toList [.dataFlow "a".toList "b".toList]]]⟩ =
      "    f: function() \x7b\n".toList ++ "      if (c1) \x7b\n".toList ++
        "      \x7d\n".toList ++ "    \x7d,\n".toList :=
  ⟨by decide, by decide⟩

/-- C14 (amended): the generator lowers a Conditional to a guarded block whose
body is the lowering, in order, of the DataFlow and Statement nodes of the
body of the Conditional, each on its own line; a Conditional that stands in
the body of another Conditional has no text, neither for itself nor for its
statements. -/
theorem conditional_lowered_one_level (js c : Str) (b : List Stmt) :
    genStmt js (.conditional c b) =
        js ++ ("      if (".toList ++ c ++ ") \x7b\n".toList ++
          ((b.filter Stmt.isLeaf).map innerLine).flatten ++ "      \x7d\n".toList) ∧
      (∀ source target : Str, innerLine (.dataFlow source target) =
        "        ".toList ++ (target ++ " = ".toList ++ source) ++ ";\n".toList) ∧
      (∀ code : Str, innerLine (.statement code) =
        "        ".toList ++ code ++ ";\n".toList) ∧
      ∀ (out c2 : Str) (b2 : List Stmt), genInner out (.conditional c2 b2) = out := by
  refine ⟨?_, fun _ _ => rfl, fun _ => rfl, fun _ _ _ => rfl⟩
  rw [genStmt_eq, ← innerLine_filter]
  rfl

/-- C15 (the code at the failing input): the property pattern keeps the
trailing comma in group 2, so inside the component `X` the line
`position: [0, 0, 0],` records the value `[0, 0, 0],` while the line
`position: [0, 0, 0]` records `[0, 0, 0]`; the generator, which adds a comma of
its own, then emits `position: [0, 0, 0],,`. -/
theorem property_trailing_comma_kept :
    propertyMatch "position: [0, 0, 0],".toList =
        some ("position".toList, "[0, 0, 0],".toList) ∧
      propertyMatch "position: [0, 0, 0]".toList =
        some ("position".toList, "[0, 0, 0]".toList) ∧
      parse "E A \x7b\nC X \x7b\nposition: [0, 0, 0],\n\x7d\n\x7d".toList =
        some ⟨[⟨"A".toList, [⟨.component, "X".toList,
          [⟨"position".toList, "[0, 0, 0],".toList⟩]⟩], []⟩]⟩ ∧
      parse "E A \x7b\nC X \x7b\nposition: [0, 0, 0]\n\x7d\n\x7d".toList =
        some ⟨[⟨"A".toList, [⟨.component, "X".toList,
          [⟨"position".toList, "[0, 0, 0]".toList⟩]⟩], []⟩]⟩ ∧
      compileAOPL "E A \x7b\nC X \x7b\nposition: [0, 0, 0],\n\x7d\n\x7d".toList =
        some (prologue ++ ("  // Entity: A\n".toList ++ "  entities.A = \x7b\n".toList ++
          "    X: \x7b\n".toList ++ "      position: [0, 0, 0],,\n".toList ++
          "    \x7d,\n".toList ++ "  \x7d;\n\n".toList) ++ epilogue) :=
  ⟨by decide, by decide, rfl, rfl, rfl⟩

/-- C11 (as stated, refuted): in `E A {` / `x: 1` / `a → b` / `foo()` / `}` a
property line, a data-flow line and a generic statement line are met while the
innermost open block is an entity, yet `parse` returns a program; in
`E A {` / `C X {` / `E B {` / `p: 1` the property line is met while the
innermost open block is the entity `B` and is recorded, in the component `X`
of `A`; in a handler a property line is recorded as a generic statement. -/
theorem misplaced_lines_counterexample :
    parse "E A \x7b\nx: 1\na → b\nfoo()\n\x7d".toList = some ⟨[⟨"A".toList, [], []⟩]⟩ ∧
      finalStack "E A \x7b\nC X \x7b\nE B \x7b".toList =
        some [.entity 1, .component 0 0, .entity 0] ∧
      parse "E A \x7b\nC X \x7b\nE B \x7b\np: 1".toList =
        some ⟨[⟨"A".toList, [⟨.component, "X".toList, [⟨"p".toList, "1".toList⟩]⟩], []⟩,
          ⟨"B".toList, [], []⟩]⟩ ∧
      parse "E A \x7b\n⊻ f() \x7b\nx: 1\n\x7d\n\x7d".toList =
        some ⟨[⟨"A".toList, [], [⟨"f".toList, [], [.statement "x: 1".toList]⟩]⟩]⟩ :=
  ⟨rfl, by decide, rfl, rfl⟩

/-- C11 (amended): `parse` has no structural error.  In every state the loop
can reach, every line is read without failure.  A line that opens no block and
closes none, and that is not recorded as a property (it is no property line,
or the current block is neither a Component nor a NeuralNetwork), read while
the innermost open block is not an EventHandler or a Conditional (or no block
is open), adds no node and changes nothing.  Read while the innermost open
block is an EventHandler or a Conditional, a line that opens no block, is no
data-flow line and holds no brace (a property line among them) is recorded in
the body of that block as a generic statement. -/
theorem misplaced_lines_dropped (ls : List Str) (st : State)
    (hrun : runLines initState ls = some st) (raw : Str) :
    (∃ st', step st raw = some st') ∧
      ((propertyMatch (trim raw) = none ∨
          ∀ e j, st.currentBlock ≠ some (.component e j) ∧
            st.currentBlock ≠ some (.neuralNetwork e j)) →
        (∀ top rest, st.blockStack = top :: rest → top.hasBody = false) →
        opensBlock (trim raw) = false → closeMatch (trim raw) = false →
        step st raw = some st) ∧
      ∀ top rest, st.blockStack = top :: rest → top.hasBody = true →
        isSkipLine raw = false → opensBlock (trim raw) = false →
        flowMatch (trim raw) = none → statementMatch (trim raw) = true →
        ∃ st' body, step st raw = some st' ∧ bodyOf st.ast top = some body ∧
          bodyOf st'.ast top = some (body ++ [.statement (trim raw)]) ∧
          st'.blockStack = st.blockStack := by
  have hi : Inv st := reachable_inv ⟨ls, hrun⟩
  refine ⟨?_, fun hprop htop hopen hclose => step_unrecorded st raw hprop htop hopen hclose,
    fun top rest hstack htop hskip hopen hflow hstmt => ?_⟩
  · obtain ⟨st', h, -, -⟩ := step_inv st hi raw
    exact ⟨st', h⟩
  · obtain ⟨r, hr, hb⟩ := hi.top top rest hstack htop
    have hc := classify_statement st r hr hb top rest hstack htop raw hskip hopen hflow hstmt
    obtain ⟨st', b, h1, h2, h3, h4, -, -⟩ := step_addStmt st hi _ top rest _ hstack htop hc
    exact ⟨st', b, h1, h2, h3, h4⟩

/-- C11 (amended), in the state after `E A {` (an entity on top of the
stack): the data-flow line `a → b` and the property line `x: 1` change
nothing. -/
theorem misplaced_lines_dropped_witness :
    step ⟨⟨[⟨"A".toList, [], []⟩]⟩, some 0, none, [.entity 0]⟩ "  a → b".toList =
        some ⟨⟨[⟨"A".toList, [], []⟩]⟩, some 0, none, [.entity 0]⟩ ∧
      step ⟨⟨[⟨"A".toList, [], []⟩]⟩, some 0, none, [.entity 0]⟩ "x: 1".toList =
        some ⟨⟨[⟨"A".toList, [], []⟩]⟩, some 0, none, [.entity 0]⟩ :=
  ⟨(misplaced_lines_dropped ["E A \x7b".toList]
      ⟨⟨[⟨"A".toList, [], []⟩]⟩, some 0, none, [.entity 0]⟩ rfl "  a → b".toList).2.1
      (Or.inl (by decide)) (fun top rest h => by cases h; rfl) (by decide) (by decide),
    (misplaced_lines_dropped ["E A \x7b".toList]
      ⟨⟨[⟨"A".toList, [], []⟩]⟩, some 0, none, [.entity 0]⟩ rfl "x: 1".toList).2.1
      (Or.inr (fun e j => ⟨by simp, by simp⟩)) (fun top rest h => by cases h; rfl)
      (by decide) (by decide)⟩

/-- C13: in every AST that `parse` returns, a statement of a handler body is
a DataFlow, a generic Statement, or a Conditional whose body holds nothing but
DataFlow and generic Statement nodes; a statement is only ever pushed to a
node that is an EventHandler or a Conditional.  (The `body` of the program
holds entities only, an entity holds components and handlers only, and a
component holds properties only: these are the only nodes the loop pushes
there.) -/
theorem statements_only_in_bodies (source : Str) :
    (∃ ast, parse source = some ast ∧
      ∀ ent ∈ ast.body, ∀ f ∈ ent.functions, ∀ s ∈ f.body,
        match s with
        | .conditional _ b => ∀ t ∈ b, t.isLeaf = true
        | _ => True) ∧
    ∀ (ast : Program) (r : Ref) (s : Stmt), pushBody ast r s ≠ none → r.hasBody = true := by
  constructor
  · obtain ⟨st, -, -, hp, -⟩ := parse_total source
    refine ⟨st.ast, hp, fun ent hent f hf s hs => ?_⟩
    have := parse_flat source st.ast hp ent hent f hf s hs
    cases s with
    | conditional c b => exact this
    | dataFlow a b => trivial
    | statement a => trivial
  · intro ast r s h
    cases r with
    | entity e => exact absurd rfl h
    | component e j => exact absurd rfl h
    | neuralNetwork e j => exact absurd rfl h
    | eventHandler e j => rfl
    | conditional e j k => rfl

/-- C13, for the program of `E A {` / `⊻ f() {`: the push of a statement to
the handler succeeds, on a node with a body. -/
theorem statements_only_in_bodies_witness :
    (Ref.eventHandler 0 0).hasBody = true :=
  (statements_only_in_bodies []).2 ⟨[⟨"A".toList, [], [⟨"f".toList, [], []⟩]⟩]⟩
    (.eventHandler 0 0) (.statement "x".toList) (by simp [pushBody, updateAt])

/-- C12 (as stated, refuted): in the source below the handler of `A` holds a
statement that refers to `Ghost`, declared nowhere; `compileAOPL` returns a
text, with no error beside it, that holds the record of `A` (the statement
passed through verbatim) as well as the record of `B`. -/
theorem unresolved_reference_counterexample :
    compileAOPL
        "E A \x7b\n⊻ f() \x7b\nGhost.Attack(Player)\n\x7d\n\x7d\nE B \x7b\n\x7d".toList =
      some (prologue ++
        ("  // Entity: A\n".toList ++ "  entities.A = \x7b\n".toList ++
          "    f: function() \x7b\n".toList ++ "      Ghost.Attack(Player);\n".toList ++
          "    \x7d,\n".toList ++ "  \x7d;\n\n".toList) ++
        ("  // Entity: B\n".toList ++ "  entities.B = \x7b\n".toList ++
          "  \x7d;\n\n".toList) ++ epilogue) :=
  rfl

/-- C12 (amended): references are not resolved.  Whatever a generic statement
of a handler says (`code`: one trimmed line, not empty, not a comment, with no
brace and no arrow), the source `E A {` / `⊻ f() {` / `code` / `}` / `}` /
`E B {` / `}` compiles without error to a text that holds the record of
every entity, the one with the statement included, and the statement stands in
its handler verbatim. -/
theorem unresolved_reference_not_checked (code : Str) (hne : code ≠ []) (ht : Trimmed code)
    (hnl : '\n' ∉ code) (hb1 : '\x7b' ∉ code) (hb2 : '\x7d' ∉ code) (harrow : '→' ∉ code)
    (hcomment : startsWithSlashes code = false) :
    parse (joinWith ['\n'] ["E A \x7b".toList, "⊻ f() \x7b".toList, code, "\x7d".toList,
        "\x7d".toList, "E B \x7b".toList, "\x7d".toList]) =
      some ⟨[⟨"A".toList, [], [⟨"f".toList, [], [.statement code]⟩]⟩,
        ⟨"B".toList, [], []⟩]⟩ ∧
    compileAOPL (joinWith ['\n'] ["E A \x7b".toList, "⊻ f() \x7b".toList, code,
        "\x7d".toList, "\x7d".toList, "E B \x7b".toList, "\x7d".toList]) =
      some (prologue ++
        ("  // Entity: A\n".toList ++ "  entities.A = \x7b\n".toList ++
          "    f: function() \x7b\n".toList ++ ("      ".toList ++ code ++ ";\n".toList) ++
          "    \x7d,\n".toList ++ "  \x7d;\n\n".toList) ++
        ("  // Entity: B\n".toList ++ "  entities.B = \x7b\n".toList ++
          "  \x7d;\n\n".toList) ++ epilogue) := by
  have htrim : trim code = code := trim_of_trimmed code hne ht
  have hlines : splitOn '\n' (joinWith ['\n'] ["E A \x7b".toList, "⊻ f() \x7b".toList, code,
      "\x7d".toList, "\x7d".toList, "E B \x7b".toList, "\x7d".toList]) =
      ["E A \x7b".toList, "⊻ f() \x7b".toList, code, "\x7d".toList, "\x7d".toList,
        "E B \x7b".toList, "\x7d".toList] := by
    apply splitOn_joinWith _ (by simp)
    intro l hl
    simp only [List.mem_cons, List.mem_singleton, List.not_mem_nil, or_false] at hl
    rcases hl with rfl | rfl | rfl | rfl | rfl | rfl | rfl
    all_goals first | exact hnl | decide
  have hskip : isSkipLine code = false := by
    obtain ⟨c, cs, rfl⟩ := List.exists_cons_of_ne_nil hne
    rw [isSkipLine, htrim, hcomment]
    rfl
  have hstep : step ⟨⟨[⟨"A".toList, [], [⟨"f".toList, [], []⟩]⟩]⟩, some 0,
        some (.eventHandler 0 0), [.eventHandler 0 0, .entity 0]⟩ code =
      some ⟨⟨[⟨"A".toList, [], [⟨"f".toList, [], [.statement code]⟩]⟩]⟩, some 0,
        some (.eventHandler 0 0), [.eventHandler 0 0, .entity 0]⟩ := by
    rw [step_eq, classify_statement _ (.eventHandler 0 0) rfl rfl (.eventHandler 0 0)
      [.entity 0] rfl rfl code hskip
      (opensBlock_of_no_brace _ (by rw [htrim]; exact hb1))
      (flowMatch_none_of_no_arrow _ (by rw [htrim]; exact harrow))
      (by rw [htrim]; exact statementMatch_of_no_brace code hne ht hb1 hb2), htrim]
    rfl
  have hp : parse (joinWith ['\n'] ["E A \x7b".toList, "⊻ f() \x7b".toList, code,
      "\x7d".toList, "\x7d".toList, "E B \x7b".toList, "\x7d".toList]) =
      some ⟨[⟨"A".toList, [], [⟨"f".toList, [], [.statement code]⟩]⟩,
        ⟨"B".toList, [], []⟩]⟩ := by
    rw [parse, hlines]
    have h1 : step initState "E A \x7b".toList =
        some ⟨⟨[⟨"A".toList, [], []⟩]⟩, some 0, none, [.entity 0]⟩ := rfl
    have h2 : step ⟨⟨[⟨"A".toList, [], []⟩]⟩, some 0, none, [.entity 0]⟩
        "⊻ f() \x7b".toList =
        some ⟨⟨[⟨"A".toList, [], [⟨"f".toList, [], []⟩]⟩]⟩, some 0,
          some (.eventHandler 0 0), [.eventHandler 0 0, .entity 0]⟩ := rfl
    have h4 : step ⟨⟨[⟨"A".toList, [], [⟨"f".toList, [], [.statement code]⟩]⟩]⟩, some 0,
        some (.eventHandler 0 0), [.eventHandler 0 0, .entity 0]⟩ "\x7d".toList =
        some ⟨⟨[⟨"A".toList, [], [⟨"f".toList, [], [.statement code]⟩]⟩]⟩, some 0,
          some (.entity 0), [.entity 0]⟩ := rfl
    have h5 : step ⟨⟨[⟨"A".toList, [], [⟨"f".toList, [], [.statement code]⟩]⟩]⟩, some 0,
        some (.entity 0), [.entity 0]⟩ "\x7d".toList =
        some ⟨⟨[⟨"A".toList, [], [⟨"f".toList, [], [.statement code]⟩]⟩]⟩, none, none, []⟩ :=
      rfl
    have h6 : step ⟨⟨[⟨"A".toList, [], [⟨"f".toList, [], [.statement code]⟩]⟩]⟩, none,
        none, []⟩ "E B \x7b".toList =
        some ⟨⟨[⟨"A".toList, [], [⟨"f".toList, [], [.statement code]⟩]⟩,
          ⟨"B".toList, [], []⟩]⟩, some 1, none, [.entity 1]⟩ := rfl
    have h7 : step ⟨⟨[⟨"A".toList, [], [⟨"f".toList, [], [.statement code]⟩]⟩,
          ⟨"B".toList, [], []⟩]⟩, some 1, none, [.entity 1]⟩ "\x7d".toList =
        some ⟨⟨[⟨"A".toList, [], [⟨"f".toList, [], [.statement code]⟩]⟩,
          ⟨"B".toList, [], []⟩]⟩, none, none, []⟩ := rfl
    simp only [runLines, h1, h2, hstep, h4, h5, h6, h7, Option.map_some']
  refine ⟨hp, ?_⟩
  rw [compileAOPL, hp, Option.map_some', generateJavaScript_eq]
  simp [entityRecord, handlerCallable, stmtText, joinWith, List.append_assoc]

/-- C12 (amended), for the statement `Ghost.Attack(Player)`. -/
theorem unresolved_reference_not_checked_witness :
    parse (joinWith ['\n'] ["E A \x7b".toList, "⊻ f() \x7b".toList,
        "Ghost.Attack(Player)".toList, "\x7d".toList, "\x7d".toList, "E B \x7b".toList,
        "\x7d".toList]) =
      some ⟨[⟨"A".toList, [], [⟨"f".toList, [], [.statement "Ghost.Attack(Player)".toList]⟩]⟩,
        ⟨"B".toList, [], []⟩]⟩ :=
  (unresolved_reference_not_checked "Ghost.Attack(Player)".toList (by decide)
    ⟨fun c hc => by cases hc; decide, fun c hc => by cases hc; decide⟩
    (by decide) (by decide) (by decide) (by decide) (by decide)).1

/-- C26: a line read while an entity is current that, once trimmed, reads
`⊻`, white space, a name of word characters, `(`, entries separated by commas
(no entry holds a comma or a closing parenthesis), `)`, optional white space
and an opening brace adds to the current entity an EventHandler with that
name, an empty body and, as parameters, the entries trimmed, in written order,
the empty ones dropped.  Whatever lines follow, the handler keeps its name and
parameters at its place in the program, its callable starts with the name and
`function(` followed by the parameters joined by a comma and a space, and the
output of `generateJavaScript` holds that callable. -/
theorem handler_parameters_recorded_and_emitted (pre post : List Str) (st : State)
    (hrun : runLines initState pre = some st) (e : Nat) (he : st.currentEntity = some e)
    (raw W1 n W2 rest : Str) (ps : List Str)
    (hraw : trim raw =
      '⊻' :: (W1 ++ n ++ '(' :: (joinWith [','] ps ++ ')' :: (W2 ++ '\x7b' :: rest))))
    (hW1 : W1 ≠ []) (hW1s : ∀ c ∈ W1, isSpace c = true) (hn : n ≠ [])
    (hnw : ∀ c ∈ n, isWord c = true) (hps : ∀ p ∈ ps, ',' ∉ p ∧ ')' ∉ p)
    (hW2s : ∀ c ∈ W2, isSpace c = true) :
    ∃ ent st' fin f,
      st.ast.body[e]? = some ent ∧ step st raw = some st' ∧
      st'.ast.body[e]? = some { ent with functions := ent.functions ++
        [⟨n, (ps.map trim).filter (fun p => !p.isEmpty), []⟩] } ∧
      runLines initState (pre ++ raw :: post) = some fin ∧
      lookupFunction fin.ast e ent.functions.length = some f ∧
      f.name = n ∧ f.parameters = (ps.map trim).filter (fun p => !p.isEmpty) ∧
      handlerCallable f =
        "    ".toList ++ n ++ ": function(".toList ++
          joinWith ", ".toList ((ps.map trim).filter fun p => !p.isEmpty) ++
          ") \x7b\n".toList ++ (f.body.map stmtText).flatten ++ "    \x7d,\n".toList ∧
      ∃ a b, generateJavaScript fin.ast = a ++ handlerCallable f ++ b := by
  have hi : Inv st := reachable_inv ⟨pre, hrun⟩
  have hlt := hi.entity e he
  have hent : st.ast.body[e]? = some st.ast.body[e] := List.getElem?_eq_getElem hlt
  have hnp : ')' ∉ joinWith [','] ps := by
    intro hmem
    rcases mem_joinWith _ _ _ hmem with h1 | ⟨l, hl, hc⟩
    · simp at h1
    · exact (hps l hl).2 hc
  have hm := eventMatch_line W1 n (joinWith [','] ps) W2 rest hW1 hW1s hn hnw hnp hW2s
  rw [← hraw] at hm
  have hc := classify_event st raw n _ e hm he
  rw [parseParameters_joinWith ps fun p hp => (hps p hp).1] at hc
  obtain ⟨st', h1, h2, -, -, -, -⟩ := step_openHandler st raw e _ _ hc hent
  obtain ⟨st1, hs1, hi1, -⟩ := step_inv st hi raw
  rw [h1] at hs1
  cases hs1
  obtain ⟨fin, hfin, -, -⟩ := runLines_inv post st' hi1
  have hl0 : lookupFunction st'.ast e st.ast.body[e].functions.length =
      some ⟨n, (ps.map trim).filter (fun p => !p.isEmpty), []⟩ := by
    simp [lookupFunction, h2]
  obtain ⟨f, hf, hfn, hfp⟩ := runLines_header post st' fin hfin _ _ _ hl0
  refine ⟨st.ast.body[e], st', fin, f, hent, h1, h2, ?_, hf, hfn, hfp, ?_,
    generateJavaScript_callable fin.ast _ _ f hf⟩
  · rw [runLines_append, hrun]
    simp [runLines, h1, hfin]
  · rw [handlerCallable, hfn, hfp]

/-- C26, on the source `E A {` / `  ⊻ OnUpdate(dt,  x ,,y) {` / `a → b` /
`}` / `}`: the handler has the parameters `dt`, `x`, `y`. -/
theorem handler_parameters_recorded_and_emitted_witness :
    ∃ fin f,
      runLines initState ["E A \x7b".toList, "  ⊻ OnUpdate(dt,  x ,,y) \x7b".toList,
        "a → b".toList, "\x7d".toList, "\x7d".toList] = some fin ∧
      lookupFunction fin.ast 0 0 = some f ∧ f.name = "OnUpdate".toList ∧
      f.parameters = ["dt".toList, "x".toList, "y".toList] := by
  obtain ⟨ent, st', fin, f, h0, -, -, h3, h4, h5, h6, -, -⟩ :=
    handler_parameters_recorded_and_emitted ["E A \x7b".toList]
      ["a → b".toList, "\x7d".toList, "\x7d".toList]
      ⟨⟨[⟨"A".toList, [], []⟩]⟩, some 0, none, [.entity 0]⟩ rfl 0 rfl
      "  ⊻ OnUpdate(dt,  x ,,y) \x7b".toList " ".toList "OnUpdate".toList " ".toList []
      ["dt".toList, "  x ".toList, [], "y".toList] (by decide) (by decide) (by decide) (by decide)
      (by decide) (by decide) (by decide)
  simp only [List.getElem?_cons_zero, Option.some.injEq] at h0
  subst h0
  exact ⟨fin, f, h3, h4, h5, h6⟩

/-- C29: for every source `aopl.parse` returns a program and `compileAOPL`
returns the text that `generateJavaScript` gives for it, no step of either
raising.  In every state the loop of `parse` reaches, the current block and
every frame of the block stack designate a node of the program that has the
fields of its type, and the turn of the loop on any further line returns a
state (no field is read on a node that does not have it). -/
theorem parse_and_generate_never_raise (source : Str) (pre : List Str) (line : Str) :
    (∃ st, runLines initState (splitOn '\n' source) = some st ∧
      parse source = some st.ast ∧
      compileAOPL source = some (generateJavaScript st.ast)) ∧
    ∃ st, runLines initState pre = some st ∧
      (∀ r, st.currentBlock = some r → validRef st.ast r) ∧
      (∀ r ∈ st.blockStack, validRef st.ast r) ∧
      (∀ e, st.currentEntity = some e → e < st.ast.body.length) ∧
      ∃ st', step st line = some st' := by
  constructor
  · obtain ⟨st, h1, -, h2, -⟩ := parse_total source
    exact ⟨st, h1, h2, by simp [compileAOPL, h2]⟩
  · obtain ⟨st, h1, hi, -⟩ := runLines_inv pre initState inv_init
    obtain ⟨st', h2, -, -⟩ := step_inv st hi line
    exact ⟨st, h1, hi.block, hi.stack, hi.entity, st', h2⟩

end Web

namespace Aopl

/-- C9: the result of `Parse` depends only on the source of that call:
calling `Parse(a)` and then `Parse(b)` on the same parser succeeds and leaves
exactly what `Parse(b)` leaves on a freshly constructed parser (same entity
list, names in order, same registry, same flag). -/
theorem parse_depends_only_on_source (p : Parser) (a b : Str) :
    ∃ pa pb, p.Parse a = some (true, pa) ∧ pa.Parse b = some (true, pb) ∧
      Parser.new.Parse b = some (true, pb) := by
  obtain ⟨pa, ha⟩ := Parse_total p a
  obtain ⟨pb, hb⟩ := Parse_total pa b
  exact ⟨pa, pb, ha, hb, by rw [← hb]; exact Parse_congr _ _ _⟩

/-- C19 (the code at the failing input): on the sources of the tests
`BasicEntityDefinition` and `MultipleEntities`, whose lines are indented,
`Parse` returns true and the entity list is empty, since no line begins with
`N`; on the same declarations without indentation each line gives an entity,
but its name is the default `Entity`, since the line holds no `<`. -/
theorem test_declarations_not_recognised :
    (Parser.new.Parse
        "\n        # Basic entity\n        N ⊢ E〈TestEntity〉\n    ".toList).map
          (fun r => (r.1, r.2.GetEntities.map fun e => e.m_Name)) = some (true, []) ∧
      (Parser.new.Parse
        ("\n        # First entity\n        N ⊢ E〈Entity1〉\n        \n".toList ++
          "        # Second entity\n        N ⊢ E〈Entity2〉\n    ".toList)).map
          (fun r => (r.1, r.2.GetEntities.map fun e => e.m_Name)) = some (true, []) ∧
      (Parser.new.Parse "N ⊢ E〈Entity1〉\n\n# Second entity\nN ⊢ E〈Entity2〉".toList).map
          (fun r => (r.1, r.2.GetEntities.map fun e => e.m_Name)) =
        some (true, ["Entity".toList, "Entity".toList]) :=
  ⟨by decide, by decide, by decide⟩

/-- C20 (the code at the failing input): on the source of the test
`CompleteExample`, whose lines are indented, `Parse` returns true and the
entity list is empty; on the same lines without indentation the entity
declaration and the neural-network declaration (which begins with `N` and
holds an `E`) each give an entity, both named `Entity`, while the controller
declaration (no `E`) gives none. -/
theorem complete_example_not_recognised :
    (Parser.new.Parse
        ("\n        # Player Entity Definition\n".toList ++
          "        N ⊢ E〈PlayerEntity〉〈T⊕C⊕I〉\n".toList ++
          "        T: P 0 1 0 → R 0 0 0 → S 1 1 1\n".toList ++
          "        C: F Move Jump → ⊻ OnUpdate OnCollision\n".toList ++
          "        I: ⊢ K → M → G\n\n".toList ++
          "        # Player Controller Component\n".toList ++
          "        N〈PlayerController〉: V ⊢ I → F Move → A Jump → C Collision\n".toList ++
          "        Move: I.K W → T.P z+ 0.1\n".toList ++
          "        Move: I.K S → T.P z- 0.1\n".toList ++
          "        Move: I.K A → T.P x- 0.1\n".toList ++
          "        Move: I.K D → T.P x+ 0.1\n".toList ++
          "        Jump: I.K Space → V.y 5 → ⊿ grounded\n".toList ++
          "        Collision: ⊿ ground → ⊸ grounded true → V.y 0\n\n".toList ++
          "        # Neural Network for Player Animation\n".toList ++
          "        NN〈PlayerAnimator〉: E PlayerEntity → O Animation\n".toList ++
          "        ⊸ Model \"models/player_animator.onnx\"\n".toList ++
          "        ⊸ Input V T.R I.K\n".toList ++
          "        ⊸ Output \"walk\" \"run\" \"jump\" \"idle\"\n    ".toList)).map
          (fun r => (r.1, r.2.GetEntities.map fun e => e.m_Name)) = some (true, []) ∧
      (Parser.new.Parse
        ("N ⊢ E〈PlayerEntity〉〈T⊕C⊕I〉\n".toList ++
          "T: P 0 1 0 → R 0 0 0 → S 1 1 1\n".toList ++
          "N〈PlayerController〉: V ⊢ I → F Move → A Jump → C Collision\n".toList ++
          "Move: I.K W → T.P z+ 0.1\n".toList ++
          "NN〈PlayerAnimator〉: E PlayerEntity → O Animation\n".toList ++
          "⊸ Input V T.R I.K".toList)).map
          (fun r => (r.1, r.2.GetEntities.map fun e => e.m_Name)) =
        some (true, ["Entity".toList, "Entity".toList]) ∧
      (Parser.new.Parse "NN〈PlayerAnimator〉: E PlayerEntity → O Animation".toList).map
          (fun r => r.2.GetEntities.map fun e => e.m_Name) = some ["Entity".toList] ∧
      (Parser.new.Parse
          "N〈PlayerController〉: V ⊢ I → F Move → A Jump → C Collision".toList).map
          (fun r => r.2.GetEntities.map fun e => e.m_Name) = some [] :=
  ⟨by decide, by decide, by decide, by decide⟩

/-- C21: after any sequence of calls of `Parse`, `GetEntities` and `Compile`
on a freshly constructed parser, no call having raised, `Compile` returns true
exactly when one of the calls was a `Parse`; in particular it returns false on
the fresh parser and true after a `Parse` of any source.  `Compile` leaves the
parser, and so its entity list, as it was. -/
theorem compile_true_iff_parsed (cs : List Call) (q : Parser) (code : Str) :
    (∃ p, Parser.new.calls cs = some p ∧
      (p.Compile.1 = true ↔ ∃ src, Call.Parse src ∈ cs)) ∧
    Parser.new.Compile.1 = false ∧
    (∃ q', q.Parse code = some (true, q') ∧ q'.Compile.1 = true) ∧
    q.Compile.2 = q ∧ q.Compile.2.GetEntities = q.GetEntities := by
  refine ⟨?_, rfl, ?_, ?_, ?_⟩
  · obtain ⟨p, hp, hf⟩ := calls_flag cs Parser.new
    refine ⟨p, hp, ?_⟩
    rw [Compile_eq, hf]
    simp only [Parser.new, Bool.false_or, List.any_eq_true]
    constructor
    · rintro ⟨c, hc, hi⟩
      cases c with
      | Parse src => exact ⟨src, hc⟩
      | GetEntities => cases hi
      | Compile => cases hi
    · rintro ⟨src, hs⟩
      exact ⟨_, hs, rfl⟩
  · obtain ⟨q', h, hf⟩ := Parse_flag q code
    exact ⟨q', h, by rw [Compile_eq, hf]⟩
  · rw [Compile_eq]
  · rw [Compile_eq]

/-- C27: `Parse` returns true for every source and every parser, and the
parser it leaves has the parsed flag set; on the neural-network source of the
test `NeuralNetworkDefinition` it returns true and stores no entity. -/
theorem parse_returns_true_and_sets_flag (p : Parser) (code : Str) :
    (∃ p', p.Parse code = some (true, p') ∧ p'.m_IsParsed = true) ∧
    p.Parse
        ("\n        # Neural network\n".toList ++
          "        NN〈Animator〉: E Player → O Animation\n".toList ++
          "        ⊸ Model \"models/animator.onnx\"\n".toList ++
          "        ⊸ Input V T.R I.K\n".toList ++
          "        ⊸ Output \"walk\" \"run\" \"jump\" \"idle\"\n    ".toList) =
      some (true, { m_Entities := [], m_NodeRegistry := [], m_IsParsed := true }) :=
  ⟨Parse_flag p code, by rw [Parse_congr p Parser.new]; rfl⟩

/-- C30: for a line that holds an `E`, the start position `find('E') + 1` is
at most the length of the line, so `substr` returns for every length argument
(also the wrapped one), the extracted name is not empty and is `Entity` when
the line holds no `<`, and every entity that `Parse` stores has a non-empty
name. -/
theorem entity_name_extraction_safe (p : Parser) (code line : Str)
    (hE : find 'E' line ≠ npos) :
    find 'E' line + 1 ≤ line.length ∧
    (∀ count, substr line ((find 'E' line + 1) % sizeMod) count ≠ none) ∧
    (∃ name, entityName line = some name ∧ name ≠ []) ∧
    (find '<' line = npos → entityName line = some "Entity".toList) ∧
    ∃ p', p.Parse code = some (true, p') ∧ ∀ e ∈ p'.m_Entities, e.m_Name ≠ [] := by
  have hlt := find_lt 'E' line hE
  refine ⟨hlt, fun count => ?_, ?_, fun hno => by simp [entityName, hno], ?_⟩
  · have hle := find_succ_le line hE
    simp [substr, not_lt.2 hle]
  · obtain ⟨name, hn⟩ := entityName_total line hE
    exact ⟨name, hn, entityName_ne_nil _ _ hn⟩
  · rcases hs : parseLines ⟨Parser.new, none⟩ (getlines code) with _ | st
    · obtain ⟨st, h⟩ := parseLines_total (getlines code) ⟨Parser.new, none⟩
      rw [hs] at h
      cases h
    · refine ⟨{ st.parser with m_IsParsed := true }, ?_, ?_⟩
      · simp only [Parser.Parse]
        exact congrArg (Option.map _) hs
      · exact parseLines_names _ _ _ hs (by simp [Parser.new])

theorem entity_name_extraction_safe_witness :
    find 'E' "N<E".toList ≠ npos ∧ entityName "N<E".toList = some "Entity".toList ∧
      find 'E' "N<E".toList + 1 ≤ "N<E".toList.length :=
  ⟨by decide, by decide,
    (entity_name_extraction_safe Parser.new "N<E".toList "N<E".toList (by decide)).1⟩

end Aopl

/-- C8: the empty source is not an error.  `Parser::Parse("")` returns true on
any parser and leaves an empty entity list (and `Compile` then returns true);
`aopl.parse("")` returns the program with an empty body, and compiling it
gives the prologue followed at once by the epilogue, with no entity record. -/
theorem empty_source_compiles (p : Aopl.Parser) :
    (∃ p', p.Parse [] = some (true, p') ∧ p'.GetEntities = [] ∧ p'.Compile.1 = true) ∧
      Web.parse [] = some ⟨[]⟩ ∧
      Web.compileAOPL [] = some (Web.prologue ++ Web.epilogue) ∧
      Web.generateJavaScript ⟨[]⟩ = Web.prologue ++ Web.epilogue :=
  ⟨⟨_, rfl, rfl, rfl⟩, rfl, rfl, rfl⟩

namespace Core

/-- C22: from a state with no engine, platform and renderer instance,
`Engine::Initialize` returns true for every target, name and flag; after a
following `Engine::Shutdown` the three instances are gone again, and a further
`Engine::Initialize` (any name and flag) returns true. -/
theorem initialize_succeeds_from_clean_state (t : Target) (appName again : Str)
    (enable enableAgain : Bool) (w : World)
    (he : w.engine = none) (hp : w.platform = none) (hr : w.renderer = none) :
    (Engine.Initialize t appName enable w).1 = true ∧
    (Engine.Shutdown (Engine.Initialize t appName enable w).2).engine = none ∧
    (Engine.Shutdown (Engine.Initialize t appName enable w).2).platform = none ∧
    (Engine.Shutdown (Engine.Initialize t appName enable w).2).renderer = none ∧
    (Engine.Initialize t again enableAgain
      (Engine.Shutdown (Engine.Initialize t appName enable w).2)).1 = true := by
  obtain ⟨h1, h2, -, -⟩ := engineInitialize_fresh t appName enable w he hp hr
  obtain ⟨s1, s2, s3, -⟩ := engineShutdown_clears _ _ h2
  exact ⟨h1, s1, s2, s3, (engineInitialize_fresh t again enableAgain _ s1 s2 s3).1⟩

theorem initialize_succeeds_from_clean_state_witness :
    World.start.engine = none ∧
      (Engine.Initialize ⟨false, false, false, true, false⟩ "EngineTest".toList true
        World.start).1 = true ∧
      (Engine.Initialize ⟨false, false, false, true, false⟩ "EngineTest".toList true
        (Engine.Shutdown (Engine.Initialize ⟨false, false, false, true, false⟩
          "EngineTest".toList true World.start).2)).1 = true :=
  ⟨rfl,
    (initialize_succeeds_from_clean_state ⟨false, false, false, true, false⟩ "EngineTest".toList
      "EngineTest".toList true true World.start rfl rfl rfl).1,
    (initialize_succeeds_from_clean_state ⟨false, false, false, true, false⟩ "EngineTest".toList
      "EngineTest".toList true true World.start rfl rfl rfl).2.2.2.2⟩

/-- C25: `Engine::Initialize` called while an engine instance exists returns
false and leaves the whole state (the engine instance with its name and flag,
the platform, the renderer and the neural engine) as it was. -/
theorem second_initialize_rejected (t : Target) (appName : Str) (enable : Bool) (w : World)
    (e : Engine) (he : w.engine = some e) :
    Engine.Initialize t appName enable w = (false, w) := by
  simp [Engine.Initialize, he]

theorem second_initialize_rejected_witness :
    (Engine.Initialize ⟨true, true, false, false, false⟩ "First".toList true World.start).2.engine =
        some ⟨true, true, "First".toList⟩ ∧
      Engine.Initialize ⟨true, true, false, false, false⟩ "Second".toList false
          (Engine.Initialize ⟨true, true, false, false, false⟩ "First".toList true World.start).2 =
        (false,
          (Engine.Initialize ⟨true, true, false, false, false⟩ "First".toList true World.start).2) :=
  ⟨by decide,
    second_initialize_rejected ⟨true, true, false, false, false⟩ "Second".toList false
      (Engine.Initialize ⟨true, true, false, false, false⟩ "First".toList true World.start).2
      ⟨true, true, "First".toList⟩ (by decide)⟩

/-- C23 (the code at the failing input): from the program start, where
neither the neural engine nor the platform layer is initialized (the state of
the test `Initialization`), `NeuralEngine::Initialize` returns true and the
following `IsAvailable` returns false, on a Linux target and also on an Apple
arm64 target; on the Apple arm64 target the same two calls made after
`Platform::Initialize` give true and true. -/
theorem initialize_true_but_unavailable :
    (NeuralEngine.Initialize ⟨false, false, false, true, false⟩ World.start).1 = true ∧
      NeuralEngine.IsAvailable
        (NeuralEngine.Initialize ⟨false, false, false, true, false⟩ World.start).2 = false ∧
      (NeuralEngine.Initialize ⟨true, true, false, false, false⟩ World.start).1 = true ∧
      NeuralEngine.IsAvailable
        (NeuralEngine.Initialize ⟨true, true, false, false, false⟩ World.start).2 = false ∧
      (NeuralEngine.Initialize ⟨true, true, false, false, false⟩
        (Platform.Initialize ⟨true, true, false, false, false⟩ World.start).2).1 = true ∧
      NeuralEngine.IsAvailable
        (NeuralEngine.Initialize ⟨true, true, false, false, false⟩
          (Platform.Initialize ⟨true, true, false, false, false⟩ World.start).2).2 = true := by
  decide

/-- C28 (the code at the failing input): on an initialized neural engine with
every file present, loading two models, unloading the first and loading a
third gives the ids 0, 1 and 1: two loaded models share the id 1, inference on
the id 1 runs on the second model and not on the third, and unloading the id 1
leaves a model with the id 1 loaded. -/
theorem model_ids_collide_after_unload :
    let fileExists : Str → Bool := fun _ => true
    let ne0 : NeuralEngine :=
      { m_IsInitialized := true, m_IsNeuralEngineAvailable := false, m_LoadedModels := [] }
    let a := ne0.LoadModel fileExists "a.onnx".toList
    let b := a.2.LoadModel fileExists "b.onnx".toList
    let c := (b.2.UnloadModel a.1).LoadModel fileExists "c.onnx".toList
    (a.1, b.1, c.1) = (0, 1, 1) ∧
      c.2.m_LoadedModels = [⟨1, "b.onnx".toList⟩, ⟨1, "c.onnx".toList⟩] ∧
      ¬ (c.2.m_LoadedModels.map fun m => m.id).Nodup ∧
      c.2.RunInference c.1 = some ⟨1, "b.onnx".toList⟩ ∧
      (c.2.UnloadModel c.1).m_LoadedModels = [⟨1, "c.onnx".toList⟩] := by
  decide

end Core

namespace Test

/-- C24: in every state of the mock, `LoadModel`, `RunInference` and
`UnloadModel` act on the first expectation of their list that matches the
argument and has not been called: `LoadModel` returns its `returnId`,
`RunInference` its `returnData`, and each marks that expectation as called and
changes nothing else; without such an expectation they return -1, the empty
vector, or nothing, and change nothing.  The `Expect` methods append an
expectation that has not been called.  `VerifyAllExpectations` returns true
exactly when every expectation of the three lists has been called. -/
theorem mock_serves_first_unconsumed_expectation (m : MockNeuralEngine) :
    (∀ (p : Str) (pre post : List ModelExpectation) (e : ModelExpectation),
      m.m_LoadExpectations = pre ++ e :: post →
      (∀ x ∈ pre, ¬ (x.path = p ∧ x.called = false)) → e.path = p → e.called = false →
      m.LoadModel p =
        (e.returnId, { m with m_LoadExpectations := pre ++ { e with called := true } :: post })) ∧
    (∀ (id : Int) (input : List Float32) (shape : List Int)
        (pre post : List InferenceExpectation) (e : InferenceExpectation),
      m.m_InferenceExpectations = pre ++ e :: post →
      (∀ x ∈ pre, ¬ (x.modelId = id ∧ x.called = false)) → e.modelId = id → e.called = false →
      m.RunInference id input shape =
        (e.returnData,
          { m with m_InferenceExpectations := pre ++ { e with called := true } :: post })) ∧
    (∀ (id : Int) (pre post : List UnloadExpectation) (e : UnloadExpectation),
      m.m_UnloadExpectations = pre ++ e :: post →
      (∀ x ∈ pre, ¬ (x.modelId = id ∧ x.called = false)) → e.modelId = id → e.called = false →
      m.UnloadModel id =
        { m with m_UnloadExpectations := pre ++ { e with called := true } :: post }) ∧
    (∀ p : Str, (∀ x ∈ m.m_LoadExpectations, ¬ (x.path = p ∧ x.called = false)) →
      m.LoadModel p = (-1, m)) ∧
    (∀ (id : Int) (input : List Float32) (shape : List Int),
      (∀ x ∈ m.m_InferenceExpectations, ¬ (x.modelId = id ∧ x.called = false)) →
      m.RunInference id input shape = ([], m)) ∧
    (∀ id : Int, (∀ x ∈ m.m_UnloadExpectations, ¬ (x.modelId = id ∧ x.called = false)) →
      m.UnloadModel id = m) ∧
    (∀ (p : Str) (id : Int), m.ExpectLoadModel p id =
      { m with m_LoadExpectations := m.m_LoadExpectations ++ [⟨p, id, false⟩] }) ∧
    (∀ (id : Int) (data : List Float32), m.ExpectRunInference id data =
      { m with m_InferenceExpectations := m.m_InferenceExpectations ++ [⟨id, data, false⟩] }) ∧
    (∀ id : Int, m.ExpectUnloadModel id =
      { m with m_UnloadExpectations := m.m_UnloadExpectations ++ [⟨id, false⟩] }) ∧
    (m.VerifyAllExpectations = true ↔
      (∀ e ∈ m.m_LoadExpectations, e.called = true) ∧
      (∀ e ∈ m.m_UnloadExpectations, e.called = true) ∧
      (∀ e ∈ m.m_InferenceExpectations, e.called = true)) := by
  refine ⟨?_, ?_, ?_, ?_, ?_, ?_, fun _ _ => rfl, fun _ _ => rfl, fun _ => rfl, ?_⟩
  · intro p pre post e hm hpre hp hc
    simp only [MockNeuralEngine.LoadModel, hm, loadLoop_first p pre post e hpre hp hc]
  · intro id input shape pre post e hm hpre hp hc
    simp only [MockNeuralEngine.RunInference, hm, inferenceLoop_first id pre post e hpre hp hc]
  · intro id pre post e hm hpre hp hc
    simp only [MockNeuralEngine.UnloadModel, hm, unloadLoop_first id pre post e hpre hp hc]
  · intro p h
    simp only [MockNeuralEngine.LoadModel, loadLoop_none p _ h]
  · intro id input shape h
    simp only [MockNeuralEngine.RunInference, inferenceLoop_none id _ h]
  · intro id h
    simp only [MockNeuralEngine.UnloadModel, unloadLoop_none id _ h]
  · rw [verify_eq]
    simp [Bool.and_eq_true, List.all_eq_true, and_assoc]

theorem mock_serves_first_unconsumed_expectation_witness :
    ((MockNeuralEngine.new.ExpectLoadModel "a".toList 7).ExpectLoadModel "a".toList 42).LoadModel
        "a".toList =
      (7, { MockNeuralEngine.new with
            m_LoadExpectations := [⟨"a".toList, 7, true⟩, ⟨"a".toList, 42, false⟩] }) ∧
    ((((MockNeuralEngine.new.ExpectLoadModel "a".toList 7).ExpectLoadModel "a".toList
        42).LoadModel "a".toList).2.LoadModel "a".toList).1 = 42 :=
  ⟨(mock_serves_first_unconsumed_expectation
      ((MockNeuralEngine.new.ExpectLoadModel "a".toList 7).ExpectLoadModel "a".toList 42)).1
      "a".toList [] [⟨"a".toList, 42, false⟩] ⟨"a".toList, 7, false⟩ rfl (by simp) rfl rfl,
    by decide⟩

end Test

end GaiaMatrix
